import Mathlib

/-!
Shallow embedding of the copper-clearance DRC test provider
(pcbnew/drc/drc_test_provider_copper_clearance.cpp) of a PCB design tool.

Board items are identified by natural-number ids; their attributes are
supplied by an abstract board model.  Geometry primitives that live outside
the embedded file (shape collision, R-tree queries, the segment-distance
primitive) are oracles carried by the `World` structure; the control flow,
guards, memoisation and report construction of the DRC file itself are
embedded faithfully, definition by definition.
-/

namespace KicadDrc

/-- Integer 2-d vector (VECTOR2I). -/
structure V2 where
  x : Int
  y : Int
deriving DecidableEq, Repr

/-- Integer segment (SEG) with endpoints A and B. -/
structure Seg where
  A : V2
  B : V2
deriving DecidableEq, Repr

/-- 2-d cross product of two vectors. -/
def cross (p q : V2) : Int := p.x * q.y - p.y * q.x

/-- Modelled from the spec: the segment-intersection
primitive (the sources of the geometry library are not part of the provided
files).  It returns the crossing point of the two segments when their
directions are not parallel and the crossing point lies within both
segments; parallel (zero cross product) direction vectors, which includes
every pair of collinear or identical segments, yield no intersection.  The
returned point is the exact rational intersection rounded toward zero; the
inputs used in this development make that division exact. -/
def segIntersect (s1 s2 : Seg) : Option V2 :=
  let e : V2 := ⟨s1.B.x - s1.A.x, s1.B.y - s1.A.y⟩
  let f : V2 := ⟨s2.B.x - s2.A.x, s2.B.y - s2.A.y⟩
  let ac : V2 := ⟨s2.A.x - s1.A.x, s2.A.y - s1.A.y⟩
  let d := cross f e
  let p := cross f ac
  let q := cross e ac
  if d = 0 then none
  else if d > 0 ∧ (q < 0 ∨ q > d ∨ p < 0 ∨ p > d) then none
  else if d < 0 ∧ (q < d ∨ p < d ∨ p > 0 ∨ q > 0) then none
  else some ⟨s2.A.x + q * f.x / d, s2.A.y + q * f.y / d⟩

/-- Board item type tags (PCB_TRACE_T, PCB_ARC_T, PCB_VIA_T, PCB_PAD_T,
PCB_FP_SHAPE_T, PCB_SHAPE_T, PCB_TEXT_T, PCB_FP_TEXT_T, PCB_BITMAP_T,
PCB_ZONE_T). -/
inductive ItemKind
  | trace
  | arc
  | via
  | pad
  | fpShape
  | boardShape
  | textItem
  | fpText
  | bitmap
  | zone
deriving DecidableEq, Repr

/-- dynamic_cast to PCB_TRACK succeeds for traces, arcs and vias. -/
def ItemKind.isTrackClass : ItemKind → Bool
  | .trace => true
  | .arc => true
  | .via => true
  | _ => false

/-- dynamic_cast to BOARD_CONNECTED_ITEM: tracks, vias, pads, copper shapes
and zones carry net codes. -/
def ItemKind.isConnectedClass : ItemKind → Bool
  | .trace => true
  | .arc => true
  | .via => true
  | .pad => true
  | .fpShape => true
  | .boardShape => true
  | .zone => true
  | _ => false

/-- Pad attribute (PAD_ATTRIB). -/
inductive PadAttrib
  | pth
  | npth
  | smd
  | conn
deriving DecidableEq, Repr

/-- Attributes of one board item, as queried by the DRC code. -/
structure Item where
  kind : ItemKind
  net : Int
  layers : List Nat
  hasHole : Bool := false
  segStart : V2 := ⟨0, 0⟩
  segEnd : V2 := ⟨0, 0⟩
  padAttrib : PadAttrib := .smd
  flash : Nat → Bool := fun _ => true
  isFreePad : Bool := false
  parent : Option Nat := none
  padNumber : Nat := 0
  drill : Int := 0
  isRuleArea : Bool := false
  isKnockout : Bool := false
  primaryLayer : Nat := 0
  pos : V2 := ⟨0, 0⟩

/-- Reference to an effective shape: the solid copper shape of an item on a
layer, the hole shape of an item, or the null shape produced when the hole of a via is requested on a layer outside its span. -/
inductive ShapeRef
  | solid (item : Nat) (layer : Nat)
  | holeOf (item : Nat)
  | nullShape
deriving DecidableEq, Repr

/-- Constraint kinds used by this provider. -/
inductive CKind
  | clearanceC
  | holeC
deriving DecidableEq, Repr

/-- Rule severity (RPT_SEVERITY_...). -/
inductive Severity
  | error
  | warning
  | ignore
  | undefined
deriving DecidableEq, Repr

/-- A resolved constraint: numeric value, severity, and parent rule id. -/
structure Constraint where
  value : Int
  severity : Severity
  rule : Nat
deriving DecidableEq, Repr

/-- A default-constructed DRC_CONSTRAINT as used before EvalRules runs. -/
def defaultConstraint : Constraint := ⟨0, .undefined, 0⟩

/-- Violation kinds (DRCE_...). -/
inductive VKind
  | clearanceV
  | holeClearanceV
  | tracksCrossingV
  | zonesIntersectV
  | shortingItemsV
deriving DecidableEq, Repr

/-- A reported violation: kind, the two items (in SetItems order), the
report position and layer. -/
structure Violation where
  kind : VKind
  itemA : Nat
  itemB : Nat
  pos : V2
  layer : Nat
deriving DecidableEq, Repr

/-- Which guard a geometric test ran under: a CLEARANCE-gated collision, a
HOLE_CLEARANCE-gated collision, or an ungated geometric probe (the free-pad
collision and the knockout-text net-inheritance query). -/
inductive GateKind
  | clearanceG
  | holeG
  | probeG
deriving DecidableEq, Repr

/-- Log entry for one geometric collision test: the gate, the item pair in
the order it was passed to EvalRules, the layer, and the clearance budget
passed to the collision primitive. -/
structure CollideCall where
  gate : GateKind
  itemA : Nat
  itemB : Nat
  layer : Nat
  budget : Int
deriving DecidableEq, Repr

/-- The board model plus the external oracles consumed by the provider:
the rule evaluator, the error-limit flags, the collision primitives and
the spatial-index queries.  Everything the embedded file reads but does
not itself compute lives here. -/
structure World where
  items : Nat → Item
  tracks : List Nat
  pads : List Nat
  drawings : List Nat
  fpGraphics : List Nat
  zones : List Nat
  copperLayers : List Nat
  enabledCopper : List Nat
  maxClearance : Int
  eps : Int
  evalRules : CKind → Nat → Nat → Nat → Constraint
  limitExceeded : VKind → Bool
  reportAllTrackErrors : Bool
  cancelled : Bool
  netTieExclusion : Int → Nat → V2 → Nat → Bool
  collide : ShapeRef → ShapeRef → Int → Option (Int × V2)
  rtree : Nat → Nat → List Nat
  zoneTreePresent : Nat → Bool
  zoneQuery : Nat → ShapeRef → Nat → Int → Option (Int × V2)
  zoneProbe : Nat → ShapeRef → Nat → Bool
  bboxHitZone : Nat → Nat → Bool
  netTieGroup : Option Nat → Nat → Int
  sameLogical : Nat → Nat → Bool
  zoneFillSegs : Nat → Nat → List Seg
  fillBBoxHit : Nat → Nat → Nat → Bool
  segClear : Seg → Seg → Int → Int × V2

/-- Result of one item-against-item test call: the violations it reported,
the collision tests it performed, and its boolean return value. -/
structure TestOut where
  viols : List Violation
  calls : List CollideCall
  cont : Bool
deriving DecidableEq, Repr

/-- One iteration of the two-direction hole loop of testTrackAgainstItem:
`a` is tested as the track-side item, `b` as the holder of the hole.
Returns the collision calls made and the hole violation, if any. -/
def trackHoleIter (w : World) (aId bId : Nat) (aShape : ShapeRef) (layer : Nat) :
    List CollideCall × Option Violation :=
  let aIt := w.items aId
  let bIt := w.items bId
  if ¬ aIt.kind.isTrackClass ∨ ¬ bIt.hasHole then ([], none)
  else
    let holeShape : ShapeRef :=
      if bIt.kind = .via then
        (if layer ∈ bIt.layers then .holeOf bId else .nullShape)
      else .holeOf bId
    let c := w.evalRules .holeC bId aId layer
    let clearance := c.value
    if c.severity ≠ Severity.ignore then
      let budget := max 0 (clearance - w.eps)
      let call : CollideCall := ⟨.holeG, bId, aId, layer, budget⟩
      match w.collide aShape holeShape budget with
      | some (_, pt) => ([call], some ⟨.holeClearanceV, aId, bId, pt, layer⟩)
      | none => ([call], none)
    else ([], none)

/-- The clearance section of testTrackAgainstItem: crossing special case
and the solid-shape collision.  Sum.inl is an early return of the whole
function; Sum.inr carries the accumulated violations, calls and has_error
flag into the hole section. -/
def trackClearSec (w : World) (track layer other : Nat) :
    Sum TestOut (List Violation × List CollideCall × Bool) :=
  let trackIt := w.items track
  let otherIt := w.items other
  let testClearance :=
    (! w.limitExceeded .clearanceV)
      && ! (otherIt.kind == .pad && otherIt.padAttrib == .npth && ! otherIt.flash layer)
  let cPair : Constraint × Int :=
    if testClearance then
      let c := w.evalRules .clearanceC track other layer
      (c, c.value)
    else (defaultConstraint, -1)
  if cPair.1.severity ≠ Severity.ignore ∧ cPair.2 > 0 then
    -- special processing for track:track intersections; the source builds
    -- both trackSeg and otherSeg from the endpoints of the first track
    let crossed : Option V2 :=
      if trackIt.kind = .trace ∧ otherIt.kind = .trace then
        segIntersect ⟨trackIt.segStart, trackIt.segEnd⟩ ⟨trackIt.segStart, trackIt.segEnd⟩
      else none
    match crossed with
    | some ipt =>
        Sum.inl ⟨[⟨.tracksCrossingV, track, other, ipt, layer⟩], [], false⟩
    | none =>
      let budget := cPair.2 - w.eps
      let call : CollideCall := ⟨.clearanceG, track, other, layer, budget⟩
      match w.collide (.solid track layer) (.solid other layer) budget with
      | some (_, pt) =>
          if w.netTieExclusion trackIt.net layer pt other then
            Sum.inr ([], [call], false)
          else
            let v : Violation := ⟨.clearanceV, track, other, pt, layer⟩
            if ! w.reportAllTrackErrors then Sum.inl ⟨[v], [call], false⟩
            else Sum.inr ([v], [call], true)
      | none => Sum.inr ([], [call], false)
  else Sum.inr ([], [], false)

/-- testTrackAgainstItem: clearance test of one track/via against another
copper item on one layer.  Returns false when a violation was reported and
testing of this pair should stop. -/
def testTrackAgainstItem (w : World) (track layer other : Nat) : TestOut :=
  let trackIt := w.items track
  let otherIt := w.items other
  let testHoles := ! w.limitExceeded .holeClearanceV
  match trackClearSec w track layer other with
  | Sum.inl out => out
  | Sum.inr (vs, cs, hasError) =>
    if testHoles ∧ (trackIt.hasHole ∨ otherIt.hasHole) then
      match trackHoleIter w track other (.solid track layer) layer with
      | (cs0, some v0) => ⟨vs ++ [v0], cs ++ cs0, false⟩
      | (cs0, none) =>
        match trackHoleIter w other track (.solid other layer) layer with
        | (cs1, some v1) => ⟨vs ++ [v1], cs ++ cs0 ++ cs1, false⟩
        | (cs1, none) => ⟨vs, cs ++ cs0 ++ cs1, !hasError⟩
    else ⟨vs, cs, !hasError⟩

/-- The clearance part of testItemAgainstZone: the zone-tree query under
the clearance constraint. -/
def zoneClearPart (w : World) (item zone layer : Nat) (tc : Bool) :
    List Violation × List CollideCall :=
  let cPair : Constraint × Int :=
    if tc then
      let c := w.evalRules .clearanceC item zone layer
      (c, c.value)
    else (defaultConstraint, -1)
  if cPair.1.severity ≠ Severity.ignore ∧ cPair.2 > 0 then
    let budget := max 0 (cPair.2 - w.eps)
    let call : CollideCall := ⟨.clearanceG, item, zone, layer, budget⟩
    match w.zoneQuery zone (.solid item layer) layer budget with
    | some (_, pt) => ([⟨.clearanceV, item, zone, pt, layer⟩], [call])
    | none => ([], [call])
  else ([], [])

/-- The hole part of testItemAgainstZone: the zone-tree query of the item
hole shape under the hole-clearance constraint. -/
def zoneHolePart (w : World) (item zone layer : Nat) (th : Bool) :
    List Violation × List CollideCall :=
  if th ∧ (w.items item).hasHole then
    let holeShape : Option ShapeRef :=
      if (w.items item).kind = .via then
        (if layer ∈ (w.items item).layers then some (.holeOf item) else none)
      else some (.holeOf item)
    match holeShape with
    | none => ([], [])
    | some hs =>
      let c := w.evalRules .holeC item zone layer
      if c.severity ≠ Severity.ignore ∧ c.value > 0 then
        let budget := max 0 (c.value - w.eps)
        let call : CollideCall := ⟨.holeG, item, zone, layer, budget⟩
        match w.zoneQuery zone hs layer budget with
        | some (_, pt) => ([⟨.holeClearanceV, item, zone, pt, layer⟩], [call])
        | none => ([], [call])
      else ([], [])
  else ([], [])

/-- testItemAgainstZone: clearance and hole-clearance test of one item
against one copper zone on one layer.  Returns the violations reported and
the gated collision tests performed. -/
def testItemAgainstZone (w : World) (item zone layer : Nat) :
    List Violation × List CollideCall :=
  let it := w.items item
  let zIt := w.items zone
  if ¬ layer ∈ zIt.layers then ([], [])
  else if zIt.net ≠ 0 ∧ it.kind.isConnectedClass ∧ zIt.net = it.net then ([], [])
  else if ¬ w.bboxHitZone item zone then ([], [])
  else
    let testClearance0 := ! w.limitExceeded .clearanceV
    let testHoles := ! w.limitExceeded .holeClearanceV
    if ¬ testClearance0 ∧ ¬ testHoles then ([], [])
    else if ¬ w.zoneTreePresent zone then ([], [])
    else
      let testClearance :=
        if it.kind = .pad ∧ ¬ it.flash layer ∧ ¬ (it.hasHole ∧ it.padAttrib = .pth) then
          false
        else testClearance0
      let cp := zoneClearPart w item zone layer testClearance
      let hp := zoneHolePart w item zone layer testHoles
      (cp.1 ++ hp.1, cp.2 ++ hp.2)

/-- The report part of testKnockoutTextAgainstZone: the gated query and
the shorting-or-clearance choice. -/
def knockoutReport (w : World) (text zone layer : Nat) (testShorts : Bool)
    (inherited2 : Option Int) : List Violation × List CollideCall :=
  let c := w.evalRules .clearanceC text zone layer
  if c.severity ≠ Severity.ignore ∧ c.value ≥ 0 then
    let budget := max 0 (c.value - w.eps)
    let call : CollideCall := ⟨.clearanceG, text, zone, layer, budget⟩
    match w.zoneQuery zone (.solid text layer) layer budget with
    | some (actual, pt) =>
      if testShorts ∧ actual = 0 ∧ inherited2.isSome then
        ([⟨.shortingItemsV, text, zone, pt, layer⟩], [call])
      else ([⟨.clearanceV, text, zone, pt, layer⟩], [call])
    | none => ([], [call])
  else ([], [])

/-- testKnockoutTextAgainstZone: knockout text is presumed to collide with
one zone; colliding with a second zone of a different net is a short.
Threads the inherited net through the per-zone calls. -/
def testKnockoutTextAgainstZone (w : World) (text : Nat) (inheritedNet : Option Int)
    (zone : Nat) : Option Int × List Violation × List CollideCall :=
  let tIt := w.items text
  let zIt := w.items zone
  let testClearance := ! w.limitExceeded .clearanceV
  let testShorts := ! w.limitExceeded .shortingItemsV
  if ¬ testClearance ∧ ¬ testShorts then (inheritedNet, [], [])
  else
    let layer := tIt.primaryLayer
    if ¬ layer ∈ zIt.layers then (inheritedNet, [], [])
    else if ¬ w.bboxHitZone text zone then (inheritedNet, [], [])
    else if ¬ w.zoneTreePresent zone then (inheritedNet, [], [])
    else
      let probe : List CollideCall :=
        if inheritedNet = none then [⟨.probeG, text, zone, layer, 0⟩] else []
      let inherited2 : Option Int :=
        if inheritedNet = none then
          (if w.zoneProbe zone (.solid text layer) layer then some zIt.net else none)
        else inheritedNet
      if inherited2 = some zIt.net then (inherited2, [], probe)
      else
        let r := knockoutReport w text zone layer testShorts inherited2
        (inherited2, r.1, probe ++ r.2)

/-- The test-enable flags of testPadAgainstItem, in source order:
returns (testClearance, testShorting, testHoles) after the net-tie,
layer, NPTH, track-class, same-net and drill-size disables. -/
def padFlags (w : World) (padId layer other : Nat) : Bool × Bool × Bool :=
  let padIt := w.items padId
  let otherIt := w.items other
  let testClearance1 := ! w.limitExceeded .clearanceV
  let testShorting := ! w.limitExceeded .shortingItemsV
  let testHoles1 := ! w.limitExceeded .holeClearanceV
  -- net-tie exceptions inside one footprint
  let sameParent := otherIt.parent = padIt.parent
  let padGroupIdx := w.netTieGroup padIt.parent padIt.padNumber
  let tc2 :=
    if sameParent ∧ otherIt.kind = .pad ∧ padGroupIdx ≥ 0
        ∧ padGroupIdx = w.netTieGroup padIt.parent otherIt.padNumber then false
    else if sameParent ∧ otherIt.kind = .fpShape ∧ padGroupIdx ≥ 0 then false
    else testClearance1
  let th2 :=
    if sameParent ∧ otherIt.kind = .pad ∧ w.sameLogical padId other then false
    else testHoles1
  let isOtherPad := otherIt.kind = .pad
  let isOtherVia := otherIt.kind = .via
  let tc3 := if ¬ layer ∈ w.copperLayers then false else tc2
  let tc4 := if padIt.padAttrib = .npth ∧ ¬ padIt.flash layer then false else tc3
  let tc5 :=
    if isOtherPad ∧ otherIt.padAttrib = .npth ∧ ¬ otherIt.flash layer then false else tc4
  let tc6 := if otherIt.kind.isTrackClass then false else tc5
  let padNet := padIt.net
  let otherPadNet := if isOtherPad then otherIt.net else 0
  let otherViaNet := if isOtherVia then otherIt.net else 0
  let netWaiver :=
    (otherPadNet ≠ 0 ∧ otherPadNet = padNet) ∨ (otherViaNet ≠ 0 ∧ otherViaNet = padNet)
  let tc7 := if netWaiver then false else tc6
  let th3 := if netWaiver then false else th2
  let th4 :=
    if ¬ padIt.drill > 0 ∧ ¬ (isOtherPad ∧ otherIt.drill > 0)
        ∧ ¬ (isOtherVia ∧ otherIt.drill > 0) then false
    else th3
  (tc7, testShorting, th4)

/-- The clearance section of testPadAgainstItem.  The third component is
the running testHoles flag, cleared on a reported violation (no need for
multiple violations). -/
def padClearSec (w : World) (padId layer other : Nat) (tc th : Bool) :
    List Violation × List CollideCall × Bool :=
  if tc then
    let c := w.evalRules .clearanceC padId other layer
    if c.severity ≠ Severity.ignore ∧ c.value > 0 then
      let budget := max 0 (c.value - w.eps)
      let call : CollideCall := ⟨.clearanceG, padId, other, layer, budget⟩
      match w.collide (.solid padId layer) (.solid other layer) budget with
      | some (_, pt) =>
        if w.netTieExclusion (w.items padId).net layer pt other then ([], [call], th)
        else ([⟨.clearanceV, padId, other, pt, layer⟩], [call], false)
      | none => ([], [call], th)
    else ([], [], th)
  else ([], [], th)

/-- One hole block of testPadAgainstItem: guarded by the running testHoles
flag and the block condition, tests shapeA against shapeB only when the
resolved hole clearance is positive; a reported violation clears the
flag. -/
def padHoleBlock (w : World) (padId other layer : Nat) (cond : Bool)
    (shA shB : ShapeRef) (clearance : Int) (th : Bool) :
    List Violation × List CollideCall × Bool :=
  if th ∧ cond then
    if clearance > 0 then
      let budget := max 0 (clearance - w.eps)
      let call : CollideCall := ⟨.holeG, padId, other, layer, budget⟩
      match w.collide shA shB budget with
      | some (_, pt) => ([⟨.holeClearanceV, padId, other, pt, layer⟩], [call], false)
      | none => ([], [call], th)
    else ([], [], th)
  else ([], [], th)

/-- testPadAgainstItem: clearance, shorting and hole-clearance tests of one
pad against another copper item on one layer. -/
def testPadAgainstItem (w : World) (padId layer other : Nat) : TestOut :=
  let padIt := w.items padId
  let otherIt := w.items other
  let fl := padFlags w padId layer other
  if ¬ fl.1 ∧ ¬ fl.2.1 ∧ ¬ fl.2.2 then ⟨[], [], false⟩
  else if otherIt.kind = .pad ∧ w.sameLogical padId other then
    -- same logical pad: equivalent pads must share a net; never a clearance test
    let shortViols : List Violation :=
      if padIt.net ≠ 0 ∧ otherIt.net ≠ 0 ∧ padIt.net ≠ otherIt.net ∧ fl.2.1 then
        [⟨.shortingItemsV, padId, other, otherIt.pos, layer⟩]
      else []
    ⟨shortViols, [], ! w.cancelled⟩
  else
    let cs := padClearSec w padId layer other fl.1 fl.2.2
    let holeEval : Constraint × Bool :=
      if cs.2.2 then
        let c := w.evalRules .holeC padId other layer
        (c, c.severity ≠ Severity.ignore)
      else (defaultConstraint, false)
    let clearance := holeEval.1.value
    let th6 := cs.2.2 && holeEval.2
    -- block 1: the flashed pad shape against the hole of the other pad
    let b1 := padHoleBlock w padId other layer
      (decide (otherIt.kind = .pad) && padIt.flash layer && otherIt.hasHole)
      (.solid padId layer) (.holeOf other) clearance th6
    -- block 2: the flashed shape of the other pad against the hole of this pad
    let b2 := padHoleBlock w padId other layer
      (decide (otherIt.kind = .pad) && otherIt.flash layer && padIt.hasHole)
      (.solid other layer) (.holeOf padId) clearance b1.2.2
    -- block 3: the pad shape against the hole of the other via
    let b3 := padHoleBlock w padId other layer
      (decide (otherIt.kind = .via) && otherIt.layers.contains layer)
      (.solid padId layer) (.holeOf other) clearance b2.2.2
    ⟨cs.1 ++ b1.1 ++ b2.1 ++ b3.1, cs.2.1 ++ b1.2.1 ++ b2.2.1 ++ b3.2.1,
      ! w.cancelled⟩

/-- Per-pair record of the track-phase checked-pairs memo (layers_checked):
the layers already tested and whether an error was already reported. -/
structure Checked where
  layers : List Nat
  hasError : Bool
deriving DecidableEq, Repr

/-- The canonical (ordered) key of an unordered item pair, mirroring the
pointer-order swap in the source. -/
def pairKey (a b : Nat) : Nat × Nat := if a > b then (b, a) else (a, b)

/-- Lookup in an association-list memo. -/
def memoFind (m : List ((Nat × Nat) × Checked)) (k : Nat × Nat) : Option Checked :=
  match m with
  | [] => none
  | (k2, c) :: rest => if k2 = k then some c else memoFind rest k

/-- checkedPairs[{a,b}].layers.set(layer): inserts a fresh record when the
pair is absent. -/
def memoSetLayer (m : List ((Nat × Nat) × Checked)) (k : Nat × Nat) (layer : Nat) :
    List ((Nat × Nat) × Checked) :=
  match m with
  | [] => [(k, ⟨[layer], false⟩)]
  | (k2, c) :: rest =>
    if k2 = k then (k2, ⟨layer :: c.layers, c.hasError⟩) :: rest
    else (k2, c) :: memoSetLayer rest k layer

/-- it->second.has_error = true, when the pair is present. -/
def memoMarkError (m : List ((Nat × Nat) × Checked)) (k : Nat × Nat) :
    List ((Nat × Nat) × Checked) :=
  match m with
  | [] => []
  | (k2, c) :: rest =>
    if k2 = k then (k2, ⟨c.layers, true⟩) :: rest
    else (k2, c) :: memoMarkError rest k

/-- Lookup in the free-pads usage map. -/
def fpFind (m : List (Nat × Int)) (k : Nat) : Option Int :=
  match m with
  | [] => none
  | (k2, n) :: rest => if k2 = k then some n else fpFind rest k

/-- Lookup in the pad-phase checked-pairs memo (pair-only keys). -/
def padMemoFind (m : List ((Nat × Nat) × Int)) (k : Nat × Nat) : Option Int :=
  match m with
  | [] => none
  | (k2, n) :: rest => if k2 = k then some n else padMemoFind rest k

/-- State threaded through the track phase: the checked-pairs memo, the
free-pads usage map, and the accumulated violations and collision calls. -/
structure TrackSt where
  memo : List ((Nat × Nat) × Checked)
  freePads : List (Nat × Int)
  viols : List Violation
  calls : List CollideCall

def TrackSt.init : TrackSt := ⟨[], [], [], []⟩

/-- The filter lambda of testTrackClearances: same-net rejection, then the
per-(pair, layer) memo with the has_error / report-all policy.  Returns the
decision and the updated memo. -/
def trackFilter (w : World) (memo : List ((Nat × Nat) × Checked))
    (track layer other : Nat) : Bool × List ((Nat × Nat) × Checked) :=
  if (w.items other).kind.isConnectedClass ∧ (w.items other).net = (w.items track).net then
    (false, memo)
  else
    let k := pairKey track other
    match memoFind memo k with
    | some c =>
      if layer ∈ c.layers ∨ (c.hasError ∧ ¬ w.reportAllTrackErrors) then (false, memo)
      else (true, memoSetLayer memo k layer)
    | none => (true, memoSetLayer memo k layer)

/-- The free-pad special case of the track visitor: a colliding free pad
is claimed by the first net and tolerated while the net matches. -/
def trackFreePadCase (w : World) (st : TrackSt) (track layer other : Nat) :
    Option (TrackSt × Bool) :=
  if (w.items other).kind = .pad ∧ (w.items other).isFreePad then
    if (w.collide (.solid other layer) (.solid track layer) 0).isSome then
      match fpFind st.freePads other with
      | none =>
        some ({ st with freePads := (other, (w.items track).net) :: st.freePads }, true)
      | some n => if n = (w.items track).net then some (st, true) else none
    else none
  else none

/-- The visitor lambda of testTrackClearances: free-pad claiming, the call
to testTrackAgainstItem, error memoisation and the continue decision. -/
def trackVisitor (w : World) (st : TrackSt) (track layer other : Nat) :
    TrackSt × Bool :=
  if w.cancelled then (st, false)
  else
    match trackFreePadCase w st track layer other with
    | some r => r
    | none =>
      let out := testTrackAgainstItem w track layer other
      let st2 := { st with viols := st.viols ++ out.viols, calls := st.calls ++ out.calls }
      if out.cont then (st2, ! w.cancelled)
      else
        let st3 := { st2 with memo := memoMarkError st2.memo (pairKey track other) }
        if ¬ w.reportAllTrackErrors then (st3, false) else (st3, ! w.cancelled)

/-- One QueryColliding run of the track phase: filter, then visitor, with
the early abort of the visitor. -/
def trackQuery (w : World) (track layer : Nat) (st : TrackSt) :
    List Nat → TrackSt
  | [] => st
  | o :: os =>
    let fr := trackFilter w st.memo track layer o
    let st2 := { st with memo := fr.2 }
    if fr.1 then
      let vr := trackVisitor w st2 track layer o
      if vr.2 then trackQuery w track layer vr.1 os else vr.1
    else trackQuery w track layer st2 os

/-- The per-(item, layer) zone loop shared by the track and pad phases:
testItemAgainstZone against every DRC copper zone, stopping after the
current zone once cancelled. -/
def zonesLoop (w : World) (item layer : Nat)
    (acc : List Violation × List CollideCall) :
    List Nat → List Violation × List CollideCall
  | [] => acc
  | z :: zs =>
    let out := testItemAgainstZone w item z layer
    let acc2 := (acc.1 ++ out.1, acc.2 ++ out.2)
    if w.cancelled then acc2 else zonesLoop w item layer acc2 zs

/-- The copper layers an item occupies, in item layer order. -/
def layersOf (w : World) (i : Nat) : List Nat :=
  (w.items i).layers.filter (fun l => w.copperLayers.contains l)

/-- Track phase, one (track, layer) iteration: spatial-index query then the
zone loop. -/
def trackStepTL (w : World) (st : TrackSt) (track layer : Nat) : TrackSt :=
  let st2 := trackQuery w track layer st (w.rtree track layer)
  let zr := zonesLoop w track layer (st2.viols, st2.calls) w.zones
  { st2 with viols := zr.1, calls := zr.2 }

/-- The (track, layer) iteration list of the track phase. -/
def tlList (w : World) : List (Nat × Nat) :=
  w.tracks.flatMap (fun t => (layersOf w t).map (fun l => (t, l)))

/-- testTrackClearances: the whole track phase.  The first progress report
fails when cancelled, so nothing runs in that case. -/
def trackPhase (w : World) : TrackSt :=
  if w.cancelled then TrackSt.init
  else (tlList w).foldl (fun st tl => trackStepTL w st tl.1 tl.2) TrackSt.init

/-- State threaded through the pad phase. -/
structure PadSt where
  memo : List ((Nat × Nat) × Int)
  viols : List Violation
  calls : List CollideCall

def PadSt.init : PadSt := ⟨[], [], []⟩

/-- The filter lambda of testPadClearances: the pair-only memo. -/
def padFilter (memo : List ((Nat × Nat) × Int)) (padId other : Nat) :
    Bool × List ((Nat × Nat) × Int) :=
  let k := pairKey padId other
  if (padMemoFind memo k).isSome then (false, memo) else (true, (k, 1) :: memo)

/-- One QueryColliding run of the pad phase: filter, then the
testPadAgainstItem visitor with its early abort. -/
def padQuery (w : World) (padId layer : Nat) (st : PadSt) : List Nat → PadSt
  | [] => st
  | o :: os =>
    let fr := padFilter st.memo padId o
    let st2 := { st with memo := fr.2 }
    if fr.1 then
      let out := testPadAgainstItem w padId layer o
      let st3 := { st2 with viols := st2.viols ++ out.viols, calls := st2.calls ++ out.calls }
      if out.cont then padQuery w padId layer st3 os else st3
    else padQuery w padId layer st2 os

/-- Pad phase, one (pad, layer) iteration. -/
def padStepPL (w : World) (st : PadSt) (padId layer : Nat) : PadSt :=
  let st2 := padQuery w padId layer st (w.rtree padId layer)
  let zr := zonesLoop w padId layer (st2.viols, st2.calls) w.zones
  { st2 with viols := zr.1, calls := zr.2 }

/-- The (pad, layer) iteration list of the pad phase. -/
def plList (w : World) : List (Nat × Nat) :=
  w.pads.flatMap (fun p => (layersOf w p).map (fun l => (p, l)))

/-- testPadClearances: the whole pad phase.  The per-pad progress report
and the cancellation check sit after each pad, so under a set cancellation
flag the first pad is still processed; the zonesLoop calls inside already
stop early themselves. -/
def padPhase (w : World) : PadSt :=
  let step := fun (st : PadSt) (pl : Nat × Nat) => padStepPL w st pl.1 pl.2
  if w.cancelled then
    match plList w with
    | [] => PadSt.init
    | pl :: _ => step PadSt.init pl
  else (plList w).foldl step PadSt.init

/-- Is an item knockout text? -/
def isKnockoutText (it : Item) : Bool :=
  (it.kind == .textItem || it.kind == .fpText) && it.isKnockout

/-- The per-graphic zone loop of testGraphicClearances, threading the
inherited net of knockout text. -/
def graphicZones (w : World) (item : Nat)
    (acc : Option Int × List Violation × List CollideCall) :
    List Nat → List Violation × List CollideCall
  | [] => (acc.2.1, acc.2.2)
  | z :: zs =>
    let it := w.items item
    if isKnockoutText it then
      let r := testKnockoutTextAgainstZone w item acc.1 z
      let acc2 := (r.1, acc.2.1 ++ r.2.1, acc.2.2 ++ r.2.2)
      if w.cancelled then (acc2.2.1, acc2.2.2) else graphicZones w item acc2 zs
    else
      let out := testItemAgainstZone w item z it.primaryLayer
      let acc2 := (acc.1, acc.2.1 ++ out.1, acc.2.2 ++ out.2)
      if w.cancelled then (acc2.2.1, acc2.2.2) else graphicZones w item acc2 zs

/-- testGraphicAgainstZone for one graphic item. -/
def graphicStep (w : World) (acc : List Violation × List CollideCall) (item : Nat) :
    List Violation × List CollideCall :=
  let it := w.items item
  if it.kind = .bitmap then acc
  else if ¬ w.copperLayers.contains it.primaryLayer then acc
  else graphicZones w item (none, acc.1, acc.2) w.zones

/-- testGraphicClearances: board drawings then footprint graphics.  The
progress report after each item stops the phase once cancelled. -/
def graphicPhase (w : World) : List Violation × List CollideCall :=
  if w.cancelled then
    match w.drawings ++ w.fpGraphics with
    | [] => ([], [])
    | g :: _ => graphicStep w ([], []) g
  else (w.drawings ++ w.fpGraphics).foldl (graphicStep w) ([], [])

/-- Orient a fill boundary segment so that A.x <= B.x. -/
def orientSeg (s : Seg) : Seg := if s.A.x > s.B.x then ⟨s.B, s.A⟩ else s

/-- The strict segment order used to sort the per-zone boundary-segment
list: lexicographic on (A, B) with points compared x-then-y. -/
def segLtB (s t : Seg) : Bool :=
  if s.A.x ≠ t.A.x then decide (s.A.x < t.A.x)
  else if s.A.y ≠ t.A.y then decide (s.A.y < t.A.y)
  else if s.B.x ≠ t.B.x then decide (s.B.x < t.B.x)
  else decide (s.B.y < t.B.y)

def insertSeg (s : Seg) : List Seg → List Seg
  | [] => [s]
  | t :: ts => if segLtB s t then s :: t :: ts else t :: insertSeg s ts

/-- Insertion sort of a boundary-segment list (the std::sort of the source over
the segment order; the sorted result is what the sweep relies on). -/
def sortSegs : List Seg → List Seg
  | [] => []
  | s :: ss => insertSeg s (sortSegs ss)

/-- The per-(zone, layer) boundary-segment list the zone phase builds:
each fractured fill segment oriented so A.x <= B.x, then sorted. -/
def builtSegs (w : World) (zone layer : Nat) : List Seg :=
  sortSegs ((w.zoneFillSegs zone layer).map orientSeg)

/-- Result of the zone sweep scan: a conflict, a cancellation halt, or an
exhausted scan. -/
inductive ScanRes
  | found (pt : V2) (d : Int)
  | halted
  | exhausted
deriving DecidableEq, Repr

/-- Inner loop of the checkZones sweep, for one reference segment `r` over
the candidate list: break as soon as r.B.x < candidate.A.x, otherwise take
the segment-pair clearance and report a conflict when it is below the
required clearance (an intersection when the zones-intersect test is on,
or any conflict when the clearance test is on). -/
def zoneInner (w : World) (tc ti : Bool) (cl : Int) (r : Seg) :
    List Seg → ScanRes
  | [] => .exhausted
  | t :: ts =>
    if r.B.x < t.A.x then .exhausted
    else
      let dp := w.segClear t r cl
      if dp.1 < cl ∧ ((dp.1 = 0 ∧ ti) ∨ tc) then .found dp.2 dp.1
      else if w.cancelled then .halted
      else zoneInner w tc ti cl r ts

/-- Outer loop of the checkZones sweep over the reference segments. -/
def zoneOuter (w : World) (tc ti : Bool) (cl : Int) (tests : List Seg) :
    List Seg → ScanRes
  | [] => .exhausted
  | r :: rs =>
    match zoneInner w tc ti cl r tests with
    | .found pt d => .found pt d
    | .halted => .halted
    | .exhausted => zoneOuter w tc ti cl tests rs

/-- The ordered index-free zone pairs of the double loop (ia, ia2 > ia). -/
def zonePairsList : List Nat → List (Nat × Nat)
  | [] => []
  | z :: zs => zs.map (fun z2 => (z, z2)) ++ zonePairsList zs

/-- One unit of zone-pair work submitted to the thread pool. -/
structure ZoneSub where
  za : Nat
  zb : Nat
  clear : Int
  layer : Nat
deriving DecidableEq, Repr

/-- The zone-pair submissions of one layer: both zones on the layer,
different nets, no rule areas, overlapping fill bounding boxes, and a
positive non-ignored zone-to-zone clearance. -/
def zoneSubsLayer (w : World) (layer : Nat) : List ZoneSub :=
  (zonePairsList w.zones).filterMap fun p =>
    let zA := w.items p.1
    let zB := w.items p.2
    if ¬ zA.layers.contains layer then none
    else if ¬ zB.layers.contains layer then none
    else if zA.net = zB.net ∧ zA.net ≥ 0 then none
    else if zA.isRuleArea ∨ zB.isRuleArea then none
    else if ¬ w.fillBBoxHit p.1 p.2 layer then none
    else
      let c := w.evalRules .clearanceC p.1 p.2 layer
      if c.severity = Severity.ignore ∨ c.value ≤ 0 then none
      else some ⟨p.1, p.2, c.value, layer⟩

/-- All zone-pair submissions, over the enabled copper layers. -/
def zoneSubs (w : World) : List ZoneSub :=
  w.enabledCopper.flatMap (zoneSubsLayer w)

/-- The report_data tuple of one finished checkZones task. -/
structure ReportData where
  za : Nat
  zb : Nat
  pt : V2
  actual : Int
  required : Int
  layer : Nat
deriving DecidableEq, Repr

/-- The checkZones task body: sweep the segments of zoneA (reference) against
the segments of zoneB (candidates). -/
def checkZones (w : World) (tc ti : Bool) (s : ZoneSub) : Option ReportData :=
  match zoneOuter w tc ti s.clear (builtSegs w s.zb s.layer)
      (builtSegs w s.za s.layer) with
  | .found pt d => some ⟨s.za, s.zb, pt, d, s.clear, s.layer⟩
  | _ => none

/-- The future-collection loop body: an intersection (distance 0) reports
ZONES_INTERSECT when that test is on, otherwise a CLEARANCE violation when
that test is on. -/
def reportZone (tc ti : Bool) (rd : ReportData) : List Violation :=
  if rd.actual ≤ 0 ∧ ti then [⟨.zonesIntersectV, rd.za, rd.zb, rd.pt, rd.layer⟩]
  else if tc then [⟨.clearanceV, rd.za, rd.zb, rd.pt, rd.layer⟩]
  else []

/-- testZonesToZones: submissions, sweeps, and the sequential collection
of results.  Once cancelled, either the progress report stops the
submission loops or the remaining futures are drained unprocessed, so no
violations are reported. -/
def zonePhase (w : World) : List Violation :=
  let tc := ! w.limitExceeded .clearanceV
  let ti := ! w.limitExceeded .zonesIntersectV
  if w.cancelled then []
  else
    (zoneSubs w).flatMap fun s =>
      match checkZones w tc ti s with
      | some rd => reportZone tc ti rd
      | none => []

/-- Tags of the phases Run actually executed. -/
inductive PhaseTag
  | trackP
  | padP
  | graphicP
  | zoneP
deriving DecidableEq, Repr

/-- The outcome of Run: all reported violations, all logged geometric
tests, the phases that ran, and the boolean return value. -/
structure RunOut where
  viols : List Violation
  calls : List CollideCall
  phases : List PhaseTag
  ok : Bool
deriving DecidableEq, Repr

/-- Run: the phase sequence with its error-limit gates, the early exit
when the board has no positive maximum clearance, and the cancellation
checks at each phase report. -/
def runModel (w : World) : RunOut :=
  if w.maxClearance ≤ 0 then ⟨[], [], [], true⟩
  else
    let limC := w.limitExceeded .clearanceV
    let limH := w.limitExceeded .holeClearanceV
    let limS := w.limitExceeded .shortingItemsV
    let limZ := w.limitExceeded .zonesIntersectV
    let trackGate := ¬ limC ∨ ¬ limH
    if trackGate ∧ w.cancelled then ⟨[], [], [], false⟩
    else
      let t := if trackGate then trackPhase w else TrackSt.init
      let tTags : List PhaseTag := if trackGate then [.trackP] else []
      let padGate := ¬ limC ∨ ¬ limS ∨ ¬ limH
      if padGate ∧ w.cancelled then ⟨t.viols, t.calls, tTags, false⟩
      else
        let p := if padGate then padPhase w else PadSt.init
        let pTags := tTags ++ (if padGate then [PhaseTag.padP] else [])
        if ¬ limC ∧ w.cancelled then
          ⟨t.viols ++ p.viols, t.calls ++ p.calls, pTags, false⟩
        else
          let g := if ¬ limC then graphicPhase w else ([], [])
          let gTags := pTags ++ (if ¬ limC then [PhaseTag.graphicP] else [])
          let zoneGate := ¬ limC ∨ ¬ limZ
          if zoneGate ∧ w.cancelled then
            ⟨t.viols ++ p.viols ++ g.1, t.calls ++ p.calls ++ g.2, gTags, false⟩
          else
            let z := if zoneGate then zonePhase w else []
            let zTags := gTags ++ (if zoneGate then [PhaseTag.zoneP] else [])
            ⟨t.viols ++ p.viols ++ g.1 ++ z, t.calls ++ p.calls ++ g.2, zTags,
              ! w.cancelled⟩

/-! ### Predicates used by the theorems -/

/-- Two items that both carry net codes, equal and non-zero. -/
def sameNonzeroNet (w : World) (a b : Nat) : Prop :=
  (w.items a).kind.isConnectedClass = true ∧ (w.items b).kind.isConnectedClass = true
    ∧ (w.items a).net = (w.items b).net ∧ (w.items a).net ≠ 0

instance (w : World) (a b : Nat) : Decidable (sameNonzeroNet w a b) := by
  unfold sameNonzeroNet; infer_instance

/-- A gated collision test is only performed when the constraint that
gates it did not resolve to IGNORE severity. -/
def CallOk (w : World) (c : CollideCall) : Prop :=
  (c.gate = .clearanceG →
    (w.evalRules .clearanceC c.itemA c.itemB c.layer).severity ≠ Severity.ignore)
  ∧ (c.gate = .holeG →
    (w.evalRules .holeC c.itemA c.itemB c.layer).severity ≠ Severity.ignore)

/-- The (unordered pair, layer) key of a violation. -/
def clearKey (v : Violation) : (Nat × Nat) × Nat := (pairKey v.itemA v.itemB, v.layer)

/-- Well-formedness of a board world: item lists carry items of the
matching kinds, the iteration lists are duplicate-free, and the copper-item
spatial index never returns zones (zones have their own trees and are
tested by the dedicated zone paths). -/
def WF (w : World) : Prop :=
  (∀ t ∈ w.tracks, (w.items t).kind.isTrackClass = true)
  ∧ (∀ p ∈ w.pads, (w.items p).kind = .pad)
  ∧ (∀ g ∈ w.drawings ++ w.fpGraphics,
      (w.items g).kind.isTrackClass = false ∧ (w.items g).kind ≠ .pad
        ∧ (w.items g).kind ≠ .zone)
  ∧ (∀ z ∈ w.zones, (w.items z).kind = .zone)
  ∧ (tlList w).Nodup
  ∧ (plList w).Nodup
  ∧ (w.drawings ++ w.fpGraphics).Nodup
  ∧ w.zones.Nodup
  ∧ w.enabledCopper.Nodup
  ∧ (∀ t ∈ w.tracks, ∀ l ∈ layersOf w t, ∀ o ∈ w.rtree t l, (w.items o).kind ≠ .zone)
  ∧ (∀ p ∈ w.pads, ∀ l ∈ layersOf w p, ∀ o ∈ w.rtree p l, (w.items o).kind ≠ .zone)

instance (w : World) : Decidable (WF w) := by
  unfold WF; infer_instance

/-! ### Concrete boards used to evaluate the code and witness the theorems -/

/-- A neutral item. -/
def baseItem : Item := { kind := .boardShape, net := 0, layers := [] }

/-- A neutral world: no items, permissive oracles. -/
def baseWorld : World := {
  items := fun _ => baseItem
  tracks := []
  pads := []
  drawings := []
  fpGraphics := []
  zones := []
  copperLayers := [0, 1]
  enabledCopper := [0]
  maxClearance := 100
  eps := 0
  evalRules := fun _ _ _ _ => ⟨5, .error, 1⟩
  limitExceeded := fun _ => false
  reportAllTrackErrors := false
  cancelled := false
  netTieExclusion := fun _ _ _ _ => false
  collide := fun _ _ _ => none
  rtree := fun _ _ => []
  zoneTreePresent := fun _ => true
  zoneQuery := fun _ _ _ _ => none
  zoneProbe := fun _ _ _ => false
  bboxHitZone := fun _ _ => true
  netTieGroup := fun _ _ => -1
  sameLogical := fun _ _ => false
  zoneFillSegs := fun _ _ => []
  fillBBoxHit := fun _ _ _ => true
  segClear := fun _ _ cl => (cl, ⟨0, 0⟩) }

/-- Two tracks on different nets whose segments genuinely cross at (5,5),
within the clearance distance of each other. -/
def c1World : World := { baseWorld with
  items := fun i =>
    if i = 1 then
      { kind := .trace, net := 1, layers := [0], segStart := ⟨0, 0⟩, segEnd := ⟨10, 10⟩ }
    else if i = 2 then
      { kind := .trace, net := 2, layers := [0], segStart := ⟨0, 10⟩, segEnd := ⟨10, 0⟩ }
    else baseItem
  tracks := [1, 2]
  rtree := fun t _ => if t = 1 then [2] else if t = 2 then [1] else []
  collide := fun _ _ _ => some (3, ⟨5, 5⟩) }

/-- Two through-hole pads on different nets, each overlapping the hole of the other,, with a resolved hole clearance of exactly 0 (severity error) and
the plain clearance constraint ignored. -/
def c2World : World := { baseWorld with
  items := fun i =>
    if i = 1 then
      { kind := .pad, net := 1, layers := [0], hasHole := true, drill := 4,
        parent := some 1, padAttrib := .pth }
    else if i = 2 then
      { kind := .pad, net := 2, layers := [0], hasHole := true, drill := 4,
        parent := some 2, padAttrib := .pth }
    else baseItem
  pads := [1, 2]
  rtree := fun p _ => if p = 1 then [2] else if p = 2 then [1] else []
  evalRules := fun k _ _ _ =>
    if k = .holeC then ⟨0, .error, 1⟩ else ⟨5, .ignore, 1⟩
  collide := fun _ _ _ => some (0, ⟨1, 1⟩) }

/-- A world witnessing the track-path hole test at clearance 0: a via with
a hole next to a track, hole clearance resolved to 0 with severity error,
solid shapes not colliding. -/
def c2aWorld : World := { baseWorld with
  items := fun i =>
    if i = 1 then
      { kind := .trace, net := 1, layers := [0], segStart := ⟨0, 0⟩, segEnd := ⟨10, 0⟩ }
    else if i = 2 then
      { kind := .via, net := 2, layers := [0, 1], hasHole := true, drill := 4 }
    else baseItem
  tracks := [1, 2]
  rtree := fun t _ => if t = 1 then [2] else if t = 2 then [1] else []
  evalRules := fun k _ _ _ =>
    if k = .holeC then ⟨0, .error, 1⟩ else ⟨5, .error, 1⟩
  collide := fun a b _ =>
    match b with
    | .holeOf _ => some (0, ⟨2, 0⟩)
    | _ => match a with
           | .holeOf _ => some (0, ⟨2, 0⟩)
           | _ => none }

/-- Two zones on one layer whose nearest boundary segments are 1 unit
apart (collinear, x-ranges disjoint) with a required zone-to-zone
clearance of 10.  The distance oracle returns the true separation. -/
def c3World : World := { baseWorld with
  items := fun i =>
    if i = 10 then { kind := .zone, net := 1, layers := [0] }
    else if i = 11 then { kind := .zone, net := 2, layers := [0] }
    else baseItem
  zones := [10, 11]
  evalRules := fun _ _ _ _ => ⟨10, .error, 1⟩
  zoneFillSegs := fun z _ =>
    if z = 10 then [⟨⟨0, 0⟩, ⟨5, 0⟩⟩]
    else if z = 11 then [⟨⟨6, 0⟩, ⟨10, 0⟩⟩]
    else []
  segClear := fun t r _ =>
    if t = ⟨⟨6, 0⟩, ⟨10, 0⟩⟩ ∧ r = ⟨⟨0, 0⟩, ⟨5, 0⟩⟩ then (1, ⟨5, 0⟩)
    else (1000, ⟨0, 0⟩) }

/-- Two pads on different nets sharing both copper layers, within
clearance on both layers. -/
def c5World : World := { baseWorld with
  items := fun i =>
    if i = 1 then { kind := .pad, net := 1, layers := [0, 1], parent := some 1 }
    else if i = 2 then { kind := .pad, net := 2, layers := [0, 1], parent := some 2 }
    else baseItem
  pads := [1, 2]
  rtree := fun p _ => if p = 1 then [2] else if p = 2 then [1] else []
  collide := fun _ _ _ => some (2, ⟨3, 3⟩) }

/-- A pad and a copper graphic shape of the same footprintless net 7,
within clearance of each other: the same-net waiver of the pad path covers
only pads and vias, so this pair is still tested. -/
def c6World : World := { baseWorld with
  items := fun i =>
    if i = 1 then { kind := .pad, net := 7, layers := [0], parent := some 1 }
    else if i = 2 then { kind := .boardShape, net := 7, layers := [0] }
    else baseItem
  pads := [1]
  drawings := [2]
  rtree := fun p _ => if p = 1 then [2] else []
  collide := fun _ _ _ => some (2, ⟨3, 3⟩) }

/-- Two overlapping square zones (nets 1 and 2) with required clearance
15: their boundaries cross at (10,20), but the sweep first meets the pair
of segments at distance 10, which already violates the clearance.  The
distance oracle returns the true geometric separations. -/
def c7World : World := { baseWorld with
  items := fun i =>
    if i = 10 then { kind := .zone, net := 1, layers := [0] }
    else if i = 11 then { kind := .zone, net := 2, layers := [0] }
    else baseItem
  zones := [10, 11]
  evalRules := fun _ _ _ _ => ⟨15, .error, 1⟩
  zoneFillSegs := fun z _ =>
    if z = 10 then
      [⟨⟨0, 0⟩, ⟨0, 20⟩⟩, ⟨⟨0, 0⟩, ⟨20, 0⟩⟩, ⟨⟨0, 20⟩, ⟨20, 20⟩⟩, ⟨⟨20, 0⟩, ⟨20, 20⟩⟩]
    else if z = 11 then
      [⟨⟨10, 10⟩, ⟨10, 30⟩⟩, ⟨⟨10, 10⟩, ⟨30, 10⟩⟩, ⟨⟨10, 30⟩, ⟨30, 30⟩⟩,
        ⟨⟨30, 10⟩, ⟨30, 30⟩⟩]
    else []
  segClear := fun t r _ =>
    if t = ⟨⟨10, 10⟩, ⟨10, 30⟩⟩ ∧ r = ⟨⟨0, 0⟩, ⟨20, 0⟩⟩ then (10, ⟨10, 0⟩)
    else if t = ⟨⟨10, 10⟩, ⟨10, 30⟩⟩ ∧ r = ⟨⟨0, 20⟩, ⟨20, 20⟩⟩ then (0, ⟨10, 20⟩)
    else if t = ⟨⟨10, 10⟩, ⟨30, 10⟩⟩ ∧ r = ⟨⟨0, 20⟩, ⟨20, 20⟩⟩ then (10, ⟨10, 10⟩)
    else (1000, ⟨0, 0⟩) }

/-- Two same-footprint pads with the same pad number (same logical pad)
carrying different non-zero nets. -/
def c9World : World := { baseWorld with
  items := fun i =>
    if i = 1 then
      { kind := .pad, net := 1, layers := [0], parent := some 1, padNumber := 5 }
    else if i = 2 then
      { kind := .pad, net := 2, layers := [0], parent := some 1, padNumber := 5,
        pos := ⟨4, 4⟩ }
    else baseItem
  pads := [1, 2]
  rtree := fun p _ => if p = 1 then [2] else if p = 2 then [1] else []
  sameLogical := fun a b => (a = 1 ∧ b = 2) ∨ (a = 2 ∧ b = 1)
  collide := fun _ _ _ => some (0, ⟨3, 3⟩) }

/-- The CLEARANCE keys of a violation list: the (unordered pair, layer)
keys of its clearance-kind violations, in order, with multiplicity. -/
def clearKeys (vs : List Violation) : List ((Nat × Nat) × Nat) :=
  (vs.filter (fun v => v.kind == VKind.clearanceV)).map clearKey

/-- Is the (pair, layer) key recorded in the track-phase memo? -/
def keyRecorded (m : List ((Nat × Nat) × Checked)) (k : Nat × Nat) (l : Nat) : Prop :=
  ∃ c, memoFind m k = some c ∧ l ∈ c.layers

/-- Invariant threaded through the pad phase: distinct clearance keys,
every rtree-pair violation recorded in the pair memo, and zone violations
only from finished (pad, layer) iterations. -/
def padInv (w : World) (st : PadSt) (todo : List (Nat × Nat)) : Prop :=
  (clearKeys st.viols).Nodup
  ∧ ∀ v ∈ st.viols, v.kind = VKind.clearanceV →
      ((w.items v.itemA).kind = .pad ∧ (w.items v.itemB).kind ≠ .zone
        ∧ (w.items v.itemB).kind.isTrackClass = false
        ∧ (padMemoFind st.memo (pairKey v.itemA v.itemB)).isSome = true)
      ∨ ((w.items v.itemA).kind = .pad ∧ (w.items v.itemB).kind = .zone
          ∧ v.itemB ∈ w.zones ∧ (v.itemA, v.layer) ∉ todo)

/-- Invariant threaded through the track phase: distinct clearance keys,
every rtree-pair violation recorded in the per-layer memo, and zone
violations only from finished (track, layer) iterations. -/
def trackInv (w : World) (st : TrackSt) (todo : List (Nat × Nat)) : Prop :=
  (clearKeys st.viols).Nodup
  ∧ ∀ v ∈ st.viols, v.kind = VKind.clearanceV →
      ((w.items v.itemA).kind.isTrackClass = true ∧ (w.items v.itemB).kind ≠ .zone
        ∧ keyRecorded st.memo (pairKey v.itemA v.itemB) v.layer)
      ∨ ((w.items v.itemA).kind.isTrackClass = true ∧ (w.items v.itemB).kind = .zone
          ∧ v.itemB ∈ w.zones ∧ (v.itemA, v.layer) ∉ todo)

/-- Invariant threaded through the graphic phase: distinct clearance keys,
all of them item-vs-zone pairs of finished graphics. -/
def graphicInv (w : World) (vs : List Violation) (todo : List Nat) : Prop :=
  (clearKeys vs).Nodup
  ∧ ∀ v ∈ vs, v.kind = VKind.clearanceV →
      (w.items v.itemA).kind.isTrackClass = false ∧ (w.items v.itemA).kind ≠ .pad
        ∧ (w.items v.itemA).kind ≠ .zone ∧ (w.items v.itemB).kind = .zone
        ∧ v.itemB ∈ w.zones ∧ v.itemA ∉ todo

/-- A pad (net 1) and a track (net 2) within clearance of each other, each
returned by the spatial query of the other.  The track phase reports the
pair; the pad phase skips it, because the pad path disables the clearance
test whenever the other item is of the track class. -/
def c4World : World := { baseWorld with
  items := fun i =>
    if i = 1 then { kind := .pad, net := 1, layers := [0], parent := some 1 }
    else if i = 2 then { kind := .trace, net := 2, layers := [0] }
    else baseItem
  tracks := [2]
  pads := [1]
  rtree := fun a _ => if a = 1 then [2] else if a = 2 then [1] else []
  collide := fun _ _ _ => some (2, ⟨3, 3⟩) }

/-! ### Helper lemmas -/

/-- The cross product of a vector with itself vanishes. -/
theorem cross_self (v : V2) : cross v v = 0 := by
  unfold cross; ring

/-- A segment never properly intersects itself: identical direction
vectors are parallel, so the primitive returns none. -/
theorem segIntersect_self (s : Seg) : segIntersect s s = none := by
  simp [segIntersect, cross_self]

/-- One hole-loop iteration reports at most the single hole violation
(a, b) at this layer. -/
theorem trackHoleIter_enum (w : World) (a b : Nat) (sh : ShapeRef) (l : Nat) :
    (∃ pt cs, trackHoleIter w a b sh l = (cs, some ⟨.holeClearanceV, a, b, pt, l⟩))
    ∨ (∃ cs, trackHoleIter w a b sh l = (cs, none)) := by
  unfold trackHoleIter
  dsimp only
  repeat' split
  all_goals first
    | exact .inl ⟨_, _, rfl⟩
    | exact .inr ⟨_, rfl⟩

/-- The clearance section of testTrackAgainstItem either returns early
with one (track, other) clearance violation, or hands at most one such
violation to the hole section; the crossing branch never fires because the
source compares the segment of the first track with itself. -/
theorem trackClearSec_enum (w : World) (t l o : Nat) :
    (∃ pt cs, trackClearSec w t l o = Sum.inl ⟨[⟨.clearanceV, t, o, pt, l⟩], cs, false⟩)
    ∨ (∃ cs he, trackClearSec w t l o = Sum.inr ([], cs, he))
    ∨ (∃ pt cs, trackClearSec w t l o = Sum.inr ([⟨.clearanceV, t, o, pt, l⟩], cs, true)) := by
  unfold trackClearSec
  dsimp only
  simp only [segIntersect_self, ite_self]
  repeat' split
  all_goals first
    | exact .inl ⟨_, _, rfl⟩
    | exact .inr (.inl ⟨_, _, rfl⟩)
    | exact .inr (.inr ⟨_, _, rfl⟩)

/-- Complete enumeration of the violations one testTrackAgainstItem call
can report: at most one (track, other) clearance violation followed by at
most one hole violation in either direction, all on the tested layer. -/
theorem testTrack_viols_enum (w : World) (t l o : Nat) :
    ∃ cpart hpart : List Violation,
      (testTrackAgainstItem w t l o).viols = cpart ++ hpart
      ∧ (cpart = [] ∨ ∃ pt, cpart = [⟨.clearanceV, t, o, pt, l⟩])
      ∧ (hpart = [] ∨ (∃ pt, hpart = [⟨.holeClearanceV, t, o, pt, l⟩])
          ∨ ∃ pt, hpart = [⟨.holeClearanceV, o, t, pt, l⟩]) := by
  have hmain := trackClearSec_enum w t l o
  rcases hmain with ⟨pt, cs, h⟩ | ⟨cs, he, h⟩ | ⟨pt, cs, h⟩ <;>
    (unfold testTrackAgainstItem; rw [h]; dsimp only)
  · exact ⟨_, [], by simp, .inr ⟨pt, rfl⟩, .inl rfl⟩
  · split
    · rcases trackHoleIter_enum w t o (.solid t l) l with ⟨pt0, cs0, h0⟩ | ⟨cs0, h0⟩ <;>
        (rw [h0]; dsimp only)
      · exact ⟨[], _, by simp, .inl rfl, .inr (.inl ⟨pt0, rfl⟩)⟩
      · rcases trackHoleIter_enum w o t (.solid o l) l with ⟨pt1, cs1, h1⟩ | ⟨cs1, h1⟩ <;>
          (rw [h1]; dsimp only)
        · exact ⟨[], _, by simp, .inl rfl, .inr (.inr ⟨pt1, rfl⟩)⟩
        · exact ⟨[], [], by simp, .inl rfl, .inl rfl⟩
    · exact ⟨[], [], by simp, .inl rfl, .inl rfl⟩
  · split
    · rcases trackHoleIter_enum w t o (.solid t l) l with ⟨pt0, cs0, h0⟩ | ⟨cs0, h0⟩ <;>
        (rw [h0]; dsimp only)
      · exact ⟨_, _, rfl, .inr ⟨pt, rfl⟩, .inr (.inl ⟨pt0, rfl⟩)⟩
      · rcases trackHoleIter_enum w o t (.solid o l) l with ⟨pt1, cs1, h1⟩ | ⟨cs1, h1⟩ <;>
          (rw [h1]; dsimp only)
        · exact ⟨_, _, rfl, .inr ⟨pt, rfl⟩, .inr (.inr ⟨pt1, rfl⟩)⟩
        · exact ⟨_, [], by simp, .inr ⟨pt, rfl⟩, .inl rfl⟩
    · exact ⟨_, [], by simp, .inr ⟨pt, rfl⟩, .inl rfl⟩

/-- The clearance section of the pad test: at most one (pad, other)
clearance violation, only when the clearance test was enabled. -/
theorem padClearSec_viols (w : World) (p l o : Nat) (tc th : Bool) :
    (padClearSec w p l o tc th).1 = []
    ∨ ∃ pt, (padClearSec w p l o tc th).1 = [⟨.clearanceV, p, o, pt, l⟩] ∧ tc = true := by
  unfold padClearSec
  dsimp only
  repeat' split
  all_goals simp_all

/-- Calls of the pad clearance section: the single gated clearance
collision, only under a non-ignored positive constraint. -/
theorem padClearSec_calls (w : World) (p l o : Nat) (tc th : Bool) :
    ∀ c ∈ (padClearSec w p l o tc th).2.1,
      c = ⟨.clearanceG, p, o, l, max 0 ((w.evalRules .clearanceC p o l).value - w.eps)⟩
      ∧ (w.evalRules .clearanceC p o l).severity ≠ Severity.ignore
      ∧ (w.evalRules .clearanceC p o l).value > 0 := by
  intro c hc
  unfold padClearSec at hc
  dsimp only at hc
  repeat' split at hc
  all_goals simp_all

/-- The clearance section only passes a true testHoles flag through. -/
theorem padClearSec_th (w : World) (p l o : Nat) (tc th : Bool) :
    (padClearSec w p l o tc th).2.2 = true → th = true := by
  intro h
  unfold padClearSec at h
  dsimp only at h
  repeat' split at h
  all_goals simp_all

/-- One pad hole block: at most one (pad, other) hole violation, only with
the flag set and a positive resolved clearance. -/
theorem padHoleBlock_viols (w : World) (p o l : Nat) (cond : Bool)
    (shA shB : ShapeRef) (cl : Int) (th : Bool) :
    (padHoleBlock w p o l cond shA shB cl th).1 = []
    ∨ ∃ pt, (padHoleBlock w p o l cond shA shB cl th).1 = [⟨.holeClearanceV, p, o, pt, l⟩]
        ∧ th = true ∧ cl > 0 := by
  unfold padHoleBlock
  dsimp only
  repeat' split
  all_goals simp_all

/-- Calls of one pad hole block: the single gated hole collision, only
with the flag set and a positive resolved clearance. -/
theorem padHoleBlock_calls (w : World) (p o l : Nat) (cond : Bool)
    (shA shB : ShapeRef) (cl : Int) (th : Bool) :
    ∀ c ∈ (padHoleBlock w p o l cond shA shB cl th).2.1,
      c = ⟨.holeG, p, o, l, max 0 (cl - w.eps)⟩ ∧ th = true ∧ cl > 0 := by
  intro c hc
  unfold padHoleBlock at hc
  dsimp only at hc
  repeat' split at hc
  all_goals simp_all

/-- A pad hole block only passes a true testHoles flag through. -/
theorem padHoleBlock_th (w : World) (p o l : Nat) (cond : Bool)
    (shA shB : ShapeRef) (cl : Int) (th : Bool) :
    (padHoleBlock w p o l cond shA shB cl th).2.2 = true → th = true := by
  intro h
  unfold padHoleBlock at h
  dsimp only at h
  repeat' split at h
  all_goals simp_all

/-- Membership form of padClearSec_viols. -/
theorem padClearSec_mem {w : World} {p l o : Nat} {tc th : Bool} {v : Violation}
    (hv : v ∈ (padClearSec w p l o tc th).1) :
    ∃ pt, v = ⟨.clearanceV, p, o, pt, l⟩ ∧ tc = true := by
  rcases padClearSec_viols w p l o tc th with h | ⟨pt, h, htc⟩
  · rw [h] at hv; simp at hv
  · rw [h] at hv; simp at hv; exact ⟨pt, hv, htc⟩

/-- Membership form of padClearSec_calls. -/
theorem padClearSec_call_mem {w : World} {p l o : Nat} {tc th : Bool} {c : CollideCall}
    (hc : c ∈ (padClearSec w p l o tc th).2.1) :
    c = ⟨.clearanceG, p, o, l, max 0 ((w.evalRules .clearanceC p o l).value - w.eps)⟩
    ∧ (w.evalRules .clearanceC p o l).severity ≠ Severity.ignore
    ∧ (w.evalRules .clearanceC p o l).value > 0 :=
  padClearSec_calls w p l o tc th c hc

/-- Implicit-argument form of padClearSec_th. -/
theorem padClearSec_thOf {w : World} {p l o : Nat} {tc th : Bool}
    (h : (padClearSec w p l o tc th).2.2 = true) : th = true :=
  padClearSec_th w p l o tc th h

/-- Membership form of padHoleBlock_viols. -/
theorem padHoleBlock_mem {w : World} {p o l : Nat} {cond : Bool} {shA shB : ShapeRef}
    {cl : Int} {th : Bool} {v : Violation}
    (hv : v ∈ (padHoleBlock w p o l cond shA shB cl th).1) :
    ∃ pt, v = ⟨.holeClearanceV, p, o, pt, l⟩ ∧ th = true ∧ cl > 0 := by
  rcases padHoleBlock_viols w p o l cond shA shB cl th with h | ⟨pt, h, hth, hcl⟩
  · rw [h] at hv; simp at hv
  · rw [h] at hv; simp at hv; exact ⟨pt, hv, hth, hcl⟩

/-- Membership form of padHoleBlock_calls. -/
theorem padHoleBlock_call_mem {w : World} {p o l : Nat} {cond : Bool} {shA shB : ShapeRef}
    {cl : Int} {th : Bool} {c : CollideCall}
    (hc : c ∈ (padHoleBlock w p o l cond shA shB cl th).2.1) :
    c = ⟨.holeG, p, o, l, max 0 (cl - w.eps)⟩ ∧ th = true ∧ cl > 0 :=
  padHoleBlock_calls w p o l cond shA shB cl th c hc

/-- Implicit-argument form of padHoleBlock_th. -/
theorem padHoleBlock_thOf {w : World} {p o l : Nat} {cond : Bool} {shA shB : ShapeRef}
    {cl : Int} {th : Bool}
    (h : (padHoleBlock w p o l cond shA shB cl th).2.2 = true) : th = true :=
  padHoleBlock_th w p o l cond shA shB cl th h

/-- Shape of the violations one testPadAgainstItem call can report: all
between (pad, other) on the tested layer; clearance violations only with
the clearance test enabled, hole violations only with the hole test
enabled, shorting violations only between different nets. -/
theorem testPad_viols_shape (w : World) (p l o : Nat) :
    ∀ v ∈ (testPadAgainstItem w p l o).viols,
      v.itemA = p ∧ v.itemB = o ∧ v.layer = l
      ∧ (v.kind = .shortingItemsV ∨ v.kind = .clearanceV ∨ v.kind = .holeClearanceV)
      ∧ (v.kind = .clearanceV → (padFlags w p l o).1 = true)
      ∧ (v.kind = .holeClearanceV → (padFlags w p l o).2.2 = true)
      ∧ (v.kind = .shortingItemsV → (w.items p).net ≠ (w.items o).net) := by
  intro v hv
  unfold testPadAgainstItem at hv
  dsimp only at hv
  split at hv
  · simp at hv
  · split at hv
    · -- same logical pad branch
      split at hv
      · next hnets => simp at hv; subst hv; simp_all
      · simp at hv
    · -- main branch
      dsimp only at hv
      rcases List.mem_append.mp hv with hv | hv
      · rcases List.mem_append.mp hv with hv | hv
        · rcases List.mem_append.mp hv with hv | hv
          · obtain ⟨pt, rfl, htc⟩ := padClearSec_mem hv
            simp_all
          · obtain ⟨pt, rfl, hth, hcl⟩ := padHoleBlock_mem hv
            have h4 := padClearSec_thOf (Bool.and_elim_left hth)
            simp_all
        · obtain ⟨pt, rfl, hth, hcl⟩ := padHoleBlock_mem hv
          have h4 := padClearSec_thOf (Bool.and_elim_left (padHoleBlock_thOf hth))
          simp_all
      · obtain ⟨pt, rfl, hth, hcl⟩ := padHoleBlock_mem hv
        have h4 := padClearSec_thOf
          (Bool.and_elim_left (padHoleBlock_thOf (padHoleBlock_thOf hth)))
        simp_all

/-- A pad hole block never reports a clearance-kind violation. -/
theorem padHoleBlock_filter_clear (w : World) (p o l : Nat) (cond : Bool)
    (shA shB : ShapeRef) (cl : Int) (th : Bool) :
    (padHoleBlock w p o l cond shA shB cl th).1.filter
      (fun v => v.kind == VKind.clearanceV) = [] := by
  rcases padHoleBlock_viols w p o l cond shA shB cl th with h | ⟨pt, h, _, _⟩ <;>
    rw [h] <;> simp

/-- The clearance violations of one testPadAgainstItem call: none, or a
single (pad, other) violation on the tested layer. -/
theorem testPad_clear_filter (w : World) (p l o : Nat) :
    (testPadAgainstItem w p l o).viols.filter (fun v => v.kind == VKind.clearanceV) = []
    ∨ ∃ pt, (testPadAgainstItem w p l o).viols.filter (fun v => v.kind == VKind.clearanceV)
        = [⟨.clearanceV, p, o, pt, l⟩] := by
  unfold testPadAgainstItem
  dsimp only
  split
  · simp
  · split
    · split <;> simp
    · dsimp only
      simp only [List.filter_append, padHoleBlock_filter_clear, List.append_nil]
      rcases padClearSec_viols w p l o (padFlags w p l o).1 (padFlags w p l o).2.2 with
        h | ⟨pt, h, _⟩ <;> rw [h]
      · simp
      · simp

/-- The second flag of padFlags is the shorting-test enable. -/
theorem padFlags_shorting (w : World) (p l o : Nat) :
    (padFlags w p l o).2.1 = ! w.limitExceeded .shortingItemsV := rfl

/-- The same-net waiver of the pad path: a pad or via other carrying the
same non-zero net disables both the clearance and the hole test. -/
theorem padFlags_netWaiver (w : World) (p l o : Nat)
    (hk : (w.items o).kind = .pad ∨ (w.items o).kind = .via)
    (hn : (w.items o).net = (w.items p).net) (h0 : (w.items o).net ≠ 0) :
    (padFlags w p l o).1 = false ∧ (padFlags w p l o).2.2 = false := by
  have h0p : (w.items p).net ≠ 0 := hn ▸ h0
  unfold padFlags
  dsimp only
  rcases hk with hk | hk <;> simp [hk, hn, h0, h0p]

/-- Every collision test of one testPadAgainstItem call is the gated
clearance collision or a gated hole collision, under a non-ignored
positive constraint of the matching kind. -/
theorem testPad_calls_shape (w : World) (p l o : Nat) :
    ∀ c ∈ (testPadAgainstItem w p l o).calls,
      (c = ⟨.clearanceG, p, o, l, max 0 ((w.evalRules .clearanceC p o l).value - w.eps)⟩
        ∧ (w.evalRules .clearanceC p o l).severity ≠ Severity.ignore
        ∧ (w.evalRules .clearanceC p o l).value > 0)
      ∨ (c = ⟨.holeG, p, o, l, max 0 ((w.evalRules .holeC p o l).value - w.eps)⟩
        ∧ (w.evalRules .holeC p o l).severity ≠ Severity.ignore
        ∧ (w.evalRules .holeC p o l).value > 0) := by
  intro c hc
  unfold testPadAgainstItem at hc
  dsimp only at hc
  split at hc
  · simp at hc
  · split at hc
    · split at hc <;> simp at hc
    · dsimp only at hc
      have holeSide : ∀ {cond : Bool} {shA shB : ShapeRef},
          c ∈ (padHoleBlock w p o l cond shA shB
            (if (padClearSec w p l o (padFlags w p l o).1 (padFlags w p l o).2.2).2.2 = true
              then (w.evalRules CKind.holeC p o l,
                decide ((w.evalRules CKind.holeC p o l).severity ≠ Severity.ignore))
              else (defaultConstraint, false)).1.value
            ((padClearSec w p l o (padFlags w p l o).1 (padFlags w p l o).2.2).2.2 &&
              (if (padClearSec w p l o (padFlags w p l o).1 (padFlags w p l o).2.2).2.2 = true
                then (w.evalRules CKind.holeC p o l,
                  decide ((w.evalRules CKind.holeC p o l).severity ≠ Severity.ignore))
                else (defaultConstraint, false)).2)).2.1 →
          c = ⟨.holeG, p, o, l, max 0 ((w.evalRules .holeC p o l).value - w.eps)⟩
          ∧ (w.evalRules .holeC p o l).severity ≠ Severity.ignore
          ∧ (w.evalRules .holeC p o l).value > 0 := by
        intro cond shA shB hmem
        obtain ⟨hceq, hth, hcl⟩ := padHoleBlock_call_mem hmem
        have hcs : (padClearSec w p l o (padFlags w p l o).1 (padFlags w p l o).2.2).2.2
            = true := Bool.and_elim_left hth
        have hsev := Bool.and_elim_right hth
        rw [hcs] at hceq hcl hsev
        simp only [if_pos rfl] at hceq hcl hsev
        exact ⟨hceq, by simpa using hsev, hcl⟩
      rcases List.mem_append.mp hc with hc | hc
      · rcases List.mem_append.mp hc with hc | hc
        · rcases List.mem_append.mp hc with hc | hc
          · exact .inl (padClearSec_call_mem hc)
          · exact .inr (holeSide hc)
        · obtain ⟨hceq, hth, hcl⟩ := padHoleBlock_call_mem hc
          have hth6 := padHoleBlock_thOf hth
          have hcs : (padClearSec w p l o (padFlags w p l o).1 (padFlags w p l o).2.2).2.2
              = true := Bool.and_elim_left hth6
          have hsev := Bool.and_elim_right hth6
          rw [hcs] at hceq hcl hsev
          simp only [if_pos rfl] at hceq hcl hsev
          exact .inr ⟨hceq, by simpa using hsev, hcl⟩
        
      · obtain ⟨hceq, hth, hcl⟩ := padHoleBlock_call_mem hc
        have hth6 := padHoleBlock_thOf (padHoleBlock_thOf hth)
        have hcs : (padClearSec w p l o (padFlags w p l o).1 (padFlags w p l o).2.2).2.2
            = true := Bool.and_elim_left hth6
        have hsev := Bool.and_elim_right hth6
        rw [hcs] at hceq hcl hsev
        simp only [if_pos rfl] at hceq hcl hsev
        exact .inr ⟨hceq, by simpa using hsev, hcl⟩

/-- Two pads forming the same logical pad never get a clearance violation;
with different non-zero nets and the shorting limit not exceeded, the call
reports exactly the shorting violation. -/
theorem testPad_sameLogical (w : World) (p l o : Nat)
    (hk : (w.items o).kind = .pad) (hsl : w.sameLogical p o = true) :
    ((testPadAgainstItem w p l o).viols.filter (fun v => v.kind == VKind.clearanceV) = [])
    ∧ ((w.items p).net ≠ 0 → (w.items o).net ≠ 0 → (w.items p).net ≠ (w.items o).net →
       w.limitExceeded .shortingItemsV = false →
       (testPadAgainstItem w p l o).viols = [⟨.shortingItemsV, p, o, (w.items o).pos, l⟩]) := by
  have hfl := padFlags_shorting w p l o
  unfold testPadAgainstItem
  dsimp only
  split
  · next hearly =>
    refine ⟨by simp, fun h1 h2 h3 h4 => ?_⟩
    rw [h4] at hfl
    simp at hfl
    exact absurd hfl hearly.2.1
  · split
    · split
      · next hcond => exact ⟨by simp, fun _ _ _ _ => rfl⟩
      · next hcond =>
        refine ⟨by simp, fun h1 h2 h3 h4 => ?_⟩
        rw [h4] at hfl
        simp at hfl
        exact absurd ⟨h1, h2, h3, hfl⟩ hcond
    · next hcond => exact absurd ⟨hk, hsl⟩ hcond

/-- The zone clearance part reports at most one (item, zone) clearance
violation. -/
theorem zoneClearPart_viols (w : World) (i z l : Nat) (tc : Bool) :
    (zoneClearPart w i z l tc).1 = []
    ∨ ∃ pt, (zoneClearPart w i z l tc).1 = [⟨.clearanceV, i, z, pt, l⟩] := by
  unfold zoneClearPart
  dsimp only
  repeat' split
  all_goals first
    | exact .inl rfl
    | exact .inr ⟨_, rfl⟩

/-- Calls of the zone clearance part: only the gated clearance query,
never under IGNORE, with a positive value. -/
theorem zoneClearPart_calls (w : World) (i z l : Nat) (tc : Bool) :
    ∀ c ∈ (zoneClearPart w i z l tc).2,
      c = ⟨.clearanceG, i, z, l, max 0 ((w.evalRules .clearanceC i z l).value - w.eps)⟩
      ∧ (w.evalRules .clearanceC i z l).severity ≠ Severity.ignore
      ∧ (w.evalRules .clearanceC i z l).value > 0 := by
  intro c hc
  unfold zoneClearPart at hc
  dsimp only at hc
  repeat' split at hc
  all_goals simp_all

/-- The zone hole part reports at most one (item, zone) hole violation. -/
theorem zoneHolePart_viols (w : World) (i z l : Nat) (th : Bool) :
    (zoneHolePart w i z l th).1 = []
    ∨ ∃ pt, (zoneHolePart w i z l th).1 = [⟨.holeClearanceV, i, z, pt, l⟩] := by
  unfold zoneHolePart
  dsimp only
  repeat' split
  all_goals first
    | exact .inl rfl
    | exact .inr ⟨_, rfl⟩

/-- Calls of the zone hole part: only the gated hole query, never under
IGNORE, with a positive value. -/
theorem zoneHolePart_calls (w : World) (i z l : Nat) (th : Bool) :
    ∀ c ∈ (zoneHolePart w i z l th).2,
      c = ⟨.holeG, i, z, l, max 0 ((w.evalRules .holeC i z l).value - w.eps)⟩
      ∧ (w.evalRules .holeC i z l).severity ≠ Severity.ignore
      ∧ (w.evalRules .holeC i z l).value > 0 := by
  intro c hc
  unfold zoneHolePart at hc
  dsimp only at hc
  repeat' split at hc
  all_goals simp_all

/-- An item on the same non-zero net as the zone is never tested against
it: the call returns nothing. -/
theorem testItemZone_sameNet (w : World) (i z l : Nat)
    (h1 : (w.items z).net ≠ 0) (h2 : (w.items i).kind.isConnectedClass = true)
    (h3 : (w.items z).net = (w.items i).net) :
    testItemAgainstZone w i z l = ([], []) := by
  unfold testItemAgainstZone
  dsimp only
  split
  · rfl
  · rw [if_pos ⟨h1, h2, h3⟩]

/-- Shape of the violations of one testItemAgainstZone call: between
(item, zone) on the tested layer, clearance or hole kind, and only when
the same-net skip did not apply. -/
theorem testItemZone_viols (w : World) (i z l : Nat) :
    ∀ v ∈ (testItemAgainstZone w i z l).1,
      v.itemA = i ∧ v.itemB = z ∧ v.layer = l
      ∧ (v.kind = .clearanceV ∨ v.kind = .holeClearanceV)
      ∧ ¬ ((w.items z).net ≠ 0 ∧ (w.items i).kind.isConnectedClass = true
            ∧ (w.items z).net = (w.items i).net) := by
  intro v hv
  unfold testItemAgainstZone at hv
  dsimp only at hv
  split at hv
  · simp at hv
  · split at hv
    · simp at hv
    · split at hv
      · simp at hv
      · split at hv
        · simp at hv
        · split at hv
          · simp at hv
          · next hnet _ _ _ _ =>
            dsimp only at hv
            rcases List.mem_append.mp hv with hv | hv
            · rcases zoneClearPart_viols w i z l _ with h | ⟨pt, h⟩ <;> rw [h] at hv
              · simp at hv
              · simp at hv; subst hv; simp_all
            · rcases zoneHolePart_viols w i z l _ with h | ⟨pt, h⟩ <;> rw [h] at hv
              · simp at hv
              · simp at hv; subst hv; simp_all

/-- The clearance violations of one testItemAgainstZone call: none, or a
single (item, zone) violation on the tested layer. -/
theorem testItemZone_clear_filter (w : World) (i z l : Nat) :
    (testItemAgainstZone w i z l).1.filter (fun v => v.kind == VKind.clearanceV) = []
    ∨ ∃ pt, (testItemAgainstZone w i z l).1.filter (fun v => v.kind == VKind.clearanceV)
        = [⟨.clearanceV, i, z, pt, l⟩] := by
  unfold testItemAgainstZone
  dsimp only
  split
  · exact .inl (by simp)
  · split
    · exact .inl (by simp)
    · split
      · exact .inl (by simp)
      · split
        · exact .inl (by simp)
        · split
          · exact .inl (by simp)
          · dsimp only
            rw [List.filter_append]
            have hh : (zoneHolePart w i z l (! w.limitExceeded .holeClearanceV)).1.filter
                (fun v => v.kind == VKind.clearanceV) = [] := by
              rcases zoneHolePart_viols w i z l _ with h | ⟨pt, h⟩ <;> rw [h] <;> simp
            rw [hh, List.append_nil]
            rcases zoneClearPart_viols w i z l _ with h | ⟨pt, h⟩ <;> rw [h]
            · exact .inl (by simp)
            · exact .inr ⟨pt, by simp⟩

/-- Every collision test of one testItemAgainstZone call is gated by a
non-ignored positive constraint of the matching kind. -/
theorem testItemZone_calls (w : World) (i z l : Nat) :
    ∀ c ∈ (testItemAgainstZone w i z l).2,
      (c = ⟨.clearanceG, i, z, l, max 0 ((w.evalRules .clearanceC i z l).value - w.eps)⟩
        ∧ (w.evalRules .clearanceC i z l).severity ≠ Severity.ignore
        ∧ (w.evalRules .clearanceC i z l).value > 0)
      ∨ (c = ⟨.holeG, i, z, l, max 0 ((w.evalRules .holeC i z l).value - w.eps)⟩
        ∧ (w.evalRules .holeC i z l).severity ≠ Severity.ignore
        ∧ (w.evalRules .holeC i z l).value > 0) := by
  intro c hc
  unfold testItemAgainstZone at hc
  dsimp only at hc
  split at hc
  · simp at hc
  · split at hc
    · simp at hc
    · split at hc
      · simp at hc
      · split at hc
        · simp at hc
        · split at hc
          · simp at hc
          · dsimp only at hc
            rcases List.mem_append.mp hc with hc | hc
            · exact .inl (zoneClearPart_calls w i z l _ c hc)
            · exact .inr (zoneHolePart_calls w i z l _ c hc)

/-- The knockout report part: at most one violation, clearance or
shorting, between (text, zone) on the layer. -/
theorem knockoutReport_viols (w : World) (t z l : Nat) (ts : Bool) (inh2 : Option Int) :
    (knockoutReport w t z l ts inh2).1 = []
    ∨ (∃ pt, (knockoutReport w t z l ts inh2).1 = [⟨.clearanceV, t, z, pt, l⟩])
    ∨ (∃ pt, (knockoutReport w t z l ts inh2).1 = [⟨.shortingItemsV, t, z, pt, l⟩]) := by
  unfold knockoutReport
  dsimp only
  repeat' split
  all_goals first
    | exact .inl rfl
    | exact .inr (.inl ⟨_, rfl⟩)
    | exact .inr (.inr ⟨_, rfl⟩)

/-- Calls of the knockout report part: the single gated clearance query,
never under IGNORE. -/
theorem knockoutReport_calls (w : World) (t z l : Nat) (ts : Bool) (inh2 : Option Int) :
    ∀ c ∈ (knockoutReport w t z l ts inh2).2,
      c = ⟨.clearanceG, t, z, l, max 0 ((w.evalRules .clearanceC t z l).value - w.eps)⟩
      ∧ (w.evalRules .clearanceC t z l).severity ≠ Severity.ignore := by
  intro c hc
  unfold knockoutReport at hc
  dsimp only at hc
  repeat' split at hc
  all_goals simp_all

/-- Shape of the violations of one knockout-text call: between
(text, zone) on the primary layer of the text, clearance or shorting. -/
theorem knockout_viols (w : World) (t : Nat) (inh : Option Int) (z : Nat) :
    ∀ v ∈ (testKnockoutTextAgainstZone w t inh z).2.1,
      v.itemA = t ∧ v.itemB = z ∧ v.layer = (w.items t).primaryLayer
      ∧ (v.kind = .clearanceV ∨ v.kind = .shortingItemsV) := by
  intro v hv
  unfold testKnockoutTextAgainstZone at hv
  dsimp only at hv
  repeat' split at hv
  all_goals (try simp at hv)
  all_goals
    rcases knockoutReport_viols w t z (w.items t).primaryLayer
        (! w.limitExceeded .shortingItemsV) _ with h | ⟨pt, h⟩ | ⟨pt, h⟩ <;>
      rw [h] at hv <;> simp at hv <;> subst hv <;> simp

/-- One knockout-text call reports at most one violation. -/
theorem knockout_single (w : World) (t : Nat) (inh : Option Int) (z : Nat) :
    (testKnockoutTextAgainstZone w t inh z).2.1 = []
    ∨ ∃ v, (testKnockoutTextAgainstZone w t inh z).2.1 = [v] := by
  unfold testKnockoutTextAgainstZone
  dsimp only
  repeat' split
  all_goals try exact .inl rfl
  all_goals
    rcases knockoutReport_viols w t z (w.items t).primaryLayer
        (! w.limitExceeded .shortingItemsV) _ with h | ⟨pt, h⟩ | ⟨pt, h⟩ <;>
      rw [h]
  all_goals first
    | exact .inl rfl
    | exact .inr ⟨_, rfl⟩

/-- Every gated collision test of one knockout-text call runs under a
non-ignored clearance constraint; the net-inheritance query is an ungated
probe. -/
theorem knockout_calls (w : World) (t : Nat) (inh : Option Int) (z : Nat) :
    ∀ c ∈ (testKnockoutTextAgainstZone w t inh z).2.2,
      c.gate = .probeG
      ∨ (c = ⟨.clearanceG, t, z, (w.items t).primaryLayer,
            max 0 ((w.evalRules .clearanceC t z (w.items t).primaryLayer).value - w.eps)⟩
        ∧ (w.evalRules .clearanceC t z (w.items t).primaryLayer).severity
            ≠ Severity.ignore) := by
  intro c hc
  unfold testKnockoutTextAgainstZone at hc
  dsimp only at hc
  repeat' split at hc
  all_goals (try simp at hc)
  all_goals try (subst hc; exact .inl rfl)
  all_goals
    try exact .inr (knockoutReport_calls w t z (w.items t).primaryLayer _ _ c hc)
  all_goals (rcases hc with hc | hc)
  all_goals try (subst hc; exact .inl rfl)
  all_goals exact .inr (knockoutReport_calls w t z (w.items t).primaryLayer _ _ c hc)

/-- The clearance violations of one testTrackAgainstItem call: none, or a
single (track, other) violation on the tested layer. -/
theorem testTrack_clear_filter (w : World) (t l o : Nat) :
    (testTrackAgainstItem w t l o).viols.filter (fun v => v.kind == VKind.clearanceV) = []
    ∨ ∃ pt, (testTrackAgainstItem w t l o).viols.filter (fun v => v.kind == VKind.clearanceV)
        = [⟨.clearanceV, t, o, pt, l⟩] := by
  rcases testTrack_viols_enum w t l o with ⟨cp, hp, he, hc, hh⟩
  rw [he, List.filter_append]
  have hhp : hp.filter (fun v => v.kind == VKind.clearanceV) = [] := by
    rcases hh with rfl | ⟨pt, rfl⟩ | ⟨pt, rfl⟩ <;> simp
  rw [hhp, List.append_nil]
  rcases hc with rfl | ⟨pt, rfl⟩
  · exact .inl (by simp)
  · exact .inr ⟨pt, by simp⟩

/-- Calls of one hole-loop iteration: the gated hole collision with the
EvalRules pair in (holder, track-side) order, never under IGNORE. -/
theorem trackHoleIter_calls (w : World) (a b : Nat) (sh : ShapeRef) (l : Nat) :
    ∀ c ∈ (trackHoleIter w a b sh l).1,
      c = ⟨.holeG, b, a, l, max 0 ((w.evalRules .holeC b a l).value - w.eps)⟩
      ∧ (w.evalRules .holeC b a l).severity ≠ Severity.ignore := by
  intro c hc
  unfold trackHoleIter at hc
  dsimp only at hc
  repeat' split at hc
  all_goals simp_all

/-- Calls of the track clearance section, whichever way it returns: the
single gated clearance collision, never under IGNORE, with a positive
resolved value. -/
theorem trackClearSec_calls_shape (w : World) (t l o : Nat) :
    ∀ c, ((∃ out, trackClearSec w t l o = Sum.inl out ∧ c ∈ out.calls)
        ∨ (∃ x, trackClearSec w t l o = Sum.inr x ∧ c ∈ x.2.1)) →
      c = ⟨.clearanceG, t, o, l, (w.evalRules .clearanceC t o l).value - w.eps⟩
      ∧ (w.evalRules .clearanceC t o l).severity ≠ Severity.ignore
      ∧ (w.evalRules .clearanceC t o l).value > 0 := by
  intro c hc
  unfold trackClearSec at hc
  dsimp only at hc
  simp only [segIntersect_self, ite_self] at hc
  repeat' split at hc
  all_goals rcases hc with ⟨out, ho, hm⟩ | ⟨x, hx, hm⟩
  all_goals try (simp only [Sum.inr.injEq] at hx; rw [← hx] at hm)
  all_goals try (simp only [Sum.inl.injEq] at ho; rw [← ho] at hm)
  all_goals simp_all

/-- Every collision test of one testTrackAgainstItem call is the gated
clearance collision or a gated hole collision in one of the two
directions, never under IGNORE. -/
theorem testTrack_calls_shape (w : World) (t l o : Nat) :
    ∀ c ∈ (testTrackAgainstItem w t l o).calls,
      (c = ⟨.clearanceG, t, o, l, (w.evalRules .clearanceC t o l).value - w.eps⟩
        ∧ (w.evalRules .clearanceC t o l).severity ≠ Severity.ignore
        ∧ (w.evalRules .clearanceC t o l).value > 0)
      ∨ (∃ a b : Nat, (a = t ∧ b = o ∨ a = o ∧ b = t)
          ∧ c = ⟨.holeG, b, a, l, max 0 ((w.evalRules .holeC b a l).value - w.eps)⟩
          ∧ (w.evalRules .holeC b a l).severity ≠ Severity.ignore) := by
  intro c hc
  unfold testTrackAgainstItem at hc
  dsimp only at hc
  rcases h : trackClearSec w t l o with out | ⟨vs, cs, he⟩ <;> rw [h] at hc <;>
    dsimp only at hc
  · exact .inl (trackClearSec_calls_shape w t l o c (.inl ⟨out, h, hc⟩))
  · have csfact : ∀ c2 ∈ cs,
        c2 = ⟨.clearanceG, t, o, l, (w.evalRules .clearanceC t o l).value - w.eps⟩
        ∧ (w.evalRules .clearanceC t o l).severity ≠ Severity.ignore
        ∧ (w.evalRules .clearanceC t o l).value > 0 := by
      intro c2 hc2
      exact trackClearSec_calls_shape w t l o c2 (.inr ⟨(vs, cs, he), h, hc2⟩)
    split at hc
    · rcases h0 : trackHoleIter w t o (.solid t l) l with ⟨cs0, v0⟩
      rw [h0] at hc
      cases v0 <;> dsimp only at hc
      · rcases h1 : trackHoleIter w o t (.solid o l) l with ⟨cs1, v1⟩
        rw [h1] at hc
        cases v1 <;> dsimp only at hc <;>
          (rcases List.mem_append.mp hc with hc2 | hc2
           ; rcases List.mem_append.mp hc2 with hc3 | hc3)
        · exact .inl (csfact c hc3)
        · obtain ⟨hceq, hsev⟩ := trackHoleIter_calls w t o (.solid t l) l c
            (by rw [h0]; exact hc3)
          exact .inr ⟨t, o, .inl ⟨rfl, rfl⟩, hceq, hsev⟩
        · obtain ⟨hceq, hsev⟩ := trackHoleIter_calls w o t (.solid o l) l c
            (by rw [h1]; exact hc2)
          exact .inr ⟨o, t, .inr ⟨rfl, rfl⟩, hceq, hsev⟩
        · exact .inl (csfact c hc3)
        · obtain ⟨hceq, hsev⟩ := trackHoleIter_calls w t o (.solid t l) l c
            (by rw [h0]; exact hc3)
          exact .inr ⟨t, o, .inl ⟨rfl, rfl⟩, hceq, hsev⟩
        · obtain ⟨hceq, hsev⟩ := trackHoleIter_calls w o t (.solid o l) l c
            (by rw [h1]; exact hc2)
          exact .inr ⟨o, t, .inr ⟨rfl, rfl⟩, hceq, hsev⟩
      · rcases List.mem_append.mp hc with hc2 | hc2
        · exact .inl (csfact c hc2)
        · obtain ⟨hceq, hsev⟩ := trackHoleIter_calls w t o (.solid t l) l c
            (by rw [h0]; exact hc2)
          exact .inr ⟨t, o, .inl ⟨rfl, rfl⟩, hceq, hsev⟩
    · exact .inl (csfact c hc)

/-- With the flags set, a hole-loop iteration always performs its gated
collision: its call list is exactly the one hole call, whatever the
collision oracle answers. -/
theorem trackHoleIter_call (w : World) (a b : Nat) (sh : ShapeRef) (l : Nat)
    (h1 : (w.items a).kind.isTrackClass = true) (h2 : (w.items b).hasHole = true)
    (h4 : (w.evalRules .holeC b a l).severity ≠ Severity.ignore) :
    (trackHoleIter w a b sh l).1 =
      [⟨.holeG, b, a, l, max 0 ((w.evalRules .holeC b a l).value - w.eps)⟩] := by
  unfold trackHoleIter
  dsimp only
  rw [if_neg (by simp [h1, h2]), if_pos h4]
  split <;> rfl

/-- When the solid shapes do not collide, the clearance section never
returns early. -/
theorem trackClearSec_inr_of_miss (w : World) (t l o : Nat)
    (h5 : w.collide (.solid t l) (.solid o l)
      ((w.evalRules .clearanceC t o l).value - w.eps) = none) :
    ∃ x, trackClearSec w t l o = Sum.inr x := by
  unfold trackClearSec
  dsimp only
  simp only [segIntersect_self, ite_self]
  repeat' split
  all_goals first
    | exact ⟨_, rfl⟩
    | simp_all

/-- With the hole test enabled, the other item holding a hole, and no
early return from the clearance section, the first hole-loop iteration
always performs its gated collision — whatever the resolved hole
clearance value is, including 0. -/
theorem testTrack_holeCall (w : World) (t l o : Nat)
    (h1 : (w.items t).kind.isTrackClass = true)
    (h2 : (w.items o).hasHole = true)
    (h3 : w.limitExceeded .holeClearanceV = false)
    (h4 : (w.evalRules .holeC o t l).severity ≠ Severity.ignore)
    (h5 : w.collide (.solid t l) (.solid o l)
      ((w.evalRules .clearanceC t o l).value - w.eps) = none) :
    (⟨.holeG, o, t, l, max 0 ((w.evalRules .holeC o t l).value - w.eps)⟩ : CollideCall)
      ∈ (testTrackAgainstItem w t l o).calls := by
  obtain ⟨x, hx⟩ := trackClearSec_inr_of_miss w t l o h5
  obtain ⟨vs, cs, he⟩ := x
  unfold testTrackAgainstItem
  rw [hx]
  dsimp only
  rw [if_pos (by exact ⟨by rw [h3]; rfl, Or.inr h2⟩)]
  have hcall := trackHoleIter_call w t o (.solid t l) l h1 h2 h4
  rcases h0 : trackHoleIter w t o (.solid t l) l with ⟨cs0, v0⟩
  rw [h0] at hcall
  dsimp only at hcall
  subst hcall
  cases v0 <;> dsimp only
  · rcases h1x : trackHoleIter w o t (.solid o l) l with ⟨cs1, v1⟩
    cases v1 <;> dsimp only <;> simp
  · simp

/-! ### Claim C1 -/

/-- Claim C1 (code bug): testTrackAgainstItem builds both `trackSeg` and
`otherSeg` of the track:track crossing test from the endpoints of the
first track, so the intersection test compares a segment with itself and can
never fire.  Part 1: no call ever reports TRACKS_CROSSING, because the
self-intersection is always empty.  Parts 2-3: at the failing input — two
tracks of different nets genuinely crossing at (5,5), within clearance —
the code reports a plain CLEARANCE violation and stops, instead of the
TRACKS_CROSSING violation the claim requires.  Part 4: the two tracks of
that input really do intersect, per the intersection primitive itself. -/
theorem C1_tracks_crossing_unreachable :
    (∀ w : World, ∀ track layer other : Nat,
      ∀ v ∈ (testTrackAgainstItem w track layer other).viols,
        v.kind ≠ VKind.tracksCrossingV)
    ∧ (testTrackAgainstItem c1World 1 0 2).viols.map Violation.kind = [VKind.clearanceV]
    ∧ (testTrackAgainstItem c1World 1 0 2).cont = false
    ∧ segIntersect ⟨⟨0, 0⟩, ⟨10, 10⟩⟩ ⟨⟨0, 10⟩, ⟨10, 0⟩⟩ = some ⟨5, 5⟩ := by
  refine ⟨?_, by decide, by decide, by decide⟩
  intro w track layer other v hv
  rcases testTrack_viols_enum w track layer other with ⟨cp, hp, he, hc, hh⟩
  rw [he] at hv
  rcases List.mem_append.mp hv with h | h
  · rcases hc with rfl | ⟨pt, rfl⟩
    · simp at h
    · simp at h; subst h; simp
  · rcases hh with rfl | ⟨pt, rfl⟩ | ⟨pt, rfl⟩
    · simp at h
    · simp at h; subst h; simp
    · simp at h; subst h; simp

/-- Claim C1 witness: the general part applied to the clearance violation
produced at the failing input. -/
theorem C1_witness :
    (⟨.clearanceV, 1, 2, ⟨5, 5⟩, 0⟩ : Violation) ∈ (testTrackAgainstItem c1World 1 0 2).viols
    ∧ (⟨.clearanceV, 1, 2, ⟨5, 5⟩, 0⟩ : Violation).kind ≠ VKind.tracksCrossingV :=
  ⟨by decide, C1_tracks_crossing_unreachable.1 c1World 1 0 2 _ (by decide)⟩


/-! ### Phase transfer lemmas -/

/-- A passing track filter implies the other item is not a connected item
on the same net as the track. -/
theorem trackFilter_true_net (w : World) (memo : List ((Nat × Nat) × Checked))
    (t l o : Nat) (h : (trackFilter w memo t l o).1 = true) :
    ¬ ((w.items o).kind.isConnectedClass = true ∧ (w.items o).net = (w.items t).net) := by
  intro hc
  unfold trackFilter at h
  rw [if_pos hc] at h
  simp at h

/-- Predicates preserved by the per-item zones loop. -/
theorem zonesLoop_ok (w : World) (item layer : Nat) (P : Violation → Prop)
    (Q : CollideCall → Prop)
    (hz : ∀ z, (∀ v ∈ (testItemAgainstZone w item z layer).1, P v)
        ∧ ∀ c ∈ (testItemAgainstZone w item z layer).2, Q c) :
    ∀ (zs : List Nat) (acc : List Violation × List CollideCall),
      (∀ v ∈ acc.1, P v) → (∀ c ∈ acc.2, Q c) →
      (∀ v ∈ (zonesLoop w item layer acc zs).1, P v)
      ∧ ∀ c ∈ (zonesLoop w item layer acc zs).2, Q c := by
  intro zs
  induction zs with
  | nil => exact fun acc h1 h2 => ⟨h1, h2⟩
  | cons z zs ih =>
    intro acc h1 h2
    have h1b : ∀ v ∈ acc.1 ++ (testItemAgainstZone w item z layer).1, P v := by
      intro v hv
      rcases List.mem_append.mp hv with hv | hv
      · exact h1 v hv
      · exact (hz z).1 v hv
    have h2b : ∀ c ∈ acc.2 ++ (testItemAgainstZone w item z layer).2, Q c := by
      intro c hc
      rcases List.mem_append.mp hc with hc | hc
      · exact h2 c hc
      · exact (hz z).2 c hc
    unfold zonesLoop
    dsimp only
    split
    · exact ⟨h1b, h2b⟩
    · exact ih _ h1b h2b

/-- The free-pad case keeps the accumulated violations and calls. -/
theorem trackFreePadCase_shape (w : World) (st : TrackSt) (t l o : Nat) :
    ∀ r, trackFreePadCase w st t l o = some r →
      r.1.viols = st.viols ∧ r.1.calls = st.calls := by
  intro r hr
  unfold trackFreePadCase at hr
  repeat' split at hr
  all_goals simp_all
  all_goals (obtain ⟨rfl, -⟩ := hr; exact ⟨rfl, rfl⟩)

/-- Predicates preserved by the track visitor. -/
theorem trackVisitor_ok (w : World) (P : Violation → Prop) (Q : CollideCall → Prop)
    (st : TrackSt) (t l o : Nat)
    (hv : ∀ v ∈ (testTrackAgainstItem w t l o).viols, P v)
    (hc : ∀ c ∈ (testTrackAgainstItem w t l o).calls, Q c)
    (h1 : ∀ v ∈ st.viols, P v) (h2 : ∀ c ∈ st.calls, Q c) :
    (∀ v ∈ (trackVisitor w st t l o).1.viols, P v)
    ∧ ∀ c ∈ (trackVisitor w st t l o).1.calls, Q c := by
  unfold trackVisitor
  split
  · exact ⟨h1, h2⟩
  · split
    · next r heq =>
      obtain ⟨e1, e2⟩ := trackFreePadCase_shape w st t l o r heq
      exact ⟨fun x hx => h1 x (e1 ▸ hx), fun x hx => h2 x (e2 ▸ hx)⟩
    · dsimp only
      repeat' split
      all_goals
        refine ⟨fun x hx => ?_, fun x hx => ?_⟩ <;>
          dsimp only at hx <;>
          (rcases List.mem_append.mp hx with hx | hx <;>
            first
              | exact h1 x hx
              | exact h2 x hx
              | exact hv x hx
              | exact hc x hx)

/-- Predicates preserved by one spatial-index query of the track phase:
the visitor facts are only needed for pairs that passed the same-net
filter. -/
theorem trackQuery_ok (w : World) (P : Violation → Prop) (Q : CollideCall → Prop)
    (t l : Nat)
    (hvis : ∀ o,
      ¬ ((w.items o).kind.isConnectedClass = true ∧ (w.items o).net = (w.items t).net) →
      (∀ v ∈ (testTrackAgainstItem w t l o).viols, P v)
      ∧ ∀ c ∈ (testTrackAgainstItem w t l o).calls, Q c) :
    ∀ (os : List Nat) (st : TrackSt),
      (∀ v ∈ st.viols, P v) → (∀ c ∈ st.calls, Q c) →
      (∀ v ∈ (trackQuery w t l st os).viols, P v)
      ∧ ∀ c ∈ (trackQuery w t l st os).calls, Q c := by
  intro os
  induction os with
  | nil => exact fun st h1 h2 => ⟨h1, h2⟩
  | cons o os ih =>
    intro st h1 h2
    unfold trackQuery
    dsimp only
    split
    · next hf =>
      have hnet := trackFilter_true_net w st.memo t l o hf
      obtain ⟨hvv, hvc⟩ := trackVisitor_ok w P Q { st with memo := (trackFilter w st.memo t l o).2 }
        t l o (hvis o hnet).1 (hvis o hnet).2 h1 h2
      split
      · exact ih _ hvv hvc
      · exact ⟨hvv, hvc⟩
    · exact ih _ h1 h2

/-- Predicates preserved by one (track, layer) step of the track phase. -/
theorem trackStepTL_ok (w : World) (P : Violation → Prop) (Q : CollideCall → Prop)
    (hvis : ∀ t l o,
      ¬ ((w.items o).kind.isConnectedClass = true ∧ (w.items o).net = (w.items t).net) →
      (∀ v ∈ (testTrackAgainstItem w t l o).viols, P v)
      ∧ ∀ c ∈ (testTrackAgainstItem w t l o).calls, Q c)
    (hz : ∀ i z l, (∀ v ∈ (testItemAgainstZone w i z l).1, P v)
        ∧ ∀ c ∈ (testItemAgainstZone w i z l).2, Q c) :
    ∀ (t l : Nat) (st : TrackSt),
      (∀ v ∈ st.viols, P v) → (∀ c ∈ st.calls, Q c) →
      (∀ v ∈ (trackStepTL w st t l).viols, P v)
      ∧ ∀ c ∈ (trackStepTL w st t l).calls, Q c := by
  intro t l st h1 h2
  unfold trackStepTL
  dsimp only
  obtain ⟨hq1, hq2⟩ := trackQuery_ok w P Q t l (hvis t l) (w.rtree t l) st h1 h2
  exact zonesLoop_ok w t l P Q (fun z => hz t z l) w.zones _ hq1 hq2

/-- Predicates preserved by the whole track phase. -/
theorem trackPhase_ok (w : World) (P : Violation → Prop) (Q : CollideCall → Prop)
    (hvis : ∀ t l o,
      ¬ ((w.items o).kind.isConnectedClass = true ∧ (w.items o).net = (w.items t).net) →
      (∀ v ∈ (testTrackAgainstItem w t l o).viols, P v)
      ∧ ∀ c ∈ (testTrackAgainstItem w t l o).calls, Q c)
    (hz : ∀ i z l, (∀ v ∈ (testItemAgainstZone w i z l).1, P v)
        ∧ ∀ c ∈ (testItemAgainstZone w i z l).2, Q c) :
    (∀ v ∈ (trackPhase w).viols, P v) ∧ ∀ c ∈ (trackPhase w).calls, Q c := by
  unfold trackPhase
  split
  · exact ⟨by intro v hv; simp [TrackSt.init] at hv, by intro c hc; simp [TrackSt.init] at hc⟩
  · have main : ∀ (tls : List (Nat × Nat)) (st : TrackSt),
        (∀ v ∈ st.viols, P v) → (∀ c ∈ st.calls, Q c) →
        (∀ v ∈ (tls.foldl (fun st tl => trackStepTL w st tl.1 tl.2) st).viols, P v)
        ∧ ∀ c ∈ (tls.foldl (fun st tl => trackStepTL w st tl.1 tl.2) st).calls, Q c := by
      intro tls
      induction tls with
      | nil => exact fun st h1 h2 => ⟨h1, h2⟩
      | cons tl tls ih =>
        intro st h1 h2
        obtain ⟨hs1, hs2⟩ := trackStepTL_ok w P Q hvis hz tl.1 tl.2 st h1 h2
        exact ih _ hs1 hs2
    exact main (tlList w) TrackSt.init
      (by intro v hv; simp [TrackSt.init] at hv)
      (by intro c hc; simp [TrackSt.init] at hc)

/-- Predicates preserved by one spatial-index query of the pad phase. -/
theorem padQuery_ok (w : World) (P : Violation → Prop) (Q : CollideCall → Prop)
    (p l : Nat)
    (hvis : ∀ o, (∀ v ∈ (testPadAgainstItem w p l o).viols, P v)
        ∧ ∀ c ∈ (testPadAgainstItem w p l o).calls, Q c) :
    ∀ (os : List Nat) (st : PadSt),
      (∀ v ∈ st.viols, P v) → (∀ c ∈ st.calls, Q c) →
      (∀ v ∈ (padQuery w p l st os).viols, P v)
      ∧ ∀ c ∈ (padQuery w p l st os).calls, Q c := by
  intro os
  induction os with
  | nil => exact fun st h1 h2 => ⟨h1, h2⟩
  | cons o os ih =>
    intro st h1 h2
    have h1b : ∀ v ∈ st.viols ++ (testPadAgainstItem w p l o).viols, P v := by
      intro v hv
      rcases List.mem_append.mp hv with hv | hv
      · exact h1 v hv
      · exact (hvis o).1 v hv
    have h2b : ∀ c ∈ st.calls ++ (testPadAgainstItem w p l o).calls, Q c := by
      intro c hc
      rcases List.mem_append.mp hc with hc | hc
      · exact h2 c hc
      · exact (hvis o).2 c hc
    unfold padQuery
    dsimp only
    split
    · split
      · exact ih _ h1b h2b
      · exact ⟨h1b, h2b⟩
    · exact ih _ h1 h2

/-- Predicates preserved by one (pad, layer) step of the pad phase. -/
theorem padStepPL_ok (w : World) (P : Violation → Prop) (Q : CollideCall → Prop)
    (hvis : ∀ p l o, (∀ v ∈ (testPadAgainstItem w p l o).viols, P v)
        ∧ ∀ c ∈ (testPadAgainstItem w p l o).calls, Q c)
    (hz : ∀ i z l, (∀ v ∈ (testItemAgainstZone w i z l).1, P v)
        ∧ ∀ c ∈ (testItemAgainstZone w i z l).2, Q c) :
    ∀ (p l : Nat) (st : PadSt),
      (∀ v ∈ st.viols, P v) → (∀ c ∈ st.calls, Q c) →
      (∀ v ∈ (padStepPL w st p l).viols, P v)
      ∧ ∀ c ∈ (padStepPL w st p l).calls, Q c := by
  intro p l st h1 h2
  unfold padStepPL
  dsimp only
  obtain ⟨hq1, hq2⟩ := padQuery_ok w P Q p l (hvis p l) (w.rtree p l) st h1 h2
  exact zonesLoop_ok w p l P Q (fun z => hz p z l) w.zones _ hq1 hq2

/-- Predicates preserved by the whole pad phase. -/
theorem padPhase_ok (w : World) (P : Violation → Prop) (Q : CollideCall → Prop)
    (hvis : ∀ p l o, (∀ v ∈ (testPadAgainstItem w p l o).viols, P v)
        ∧ ∀ c ∈ (testPadAgainstItem w p l o).calls, Q c)
    (hz : ∀ i z l, (∀ v ∈ (testItemAgainstZone w i z l).1, P v)
        ∧ ∀ c ∈ (testItemAgainstZone w i z l).2, Q c) :
    (∀ v ∈ (padPhase w).viols, P v) ∧ ∀ c ∈ (padPhase w).calls, Q c := by
  have hinit1 : ∀ v ∈ PadSt.init.viols, P v := by intro v hv; simp [PadSt.init] at hv
  have hinit2 : ∀ c ∈ PadSt.init.calls, Q c := by intro c hc; simp [PadSt.init] at hc
  unfold padPhase
  dsimp only
  split
  · split
    · exact ⟨hinit1, hinit2⟩
    · exact padStepPL_ok w P Q hvis hz _ _ PadSt.init hinit1 hinit2
  · have main : ∀ (pls : List (Nat × Nat)) (st : PadSt),
        (∀ v ∈ st.viols, P v) → (∀ c ∈ st.calls, Q c) →
        (∀ v ∈ (pls.foldl (fun st pl => padStepPL w st pl.1 pl.2) st).viols, P v)
        ∧ ∀ c ∈ (pls.foldl (fun st pl => padStepPL w st pl.1 pl.2) st).calls, Q c := by
      intro pls
      induction pls with
      | nil => exact fun st h1 h2 => ⟨h1, h2⟩
      | cons pl pls ih =>
        intro st h1 h2
        obtain ⟨hs1, hs2⟩ := padStepPL_ok w P Q hvis hz pl.1 pl.2 st h1 h2
        exact ih _ hs1 hs2
    exact main (plList w) PadSt.init hinit1 hinit2

/-- Predicates preserved by the per-graphic zones loop. -/
theorem graphicZones_ok (w : World) (item : Nat) (P : Violation → Prop)
    (Q : CollideCall → Prop)
    (hk : ∀ inh z, (∀ v ∈ (testKnockoutTextAgainstZone w item inh z).2.1, P v)
        ∧ ∀ c ∈ (testKnockoutTextAgainstZone w item inh z).2.2, Q c)
    (hz : ∀ z l, (∀ v ∈ (testItemAgainstZone w item z l).1, P v)
        ∧ ∀ c ∈ (testItemAgainstZone w item z l).2, Q c) :
    ∀ (zs : List Nat) (acc : Option Int × List Violation × List CollideCall),
      (∀ v ∈ acc.2.1, P v) → (∀ c ∈ acc.2.2, Q c) →
      (∀ v ∈ (graphicZones w item acc zs).1, P v)
      ∧ ∀ c ∈ (graphicZones w item acc zs).2, Q c := by
  intro zs
  induction zs with
  | nil => exact fun acc h1 h2 => ⟨h1, h2⟩
  | cons z zs ih =>
    intro acc h1 h2
    unfold graphicZones
    dsimp only
    split
    · have h1b : ∀ v ∈ acc.2.1 ++ (testKnockoutTextAgainstZone w item acc.1 z).2.1, P v := by
        intro v hv
        rcases List.mem_append.mp hv with hv | hv
        · exact h1 v hv
        · exact (hk acc.1 z).1 v hv
      have h2b : ∀ c ∈ acc.2.2 ++ (testKnockoutTextAgainstZone w item acc.1 z).2.2, Q c := by
        intro c hc
        rcases List.mem_append.mp hc with hc | hc
        · exact h2 c hc
        · exact (hk acc.1 z).2 c hc
      split
      · exact ⟨h1b, h2b⟩
      · exact ih _ h1b h2b
    · have h1b : ∀ v ∈ acc.2.1 ++ (testItemAgainstZone w item z (w.items item).primaryLayer).1,
          P v := by
        intro v hv
        rcases List.mem_append.mp hv with hv | hv
        · exact h1 v hv
        · exact (hz z (w.items item).primaryLayer).1 v hv
      have h2b : ∀ c ∈ acc.2.2 ++ (testItemAgainstZone w item z (w.items item).primaryLayer).2,
          Q c := by
        intro c hc
        rcases List.mem_append.mp hc with hc | hc
        · exact h2 c hc
        · exact (hz z (w.items item).primaryLayer).2 c hc
      split
      · exact ⟨h1b, h2b⟩
      · exact ih _ h1b h2b

/-- Predicates preserved by the whole graphic phase. -/
theorem graphicPhase_ok (w : World) (P : Violation → Prop) (Q : CollideCall → Prop)
    (hk : ∀ g inh z, (∀ v ∈ (testKnockoutTextAgainstZone w g inh z).2.1, P v)
        ∧ ∀ c ∈ (testKnockoutTextAgainstZone w g inh z).2.2, Q c)
    (hz : ∀ i z l, (∀ v ∈ (testItemAgainstZone w i z l).1, P v)
        ∧ ∀ c ∈ (testItemAgainstZone w i z l).2, Q c) :
    (∀ v ∈ (graphicPhase w).1, P v) ∧ ∀ c ∈ (graphicPhase w).2, Q c := by
  have hstep : ∀ (acc : List Violation × List CollideCall) (g : Nat),
      (∀ v ∈ acc.1, P v) → (∀ c ∈ acc.2, Q c) →
      (∀ v ∈ (graphicStep w acc g).1, P v) ∧ ∀ c ∈ (graphicStep w acc g).2, Q c := by
    intro acc g h1 h2
    unfold graphicStep
    dsimp only
    split
    · exact ⟨h1, h2⟩
    · split
      · exact ⟨h1, h2⟩
      · exact graphicZones_ok w g P Q (hk g) (fun z l => hz g z l) w.zones (none, acc.1, acc.2)
          h1 h2
  unfold graphicPhase
  split
  · split
    · exact ⟨by intro v hv; simp at hv, by intro c hc; simp at hc⟩
    · exact hstep ([], []) _ (by intro v hv; simp at hv) (by intro c hc; simp at hc)
  · have main : ∀ (gs : List Nat) (acc : List Violation × List CollideCall),
        (∀ v ∈ acc.1, P v) → (∀ c ∈ acc.2, Q c) →
        (∀ v ∈ (gs.foldl (graphicStep w) acc).1, P v)
        ∧ ∀ c ∈ (gs.foldl (graphicStep w) acc).2, Q c := by
      intro gs
      induction gs with
      | nil => exact fun acc h1 h2 => ⟨h1, h2⟩
      | cons g gs ih =>
        intro acc h1 h2
        obtain ⟨hs1, hs2⟩ := hstep acc g h1 h2
        exact ih _ hs1 hs2
    exact main (w.drawings ++ w.fpGraphics) ([], [])
      (by intro v hv; simp at hv) (by intro c hc; simp at hc)

/-- Every call of a full run comes from the track, pad or graphic phase. -/
theorem runModel_calls_sub (w : World) :
    ∀ c ∈ (runModel w).calls,
      c ∈ (trackPhase w).calls ∨ c ∈ (padPhase w).calls ∨ c ∈ (graphicPhase w).2 := by
  intro c hc
  unfold runModel at hc
  dsimp only at hc
  repeat' split at hc
  all_goals simp_all [TrackSt.init, PadSt.init]
  all_goals tauto

/-! ### Claim C2 -/

/-- Claim C2 counterexample: two through-hole pads of different nets, each
overlapping the hole of the other (the collision oracle answers every
query positively), with the hole clearance resolved to exactly 0 at error
severity.  The claim requires the hole collision test to be performed in
the pad-vs-item path even at clearance 0; the code performs no geometric
test at all and reports nothing. -/
theorem C2_counterexample :
    testPadAgainstItem c2World 1 0 2 = ⟨[], [], true⟩
    ∧ (c2World.evalRules .holeC 1 2 0).value = 0
    ∧ (c2World.evalRules .holeC 1 2 0).severity ≠ Severity.ignore
    ∧ (c2World.items 1).hasHole = true ∧ (c2World.items 2).hasHole = true
    ∧ c2World.collide (.solid 1 0) (.holeOf 2) 0 = some (0, ⟨1, 1⟩) := by decide

/-- Claim C2 as amended: the hole collision test runs regardless of the
resolved hole-clearance value (including 0) only in the track-vs-item
path; in the pad-vs-item and item-vs-zone paths a hole collision test is
performed only when the resolved hole clearance is positive. -/
theorem C2_hole_clearance_zero_amended :
    (∀ (w : World) (t l o : Nat),
      (w.items t).kind.isTrackClass = true →
      (w.items o).hasHole = true →
      w.limitExceeded .holeClearanceV = false →
      (w.evalRules .holeC o t l).severity ≠ Severity.ignore →
      w.collide (.solid t l) (.solid o l)
        ((w.evalRules .clearanceC t o l).value - w.eps) = none →
      (⟨.holeG, o, t, l, max 0 ((w.evalRules .holeC o t l).value - w.eps)⟩ : CollideCall)
        ∈ (testTrackAgainstItem w t l o).calls)
    ∧ (∀ (w : World) (p l o : Nat),
      (w.evalRules .holeC p o l).value ≤ 0 →
      ∀ c ∈ (testPadAgainstItem w p l o).calls, c.gate ≠ GateKind.holeG)
    ∧ (∀ (w : World) (i z l : Nat),
      (w.evalRules .holeC i z l).value ≤ 0 →
      ∀ c ∈ (testItemAgainstZone w i z l).2, c.gate ≠ GateKind.holeG) := by
  refine ⟨testTrack_holeCall, ?_, ?_⟩
  · intro w p l o hle c hc
    rcases testPad_calls_shape w p l o c hc with ⟨he, _, _⟩ | ⟨he, _, hcl⟩
    · subst he; simp
    · omega
  · intro w i z l hle c hc
    rcases testItemZone_calls w i z l c hc with ⟨he, _, _⟩ | ⟨he, _, hcl⟩
    · subst he; simp
    · omega

/-- Claim C2 witness: the amended statement applied to concrete boards —
the track path performs the hole test with a budget of 0, the pad and
zone paths perform no hole test at resolved clearance 0. -/
theorem C2_witness :
    ((⟨.holeG, 2, 1, 0,
        max 0 ((c2aWorld.evalRules .holeC 2 1 0).value - c2aWorld.eps)⟩ : CollideCall)
      ∈ (testTrackAgainstItem c2aWorld 1 0 2).calls)
    ∧ (∀ c ∈ (testPadAgainstItem c2World 1 0 2).calls, c.gate ≠ GateKind.holeG)
    ∧ (∀ c ∈ (testItemAgainstZone c2World 1 99 0).2, c.gate ≠ GateKind.holeG) :=
  ⟨C2_hole_clearance_zero_amended.1 c2aWorld 1 0 2 (by decide) (by decide) (by decide)
      (by decide) (by decide),
   C2_hole_clearance_zero_amended.2.1 c2World 1 0 2 (by decide),
   C2_hole_clearance_zero_amended.2.2 c2World 1 99 0 (by decide)⟩

/-! ### Claim C3 -/

/-- Claim C3 (code bug): the sweep breaks out of the inner loop as soon
as the reference segment ends left of the candidate segment start, with
no allowance for the clearance.  On two zones whose nearest boundary
segments are collinear at distance 1 — far below the required clearance
of 10, as the distance oracle itself reports — the pair is submitted with
clearance 10, the lists are sorted as required, and yet the sweep reports
nothing. -/
theorem C3_sweep_early_exit_bug :
    zoneSubs c3World = [⟨10, 11, 10, 0⟩]
    ∧ builtSegs c3World 10 0 = [⟨⟨0, 0⟩, ⟨5, 0⟩⟩]
    ∧ builtSegs c3World 11 0 = [⟨⟨6, 0⟩, ⟨10, 0⟩⟩]
    ∧ (c3World.segClear ⟨⟨6, 0⟩, ⟨10, 0⟩⟩ ⟨⟨0, 0⟩, ⟨5, 0⟩⟩ 10).1 < 10
    ∧ zonePhase c3World = [] := by decide

/-! ### Claim C5 -/

/-- Claim C5 counterexample: two pads of different nets sharing both
copper layers, within clearance everywhere.  The pad-phase memo is keyed
by pair only: after the layer-0 test, the pair is never tested on layer 1
— a single violation on layer 0 results, none on layer 1 — while the
track-phase filter would still pass the pair on the untested layer 1. -/
theorem C5_counterexample :
    (padPhase c5World).viols = [⟨.clearanceV, 1, 2, ⟨3, 3⟩, 0⟩]
    ∧ (1 : Nat) ∈ (c5World.items 1).layers
    ∧ (1 : Nat) ∈ (c5World.items 2).layers
    ∧ (padPhase c5World).viols.countP (fun v => v.layer == 1) = 0
    ∧ (trackFilter c5World [((1, 2), ⟨[0], false⟩)] 1 1 2).1 = true := by decide

/-- Claim C5 as amended: the track-phase memo is keyed per (ordered pair,
layer) — a pair recorded on other layers still passes the filter on a new
layer unless the error-stop policy applies — while the pad-phase memo is
keyed per ordered pair only: once recorded, the pair is rejected on every
layer. -/
theorem C5_memo_keying_amended :
    (∀ (w : World) (memo : List ((Nat × Nat) × Checked)) (t l o : Nat)
        (c : Checked),
      ¬ ((w.items o).kind.isConnectedClass = true ∧ (w.items o).net = (w.items t).net) →
      memoFind memo (pairKey t o) = some c →
      ¬ l ∈ c.layers →
      ¬ (c.hasError = true ∧ w.reportAllTrackErrors = false) →
      (trackFilter w memo t l o).1 = true)
    ∧ (∀ (w : World) (memo : List ((Nat × Nat) × Checked)) (t l o : Nat),
      ¬ ((w.items o).kind.isConnectedClass = true ∧ (w.items o).net = (w.items t).net) →
      memoFind memo (pairKey t o) = none →
      (trackFilter w memo t l o).1 = true)
    ∧ (∀ (memo : List ((Nat × Nat) × Int)) (p o : Nat),
      (padMemoFind memo (pairKey p o)).isSome = true →
      (padFilter memo p o).1 = false) := by
  refine ⟨?_, ?_, ?_⟩
  · intro w memo t l o c hnet hfind hlay herr
    unfold trackFilter
    rw [if_neg hnet]
    dsimp only
    rw [hfind]
    dsimp only
    rw [if_neg]
    intro h
    rcases h with h | ⟨h1, h2⟩
    · exact hlay h
    · exact herr ⟨h1, by revert h2; cases w.reportAllTrackErrors <;> simp⟩
  · intro w memo t l o hnet hfind
    unfold trackFilter
    rw [if_neg hnet]
    dsimp only
    rw [hfind]
  · intro memo p o hfind
    unfold padFilter
    dsimp only
    rw [if_pos hfind]

/-- Claim C5 witness: the amended statement applied to the two-layer
two-pad board — the track filter passes the pair on the untested layer,
the pad filter rejects the recorded pair. -/
theorem C5_witness :
    (trackFilter c5World [((1, 2), ⟨[0], false⟩)] 1 1 2).1 = true
    ∧ (padFilter [((1, 2), 1)] 1 2).1 = false :=
  ⟨C5_memo_keying_amended.1 c5World [((1, 2), ⟨[0], false⟩)] 1 1 2 ⟨[0], false⟩
      (by decide) (by decide) (by decide) (by decide),
   C5_memo_keying_amended.2.2 [((1, 2), 1)] 1 2 (by decide)⟩

/-! ### Claim C9 -/

/-- Claim C9: two pads forming the same logical pad never receive a
CLEARANCE violation from their pairwise test; if both carry non-zero nets
and those nets differ (and the shorting error limit is not exceeded), the
call reports exactly one SHORTING_ITEMS violation for the pair. -/
theorem C9_same_logical_pads (w : World) (p l o : Nat)
    (hk : (w.items o).kind = .pad) (hsl : w.sameLogical p o = true) :
    ((testPadAgainstItem w p l o).viols.filter (fun v => v.kind == VKind.clearanceV) = [])
    ∧ ((w.items p).net ≠ 0 → (w.items o).net ≠ 0 → (w.items p).net ≠ (w.items o).net →
       w.limitExceeded .shortingItemsV = false →
       (testPadAgainstItem w p l o).viols
         = [⟨.shortingItemsV, p, o, (w.items o).pos, l⟩]) :=
  testPad_sameLogical w p l o hk hsl

/-- Claim C9 witness: the same-footprint same-number pads of the example
board, carrying nets 1 and 2. -/
theorem C9_witness :
    ((testPadAgainstItem c9World 1 0 2).viols.filter
        (fun v => v.kind == VKind.clearanceV) = [])
    ∧ (testPadAgainstItem c9World 1 0 2).viols
        = [⟨.shortingItemsV, 1, 2, (c9World.items 2).pos, 0⟩] :=
  ⟨(C9_same_logical_pads c9World 1 0 2 (by decide) (by decide)).1,
   (C9_same_logical_pads c9World 1 0 2 (by decide) (by decide)).2
     (by decide) (by decide) (by decide) (by decide)⟩

/-! ### Claim C10 -/

/-- Claim C10: when the board-wide maximum clearance constant is not
positive, Run performs no tests, reports nothing, and returns true so
other providers still run. -/
theorem C10_run_disabled (w : World) (h : w.maxClearance ≤ 0) :
    runModel w = ⟨[], [], [], true⟩ := by
  unfold runModel
  exact if_pos h

/-- Claim C10 witness. -/
theorem C10_witness :
    ({ baseWorld with maxClearance := 0 } : World).maxClearance ≤ 0
    ∧ runModel { baseWorld with maxClearance := 0 } = ⟨[], [], [], true⟩ :=
  ⟨by decide, C10_run_disabled _ (by decide)⟩

/-! ### Claim C6 -/

/-- Claim C6 counterexample: a pad and a connected copper graphic shape
both carrying net 7, within clearance.  The same-net waiver of the pad
path covers only pads and vias, so a CLEARANCE violation is reported
between two items of the same non-zero net — by the pad-vs-item phase of
a full run as well. -/
theorem C6_counterexample :
    (testPadAgainstItem c6World 1 0 2).viols = [⟨.clearanceV, 1, 2, ⟨3, 3⟩, 0⟩]
    ∧ (c6World.items 1).net = 7 ∧ (c6World.items 2).net = 7
    ∧ (c6World.items 1).kind.isConnectedClass = true
    ∧ (c6World.items 2).kind.isConnectedClass = true
    ∧ (runModel c6World).viols.countP (fun v => v.kind == VKind.clearanceV) = 1 := by
  decide

/-- Claim C6 as amended: same-non-zero-net pairs are never reported in the
track phase (the spatial-index filter skips every connected same-net
candidate) nor by the item-vs-zone path (it returns before testing); in
the pad phase the waiver holds when the other item is a pad or a via —
a connected copper graphic on the same net is not waived. -/
theorem C6_same_net_amended :
    (∀ w : World, ∀ v ∈ (trackPhase w).viols,
      v.kind = VKind.clearanceV ∨ v.kind = VKind.holeClearanceV →
      ¬ sameNonzeroNet w v.itemA v.itemB)
    ∧ (∀ w : World, ∀ v ∈ (padPhase w).viols,
      v.kind = VKind.clearanceV ∨ v.kind = VKind.holeClearanceV →
      ((w.items v.itemB).kind = .pad ∨ (w.items v.itemB).kind = .via) →
      ¬ sameNonzeroNet w v.itemA v.itemB)
    ∧ (∀ (w : World) (i z l : Nat), sameNonzeroNet w i z →
      testItemAgainstZone w i z l = ([], [])) := by
  have hzone : ∀ (w : World) (i z l : Nat),
      ∀ v ∈ (testItemAgainstZone w i z l).1, ¬ sameNonzeroNet w v.itemA v.itemB := by
    intro w i z l v hv
    obtain ⟨hA, hB, -, -, hskip⟩ := testItemZone_viols w i z l v hv
    rw [hA, hB]
    intro hs
    exact hskip ⟨hs.2.2.1 ▸ hs.2.2.2, hs.1, hs.2.2.1.symm⟩
  refine ⟨?_, ?_, ?_⟩
  · intro w
    refine (trackPhase_ok w
      (fun v => v.kind = VKind.clearanceV ∨ v.kind = VKind.holeClearanceV →
        ¬ sameNonzeroNet w v.itemA v.itemB) (fun _ => True) ?_ ?_).1
    · intro t l o hnet
      refine ⟨?_, fun c hc => trivial⟩
      intro v hv hkind hs
      obtain ⟨cp, hp, he, hcp, hhp⟩ := testTrack_viols_enum w t l o
      rw [he] at hv
      have hpair : (v.itemA = t ∧ v.itemB = o) ∨ (v.itemA = o ∧ v.itemB = t) := by
        rcases List.mem_append.mp hv with hv | hv
        · rcases hcp with rfl | ⟨pt, rfl⟩
          · simp at hv
          · simp at hv; subst hv; exact .inl ⟨rfl, rfl⟩
        · rcases hhp with rfl | ⟨pt, rfl⟩ | ⟨pt, rfl⟩
          · simp at hv
          · simp at hv; subst hv; exact .inl ⟨rfl, rfl⟩
          · simp at hv; subst hv; exact .inr ⟨rfl, rfl⟩
      rcases hpair with ⟨ha, hb⟩ | ⟨ha, hb⟩ <;> rw [ha, hb] at hs
      · exact hnet ⟨hs.2.1, hs.2.2.1.symm⟩
      · exact hnet ⟨hs.1, hs.2.2.1⟩
    · intro i z l
      exact ⟨fun v hv hkind => hzone w i z l v hv, fun c hc => trivial⟩
  · intro w
    refine (padPhase_ok w
      (fun v => v.kind = VKind.clearanceV ∨ v.kind = VKind.holeClearanceV →
        ((w.items v.itemB).kind = .pad ∨ (w.items v.itemB).kind = .via) →
        ¬ sameNonzeroNet w v.itemA v.itemB) (fun _ => True) ?_ ?_).1
    · intro p l o
      refine ⟨?_, fun c hc => trivial⟩
      intro v hv hkind hbk hs
      obtain ⟨hA, hB, -, -, hclf, hhf, -⟩ := testPad_viols_shape w p l o v hv
      rw [hA, hB] at hs
      rw [hB] at hbk
      obtain ⟨hw1, hw2⟩ := padFlags_netWaiver w p l o hbk hs.2.2.1.symm
        (hs.2.2.1 ▸ hs.2.2.2)
      rcases hkind with hk | hk
      · rw [hclf hk] at hw1; exact Bool.true_eq_false.mp hw1
      · rw [hhf hk] at hw2; exact Bool.true_eq_false.mp hw2
    · intro i z l
      exact ⟨fun v hv hkind hbk => hzone w i z l v hv, fun c hc => trivial⟩
  · intro w i z l hs
    exact testItemZone_sameNet w i z l (hs.2.2.1 ▸ hs.2.2.2) hs.1 hs.2.2.1.symm

/-- Claim C6 witness: the amended statement applied to the crossing-tracks
board (track phase), the same-logical-pad board (pad phase) and a
same-net item-zone query. -/
theorem C6_witness :
    ((⟨.clearanceV, 1, 2, ⟨5, 5⟩, 0⟩ : Violation) ∈ (trackPhase c1World).viols
      ∧ ¬ sameNonzeroNet c1World 1 2)
    ∧ ((⟨.clearanceV, 1, 2, ⟨3, 3⟩, 0⟩ : Violation) ∈ (padPhase c5World).viols
      ∧ ¬ sameNonzeroNet c5World 1 2)
    ∧ testItemAgainstZone c6World 2 1 0 = ([], []) :=
  ⟨⟨by decide, C6_same_net_amended.1 c1World ⟨.clearanceV, 1, 2, ⟨5, 5⟩, 0⟩
      (by decide) (.inl rfl)⟩,
   ⟨by decide, C6_same_net_amended.2.1 c5World ⟨.clearanceV, 1, 2, ⟨3, 3⟩, 0⟩
      (by decide) (.inl rfl) (.inl (by decide))⟩,
   C6_same_net_amended.2.2 c6World 2 1 0 (by decide)⟩

/-! ### Claim C7 -/

/-- Claim C7 counterexample: two overlapping square zones of nets 1 and 2
(their boundary segments cross at (10,20), where the distance oracle
reports separation 0), with required clearance 15.  The sweep returns its
first conflict — a segment pair at distance 10 — so the pair is reported
as a CLEARANCE violation and no ZONES_INTERSECT violation is produced,
contrary to the claim. -/
theorem C7_counterexample :
    zonePhase c7World = [⟨.clearanceV, 10, 11, ⟨10, 0⟩, 0⟩]
    ∧ (∀ v ∈ zonePhase c7World, v.kind ≠ VKind.zonesIntersectV)
    ∧ (⟨⟨10, 10⟩, ⟨10, 30⟩⟩ : Seg) ∈ builtSegs c7World 11 0
    ∧ (⟨⟨0, 20⟩, ⟨20, 20⟩⟩ : Seg) ∈ builtSegs c7World 10 0
    ∧ (c7World.segClear ⟨⟨10, 10⟩, ⟨10, 30⟩⟩ ⟨⟨0, 20⟩, ⟨20, 20⟩⟩ 15).1 = 0 := by
  decide

/-- Fields of a successful checkZones report: the report carries the
submission pair, layer and required clearance, and the conflict point and
distance of the sweep. -/
theorem checkZones_fields (w : World) (tc ti : Bool) (s : ZoneSub)
    (rd : ReportData) (h : checkZones w tc ti s = some rd) :
    rd.za = s.za ∧ rd.zb = s.zb ∧ rd.layer = s.layer ∧ rd.required = s.clear := by
  unfold checkZones at h
  split at h
  · rw [Option.some.injEq] at h
    subst h
    exact ⟨rfl, rfl, rfl, rfl⟩
  · exact Option.noConfusion h

/-- Claim C7 as amended: every zone-phase violation comes from one
submitted zone pair via the first conflict its sweep returns, and its
kind is ZONES_INTERSECT exactly when that first conflict has actual
distance at most 0 (with the intersection test enabled) — otherwise the
pair is reported as a CLEARANCE violation even when the zones overlap;
each sweep report yields at most one violation. -/
theorem C7_zone_report_amended :
    (∀ w : World, ∀ v ∈ zonePhase w,
      ∃ s ∈ zoneSubs w, ∃ rd : ReportData,
        checkZones w (! w.limitExceeded VKind.clearanceV)
            (! w.limitExceeded VKind.zonesIntersectV) s = some rd
        ∧ rd.za = s.za ∧ rd.zb = s.zb ∧ rd.layer = s.layer
        ∧ v.itemA = rd.za ∧ v.itemB = rd.zb ∧ v.layer = rd.layer ∧ v.pos = rd.pt
        ∧ (v.kind = VKind.zonesIntersectV ∨ v.kind = VKind.clearanceV)
        ∧ (v.kind = VKind.zonesIntersectV ↔
            rd.actual ≤ 0 ∧ (! w.limitExceeded VKind.zonesIntersectV) = true))
    ∧ (∀ (tc ti : Bool) (rd : ReportData), (reportZone tc ti rd).length ≤ 1) := by
  constructor
  · intro w v hv
    unfold zonePhase at hv
    dsimp only at hv
    split at hv
    · exact absurd hv (List.not_mem_nil v)
    obtain ⟨s, hsm, hvm⟩ := List.mem_flatMap.mp hv
    refine ⟨s, hsm, ?_⟩
    split at hvm
    next rd hck =>
      obtain ⟨hza, hzb, hlay, -⟩ := checkZones_fields w _ _ s rd hck
      refine ⟨rd, hck, hza, hzb, hlay, ?_⟩
      unfold reportZone at hvm
      split at hvm
      next h =>
        rw [List.mem_singleton] at hvm
        subst hvm
        exact ⟨rfl, rfl, rfl, rfl, .inl rfl, fun _ => h, fun _ => rfl⟩
      next h =>
        split at hvm
        · rw [List.mem_singleton] at hvm
          subst hvm
          exact ⟨rfl, rfl, rfl, rfl, .inr rfl,
            fun hk => VKind.noConfusion hk, fun hc => absurd hc h⟩
        · exact absurd hvm (List.not_mem_nil v)
    next hck => exact absurd hvm (List.not_mem_nil v)
  · intro tc ti rd
    unfold reportZone
    repeat' split
    all_goals simp

/-- Claim C7 witness: the amended statement applied to the reported
violation of the overlapping-zones board. -/
theorem C7_witness :
    ((⟨.clearanceV, 10, 11, ⟨10, 0⟩, 0⟩ : Violation) ∈ zonePhase c7World)
    ∧ (∃ s ∈ zoneSubs c7World, ∃ rd : ReportData,
        checkZones c7World (! c7World.limitExceeded VKind.clearanceV)
            (! c7World.limitExceeded VKind.zonesIntersectV) s = some rd
        ∧ rd.za = s.za ∧ rd.zb = s.zb ∧ rd.layer = s.layer
        ∧ (⟨.clearanceV, 10, 11, ⟨10, 0⟩, 0⟩ : Violation).itemA = rd.za
        ∧ (⟨.clearanceV, 10, 11, ⟨10, 0⟩, 0⟩ : Violation).itemB = rd.zb
        ∧ (⟨.clearanceV, 10, 11, ⟨10, 0⟩, 0⟩ : Violation).layer = rd.layer
        ∧ (⟨.clearanceV, 10, 11, ⟨10, 0⟩, 0⟩ : Violation).pos = rd.pt
        ∧ ((⟨.clearanceV, 10, 11, ⟨10, 0⟩, 0⟩ : Violation).kind
              = VKind.zonesIntersectV
            ∨ (⟨.clearanceV, 10, 11, ⟨10, 0⟩, 0⟩ : Violation).kind
              = VKind.clearanceV)
        ∧ ((⟨.clearanceV, 10, 11, ⟨10, 0⟩, 0⟩ : Violation).kind
              = VKind.zonesIntersectV ↔
            rd.actual ≤ 0
              ∧ (! c7World.limitExceeded VKind.zonesIntersectV) = true)) :=
  ⟨by decide,
   C7_zone_report_amended.1 c7World ⟨.clearanceV, 10, 11, ⟨10, 0⟩, 0⟩ (by decide)⟩

/-! ### Claim C8 -/

/-- Claim C8: whenever the rule evaluator resolves a CLEARANCE or
HOLE_CLEARANCE constraint to IGNORE severity for a tuple, no geometric
collision test gated by that constraint is performed anywhere in a run
(part 1: every logged gated collision of a full run has a non-IGNORE
severity for its tuple), and no zone-pair sweep is submitted under an
ignored zone-to-zone clearance (part 2). -/
theorem C8_ignore_disables_tests :
    (∀ w : World, ∀ c ∈ (runModel w).calls,
      (c.gate = .clearanceG →
        (w.evalRules .clearanceC c.itemA c.itemB c.layer).severity ≠ Severity.ignore)
      ∧ (c.gate = .holeG →
        (w.evalRules .holeC c.itemA c.itemB c.layer).severity ≠ Severity.ignore))
    ∧ (∀ w : World, ∀ s ∈ zoneSubs w,
      (w.evalRules .clearanceC s.za s.zb s.layer).severity ≠ Severity.ignore) := by
  constructor
  · intro w c hc
    have hzoneQ : ∀ i z l, ∀ c2 ∈ (testItemAgainstZone w i z l).2, CallOk w c2 := by
      intro i z l c2 hc2
      rcases testItemZone_calls w i z l c2 hc2 with ⟨rfl, hs, -⟩ | ⟨rfl, hs, -⟩ <;>
        exact ⟨by intro h; first | exact hs | simp at h, by intro h; first | exact hs | simp at h⟩
    have htrk : ∀ c2 ∈ (trackPhase w).calls, CallOk w c2 := by
      refine (trackPhase_ok w (fun _ => True) (CallOk w) ?_ ?_).2
      · intro t l o hnet
        refine ⟨fun v hv => trivial, ?_⟩
        intro c2 hc2
        rcases testTrack_calls_shape w t l o c2 hc2 with ⟨rfl, hs, -⟩ |
          ⟨a, b, -, rfl, hs⟩ <;>
          exact ⟨by intro h; first | exact hs | simp at h,
                 by intro h; first | exact hs | simp at h⟩
      · intro i z l
        exact ⟨fun v hv => trivial, hzoneQ i z l⟩
    have hpad : ∀ c2 ∈ (padPhase w).calls, CallOk w c2 := by
      refine (padPhase_ok w (fun _ => True) (CallOk w) ?_ ?_).2
      · intro p l o
        refine ⟨fun v hv => trivial, ?_⟩
        intro c2 hc2
        rcases testPad_calls_shape w p l o c2 hc2 with ⟨rfl, hs, -⟩ | ⟨rfl, hs, -⟩ <;>
          exact ⟨by intro h; first | exact hs | simp at h,
                 by intro h; first | exact hs | simp at h⟩
      · intro i z l
        exact ⟨fun v hv => trivial, hzoneQ i z l⟩
    have hgra : ∀ c2 ∈ (graphicPhase w).2, CallOk w c2 := by
      refine (graphicPhase_ok w (fun _ => True) (CallOk w) ?_ ?_).2
      · intro g inh z
        refine ⟨fun v hv => trivial, ?_⟩
        intro c2 hc2
        rcases knockout_calls w g inh z c2 hc2 with hp | ⟨rfl, hs⟩
        · exact ⟨by intro h; rw [hp] at h; simp at h,
                 by intro h; rw [hp] at h; simp at h⟩
        · exact ⟨fun h => hs, by intro h; simp at h⟩
      · intro i z l
        exact ⟨fun v hv => trivial, hzoneQ i z l⟩
    rcases runModel_calls_sub w c hc with h | h | h
    · exact htrk c h
    · exact hpad c h
    · exact hgra c h
  · intro w s hs
    obtain ⟨l, hl, hmem⟩ := List.mem_flatMap.mp hs
    obtain ⟨p, hp, hf⟩ := List.mem_filterMap.mp hmem
    dsimp only at hf
    repeat' split at hf
    any_goals exact Option.noConfusion hf
    rename_i hguard
    rw [Option.some.injEq] at hf
    subst hf
    dsimp only
    exact fun hign => hguard (Or.inl hign)

/-- Claim C8 witness: applied to the logged clearance collision of the
crossing-tracks board and to the submitted zone pair of the sorted-sweep
board. -/
theorem C8_witness :
    (((⟨.clearanceG, 1, 2, 0, 5⟩ : CollideCall) ∈ (runModel c1World).calls)
      ∧ ((c1World.evalRules .clearanceC 1 2 0).severity ≠ Severity.ignore))
    ∧ (c3World.evalRules .clearanceC 10 11 0).severity ≠ Severity.ignore :=
  ⟨⟨by decide,
    (C8_ignore_disables_tests.1 c1World ⟨.clearanceG, 1, 2, 0, 5⟩ (by decide)).1 rfl⟩,
   C8_ignore_disables_tests.2 c3World ⟨10, 11, 10, 0⟩ (by decide)⟩

/-! ### Lemmas towards the per-phase clearance-key uniqueness -/

theorem pairKey_eq_iff (a b c d : Nat) :
    pairKey a b = pairKey c d ↔ (a = c ∧ b = d) ∨ (a = d ∧ b = c) := by
  unfold pairKey
  split <;> split <;> simp only [Prod.mk.injEq] <;> omega

theorem pairKey_right_inj {a b c : Nat} (h : pairKey a b = pairKey a c) : b = c := by
  rcases (pairKey_eq_iff a b a c).mp h with ⟨-, h2⟩ | ⟨h1, h2⟩
  · exact h2
  · omega

theorem trackClass_ne_zone {k : ItemKind} (h : k.isTrackClass = true) :
    k ≠ ItemKind.zone := by
  cases k <;> simp_all [ItemKind.isTrackClass]

theorem clearKeys_append (a b : List Violation) :
    clearKeys (a ++ b) = clearKeys a ++ clearKeys b := by
  simp [clearKeys]

theorem clearKeys_countP (K : (Nat × Nat) × Nat) :
    ∀ vs : List Violation,
      vs.countP (fun v => v.kind == VKind.clearanceV && clearKey v == K)
        = (clearKeys vs).count K := by
  intro vs
  induction vs with
  | nil => rfl
  | cons v vs ih =>
    by_cases hk : v.kind = VKind.clearanceV <;> by_cases hK : clearKey v = K <;>
      simp [clearKeys, List.countP_cons, List.filter_cons, List.count_cons, hk, hK,
        ih]

/-- A key appears in clearKeys only through a clearance violation. -/
theorem clearKeys_mem {vs : List Violation} {K : (Nat × Nat) × Nat}
    (h : K ∈ clearKeys vs) :
    ∃ v ∈ vs, v.kind = VKind.clearanceV ∧ clearKey v = K := by
  unfold clearKeys at h
  obtain ⟨v, hv, hK⟩ := List.mem_map.mp h
  obtain ⟨hm, hf⟩ := List.mem_filter.mp hv
  exact ⟨v, hm, by simpa using hf, hK⟩

theorem padMemoFind_mono {m : List ((Nat × Nat) × Int)} {k : Nat × Nat}
    (e : (Nat × Nat) × Int) (h : (padMemoFind m k).isSome = true) :
    (padMemoFind (e :: m) k).isSome = true := by
  unfold padMemoFind
  split <;> simp_all

theorem padMemoFind_self (m : List ((Nat × Nat) × Int)) (k : Nat × Nat) (n : Int) :
    (padMemoFind ((k, n) :: m) k).isSome = true := by
  unfold padMemoFind
  simp

theorem padFilter_spec (memo : List ((Nat × Nat) × Int)) (p o : Nat) :
    padFilter memo p o = (false, memo)
    ∨ (padFilter memo p o = (true, (pairKey p o, 1) :: memo)
        ∧ (padMemoFind memo (pairKey p o)).isSome = false) := by
  unfold padFilter
  dsimp only
  split
  next hs => exact .inl rfl
  next hs => exact .inr ⟨rfl, by simpa using hs⟩

theorem padFilter_true {memo : List ((Nat × Nat) × Int)} {p o : Nat}
    (h : (padFilter memo p o).1 = true) :
    (padMemoFind memo (pairKey p o)).isSome = false
    ∧ (padFilter memo p o).2 = (pairKey p o, 1) :: memo := by
  rcases padFilter_spec memo p o with hs | ⟨hs, hab⟩
  · rw [hs] at h; simp at h
  · rw [hs]; exact ⟨hab, rfl⟩

theorem padFilter_false {memo : List ((Nat × Nat) × Int)} {p o : Nat}
    (h : (padFilter memo p o).1 = false) : (padFilter memo p o).2 = memo := by
  rcases padFilter_spec memo p o with hs | ⟨hs, -⟩
  · rw [hs]
  · rw [hs] at h; simp at h

theorem memoFind_setLayer_self (m : List ((Nat × Nat) × Checked)) (k : Nat × Nat)
    (l : Nat) : keyRecorded (memoSetLayer m k l) k l := by
  induction m with
  | nil => exact ⟨⟨[l], false⟩, by simp [memoSetLayer, memoFind], by simp⟩
  | cons e m ih =>
    obtain ⟨k2, c⟩ := e
    unfold memoSetLayer
    split
    next he =>
      exact ⟨⟨l :: c.layers, c.hasError⟩, by simp [memoFind, he], by simp⟩
    next he =>
      obtain ⟨c2, hf, hl⟩ := ih
      exact ⟨c2, by simp [memoFind, he, hf], hl⟩

theorem keyRecorded_setLayer {m : List ((Nat × Nat) × Checked)} {k : Nat × Nat}
    {l : Nat} (k2 : Nat × Nat) (l2 : Nat) (h : keyRecorded m k l) :
    keyRecorded (memoSetLayer m k2 l2) k l := by
  induction m with
  | nil => obtain ⟨c, hf, -⟩ := h; simp [memoFind] at hf
  | cons e m ih =>
    obtain ⟨k3, c⟩ := e
    obtain ⟨c0, hf, hl⟩ := h
    unfold memoFind at hf
    unfold memoSetLayer
    split
    next he =>
      by_cases hk : k3 = k
      · rw [if_pos hk] at hf
        rw [Option.some.injEq] at hf
        subst hf
        exact ⟨⟨l2 :: c.layers, c.hasError⟩, by simp [memoFind, hk], by simp [hl]⟩
      · rw [if_neg hk] at hf
        exact ⟨c0, by simp [memoFind, hk, hf], hl⟩
    next he =>
      by_cases hk : k3 = k
      · rw [if_pos hk] at hf
        rw [Option.some.injEq] at hf
        subst hf
        exact ⟨c, by simp [memoFind, hk], hl⟩
      · rw [if_neg hk] at hf
        obtain ⟨c2, hf2, hl2⟩ := ih ⟨c0, hf, hl⟩
        exact ⟨c2, by simp [memoFind, hk, hf2], hl2⟩

theorem keyRecorded_markError {m : List ((Nat × Nat) × Checked)} {k : Nat × Nat}
    {l : Nat} (k2 : Nat × Nat) (h : keyRecorded m k l) :
    keyRecorded (memoMarkError m k2) k l := by
  induction m with
  | nil => obtain ⟨c, hf, -⟩ := h; simp [memoFind] at hf
  | cons e m ih =>
    obtain ⟨k3, c⟩ := e
    obtain ⟨c0, hf, hl⟩ := h
    unfold memoFind at hf
    unfold memoMarkError
    split
    next he =>
      by_cases hk : k3 = k
      · rw [if_pos hk] at hf
        rw [Option.some.injEq] at hf
        subst hf
        exact ⟨⟨c.layers, true⟩, by simp [memoFind, hk], hl⟩
      · rw [if_neg hk] at hf
        exact ⟨c0, by simp [memoFind, hk, hf], hl⟩
    next he =>
      by_cases hk : k3 = k
      · rw [if_pos hk] at hf
        rw [Option.some.injEq] at hf
        subst hf
        exact ⟨c, by simp [memoFind, hk], hl⟩
      · rw [if_neg hk] at hf
        obtain ⟨c2, hf2, hl2⟩ := ih ⟨c0, hf, hl⟩
        exact ⟨c2, by simp [memoFind, hk, hf2], hl2⟩

theorem trackFilter_spec (w : World) (memo : List ((Nat × Nat) × Checked))
    (t l o : Nat) :
    trackFilter w memo t l o = (false, memo)
    ∨ (trackFilter w memo t l o = (true, memoSetLayer memo (pairKey t o) l)
        ∧ ¬ keyRecorded memo (pairKey t o) l) := by
  unfold trackFilter
  dsimp only
  split
  · exact .inl rfl
  · split
    next c hfind =>
      split
      · exact .inl rfl
      next hcond =>
        refine .inr ⟨rfl, ?_⟩
        rintro ⟨c2, hf2, hl2⟩
        rw [hfind, Option.some.injEq] at hf2
        subst hf2
        exact hcond (.inl hl2)
    next hfind =>
      refine .inr ⟨rfl, ?_⟩
      rintro ⟨c2, hf2, -⟩
      rw [hfind] at hf2
      exact Option.noConfusion hf2

theorem trackFilter_true {w : World} {memo : List ((Nat × Nat) × Checked)}
    {t l o : Nat} (h : (trackFilter w memo t l o).1 = true) :
    ¬ keyRecorded memo (pairKey t o) l
    ∧ (trackFilter w memo t l o).2 = memoSetLayer memo (pairKey t o) l := by
  rcases trackFilter_spec w memo t l o with hs | ⟨hs, hab⟩
  · rw [hs] at h; simp at h
  · rw [hs]; exact ⟨hab, rfl⟩

theorem trackFilter_false {w : World} {memo : List ((Nat × Nat) × Checked)}
    {t l o : Nat} (h : (trackFilter w memo t l o).1 = false) :
    (trackFilter w memo t l o).2 = memo := by
  rcases trackFilter_spec w memo t l o with hs | ⟨hs, -⟩
  · rw [hs]
  · rw [hs] at h; simp at h

theorem trackFreePadCase_memo (w : World) (st : TrackSt) (t l o : Nat) :
    ∀ r, trackFreePadCase w st t l o = some r → r.1.memo = st.memo := by
  intro r hr
  unfold trackFreePadCase at hr
  repeat' split at hr
  all_goals simp_all
  all_goals (obtain ⟨rfl, -⟩ := hr; rfl)

theorem plList_mem {w : World} {p l : Nat} (h : (p, l) ∈ plList w) :
    p ∈ w.pads ∧ l ∈ layersOf w p := by
  unfold plList at h
  obtain ⟨p2, hp2, hm⟩ := List.mem_flatMap.mp h
  obtain ⟨l2, hl2, he⟩ := List.mem_map.mp hm
  rw [Prod.mk.injEq] at he
  obtain ⟨rfl, rfl⟩ := he
  exact ⟨hp2, hl2⟩

theorem tlList_mem {w : World} {t l : Nat} (h : (t, l) ∈ tlList w) :
    t ∈ w.tracks ∧ l ∈ layersOf w t := by
  unfold tlList at h
  obtain ⟨t2, ht2, hm⟩ := List.mem_flatMap.mp h
  obtain ⟨l2, hl2, he⟩ := List.mem_map.mp hm
  rw [Prod.mk.injEq] at he
  obtain ⟨rfl, rfl⟩ := he
  exact ⟨ht2, hl2⟩

/-- The clearance keys of one track-vs-item call: none, or the single
(pair, layer) key of the tested pair. -/
theorem testTrack_clearKeys (w : World) (t l o : Nat) :
    clearKeys (testTrackAgainstItem w t l o).viols = []
    ∨ clearKeys (testTrackAgainstItem w t l o).viols = [(pairKey t o, l)] := by
  unfold clearKeys
  rcases testTrack_clear_filter w t l o with h | ⟨pt, h⟩ <;> rw [h]
  · exact .inl rfl
  · exact .inr (by simp [clearKey])

/-- The clearance keys of one pad-vs-item call: none, or the single
(pair, layer) key of the tested pair. -/
theorem testPad_clearKeys (w : World) (p l o : Nat) :
    clearKeys (testPadAgainstItem w p l o).viols = []
    ∨ clearKeys (testPadAgainstItem w p l o).viols = [(pairKey p o, l)] := by
  unfold clearKeys
  rcases testPad_clear_filter w p l o with h | ⟨pt, h⟩ <;> rw [h]
  · exact .inl rfl
  · exact .inr (by simp [clearKey])

/-- The clearance keys of one item-vs-zone call: none, or the single
(pair, layer) key of the tested pair. -/
theorem testItemZone_clearKeys (w : World) (i z l : Nat) :
    clearKeys (testItemAgainstZone w i z l).1 = []
    ∨ clearKeys (testItemAgainstZone w i z l).1 = [(pairKey i z, l)] := by
  unfold clearKeys
  rcases testItemZone_clear_filter w i z l with h | ⟨pt, h⟩ <;> rw [h]
  · exact .inl rfl
  · exact .inr (by simp [clearKey])

/-- The clearance keys of one knockout-text call: none, or the single
(pair, primary layer) key of the tested pair. -/
theorem knockout_clearKeys (w : World) (g : Nat) (inh : Option Int) (z : Nat) :
    clearKeys (testKnockoutTextAgainstZone w g inh z).2.1 = []
    ∨ clearKeys (testKnockoutTextAgainstZone w g inh z).2.1
        = [(pairKey g z, (w.items g).primaryLayer)] := by
  rcases knockout_single w g inh z with h | ⟨v, h⟩
  · rw [h]; exact .inl rfl
  · obtain ⟨hA, hB, hL, hk⟩ := knockout_viols w g inh z v (by rw [h]; exact .head _)
    rw [h]
    rcases hk with hk | hk
    · refine .inr ?_
      unfold clearKeys
      simp [hk, clearKey, hA, hB, hL]
    · refine .inl ?_
      unfold clearKeys
      simp [hk]

/-- The violations appended by one zonesLoop run: item-vs-zone pairs of
the visited zones, with clearance keys forming a sub-sequence of the
per-zone key list. -/
theorem zonesLoop_keys (w : World) (i l : Nat) :
    ∀ (zs : List Nat) (acc : List Violation × List CollideCall), ∃ tail,
      (zonesLoop w i l acc zs).1 = acc.1 ++ tail
      ∧ (∀ v ∈ tail, v.itemA = i ∧ v.itemB ∈ zs ∧ v.layer = l
          ∧ (v.kind = VKind.clearanceV ∨ v.kind = VKind.holeClearanceV))
      ∧ (clearKeys tail).Sublist (zs.map (fun z => (pairKey i z, l))) := by
  intro zs
  induction zs with
  | nil =>
    intro acc
    exact ⟨[], by simp [zonesLoop], by simp, by simp [clearKeys]⟩
  | cons z zs ih =>
    intro acc
    unfold zonesLoop
    dsimp only
    split
    · refine ⟨(testItemAgainstZone w i z l).1, rfl, ?_, ?_⟩
      · intro v hv
        obtain ⟨hA, hB, hL, hk, -⟩ := testItemZone_viols w i z l v hv
        exact ⟨hA, by simp [hB], hL, hk⟩
      · rcases testItemZone_clearKeys w i z l with h | h <;> rw [h]
        · exact List.nil_sublist _
        · exact (List.nil_sublist _).cons₂ _
    · obtain ⟨tail, ht, hmem, hsub⟩ :=
        ih (acc.1 ++ (testItemAgainstZone w i z l).1,
            acc.2 ++ (testItemAgainstZone w i z l).2)
      refine ⟨(testItemAgainstZone w i z l).1 ++ tail, by rw [ht]; simp, ?_, ?_⟩
      · intro v hv
        rcases List.mem_append.mp hv with hv | hv
        · obtain ⟨hA, hB, hL, hk, -⟩ := testItemZone_viols w i z l v hv
          exact ⟨hA, by simp [hB], hL, hk⟩
        · obtain ⟨hA, hB, hL, hk⟩ := hmem v hv
          exact ⟨hA, by simp [hB], hL, hk⟩
      · rw [clearKeys_append]
        rcases testItemZone_clearKeys w i z l with h | h <;> rw [h]
        · simp only [List.nil_append, List.map_cons]
          exact hsub.trans (List.sublist_cons_self _ _)
        · simp only [List.cons_append, List.nil_append, List.map_cons]
          exact hsub.cons₂ _

/-- The violations appended by one graphicZones run: graphic-vs-zone pairs
of the visited zones, on the primary layer of the graphic, with clearance
keys forming a sub-sequence of the per-zone key list. -/
theorem graphicZones_keys (w : World) (g : Nat) :
    ∀ (zs : List Nat) (acc : Option Int × List Violation × List CollideCall), ∃ tail,
      (graphicZones w g acc zs).1 = acc.2.1 ++ tail
      ∧ (∀ v ∈ tail, v.itemA = g ∧ v.itemB ∈ zs
          ∧ v.layer = (w.items g).primaryLayer)
      ∧ (clearKeys tail).Sublist
          (zs.map (fun z => (pairKey g z, (w.items g).primaryLayer))) := by
  intro zs
  induction zs with
  | nil =>
    intro acc
    exact ⟨[], by simp [graphicZones], by simp, by simp [clearKeys]⟩
  | cons z zs ih =>
    intro acc
    unfold graphicZones
    dsimp only
    split
    · -- knockout text branch
      split
      · refine ⟨(testKnockoutTextAgainstZone w g acc.1 z).2.1, rfl, ?_, ?_⟩
        · intro v hv
          obtain ⟨hA, hB, hL, -⟩ := knockout_viols w g acc.1 z v hv
          exact ⟨hA, by simp [hB], hL⟩
        · rcases knockout_clearKeys w g acc.1 z with h | h <;> rw [h]
          · exact List.nil_sublist _
          · exact (List.nil_sublist _).cons₂ _
      · obtain ⟨tail, ht, hmem, hsub⟩ :=
          ih ((testKnockoutTextAgainstZone w g acc.1 z).1,
              acc.2.1 ++ (testKnockoutTextAgainstZone w g acc.1 z).2.1,
              acc.2.2 ++ (testKnockoutTextAgainstZone w g acc.1 z).2.2)
        refine ⟨(testKnockoutTextAgainstZone w g acc.1 z).2.1 ++ tail,
          by rw [ht]; simp, ?_, ?_⟩
        · intro v hv
          rcases List.mem_append.mp hv with hv | hv
          · obtain ⟨hA, hB, hL, -⟩ := knockout_viols w g acc.1 z v hv
            exact ⟨hA, by simp [hB], hL⟩
          · obtain ⟨hA, hB, hL⟩ := hmem v hv
            exact ⟨hA, by simp [hB], hL⟩
        · rw [clearKeys_append]
          rcases knockout_clearKeys w g acc.1 z with h | h <;> rw [h]
          · simp only [List.nil_append, List.map_cons]
            exact hsub.trans (List.sublist_cons_self _ _)
          · simp only [List.cons_append, List.nil_append, List.map_cons]
            exact hsub.cons₂ _
    · -- plain graphic branch
      split
      · refine ⟨(testItemAgainstZone w g z (w.items g).primaryLayer).1, rfl, ?_, ?_⟩
        · intro v hv
          obtain ⟨hA, hB, hL, -, -⟩ :=
            testItemZone_viols w g z (w.items g).primaryLayer v hv
          exact ⟨hA, by simp [hB], hL⟩
        · rcases testItemZone_clearKeys w g z (w.items g).primaryLayer with h | h <;>
            rw [h]
          · exact List.nil_sublist _
          · exact (List.nil_sublist _).cons₂ _
      · obtain ⟨tail, ht, hmem, hsub⟩ :=
          ih (acc.1,
              acc.2.1 ++ (testItemAgainstZone w g z (w.items g).primaryLayer).1,
              acc.2.2 ++ (testItemAgainstZone w g z (w.items g).primaryLayer).2)
        refine ⟨(testItemAgainstZone w g z (w.items g).primaryLayer).1 ++ tail,
          by rw [ht]; simp, ?_, ?_⟩
        · intro v hv
          rcases List.mem_append.mp hv with hv | hv
          · obtain ⟨hA, hB, hL, -, -⟩ :=
              testItemZone_viols w g z (w.items g).primaryLayer v hv
            exact ⟨hA, by simp [hB], hL⟩
          · obtain ⟨hA, hB, hL⟩ := hmem v hv
            exact ⟨hA, by simp [hB], hL⟩
        · rw [clearKeys_append]
          rcases testItemZone_clearKeys w g z (w.items g).primaryLayer with h | h <;>
            rw [h]
          · simp only [List.nil_append, List.map_cons]
            exact hsub.trans (List.sublist_cons_self _ _)
          · simp only [List.cons_append, List.nil_append, List.map_cons]
            exact hsub.cons₂ _

/-- The pad clearance test is disabled when the other item is of the
track class (tracks are tested in the track phase). -/
theorem padFlags_clear_notTrack (w : World) (p l o : Nat)
    (h : (padFlags w p l o).1 = true) : (w.items o).kind.isTrackClass = false := by
  by_cases ht : (w.items o).kind.isTrackClass = true
  · exfalso
    unfold padFlags at h
    dsimp only at h
    simp [ht] at h
  · simpa using ht

/-- Appending the result of one freshly-memoised pad-vs-item call keeps
the pad-phase invariant. -/
theorem padInv_extend (w : World) (p l o : Nat) (todo : List (Nat × Nat))
    (hppad : (w.items p).kind = ItemKind.pad)
    (hoz : (w.items o).kind ≠ ItemKind.zone)
    (st : PadSt) (habs : (padMemoFind st.memo (pairKey p o)).isSome = false)
    (hinv : padInv w st todo) :
    padInv w ⟨(pairKey p o, 1) :: st.memo,
      st.viols ++ (testPadAgainstItem w p l o).viols,
      st.calls ++ (testPadAgainstItem w p l o).calls⟩ todo := by
  obtain ⟨hnd, hcl⟩ := hinv
  have hpz : (w.items p).kind ≠ ItemKind.zone := by
    rw [hppad]; exact fun h => ItemKind.noConfusion h
  constructor
  · show (clearKeys (st.viols ++ (testPadAgainstItem w p l o).viols)).Nodup
    rw [clearKeys_append]
    rcases testPad_clearKeys w p l o with h | h <;> rw [h]
    · simpa using hnd
    · refine List.Nodup.append hnd (by simp) ?_
      intro K hK1 hK2
      rw [List.mem_singleton] at hK2
      subst hK2
      obtain ⟨v, hv, hvk, hvK⟩ := clearKeys_mem hK1
      have hpair : pairKey v.itemA v.itemB = pairKey p o := congrArg Prod.fst hvK
      rcases hcl v hv hvk with ⟨-, -, -, hrec⟩ | ⟨hA, hB, -, -⟩
      · rw [hpair] at hrec
        rw [hrec] at habs
        exact Bool.noConfusion habs
      · rcases (pairKey_eq_iff _ _ _ _).mp hpair with ⟨h1, h2⟩ | ⟨h1, h2⟩
        · exact hoz (h2 ▸ hB)
        · exact hpz (h2 ▸ hB)
  · intro v hv hvk
    rcases List.mem_append.mp hv with hv | hv
    · rcases hcl v hv hvk with ⟨h1, h2, h3, hrec⟩ | hz
      · exact .inl ⟨h1, h2, h3, padMemoFind_mono _ hrec⟩
      · exact .inr hz
    · obtain ⟨hA, hB, hL, -, hclf, -, -⟩ := testPad_viols_shape w p l o v hv
      have hntk := padFlags_clear_notTrack w p l o (hclf hvk)
      refine .inl ⟨by rw [hA]; exact hppad, by rw [hB]; exact hoz,
        by rw [hB]; exact hntk, ?_⟩
      rw [hA, hB]
      exact padMemoFind_self st.memo (pairKey p o) 1

/-- The pad-phase query preserves the invariant. -/
theorem padQuery_inv (w : World) {p l : Nat}
    (hppad : (w.items p).kind = ItemKind.pad)
    (hok : ∀ o ∈ w.rtree p l, (w.items o).kind ≠ ItemKind.zone)
    (todo : List (Nat × Nat)) :
    ∀ (os : List Nat) (st : PadSt), (∀ o ∈ os, o ∈ w.rtree p l) →
      padInv w st todo → padInv w (padQuery w p l st os) todo := by
  intro os
  induction os with
  | nil => exact fun st _ hinv => hinv
  | cons o os ih =>
    intro st hos hinv
    have hoz : (w.items o).kind ≠ ItemKind.zone := hok o (hos o (.head _))
    unfold padQuery
    dsimp only
    split
    next hft =>
      obtain ⟨habs, hmemo⟩ := padFilter_true hft
      rw [hmemo]
      have hinv3 := padInv_extend w p l o todo hppad hoz st habs hinv
      split
      · exact ih _ (fun o2 ho2 => hos o2 (.tail _ ho2)) hinv3
      · exact hinv3
    next hff =>
      have hf2 : (padFilter st.memo p o).1 = false := by simpa using hff
      rw [padFilter_false hf2]
      exact ih _ (fun o2 ho2 => hos o2 (.tail _ ho2)) hinv

/-- One (pad, layer) step of the pad phase consumes its iteration-list
entry and preserves the invariant. -/
theorem padStepPL_inv (w : World) (hwf : WF w) (st : PadSt) (p l : Nat)
    (todo : List (Nat × Nat)) (hmem : (p, l) ∈ plList w) (hnt : (p, l) ∉ todo)
    (hinv : padInv w st ((p, l) :: todo)) :
    padInv w (padStepPL w st p l) todo := by
  obtain ⟨hTK, hPK, hGK, hZK, hTLn, hPLn, hGn, hZn, hECn, hTrt, hPrt⟩ := hwf
  obtain ⟨hp, hl⟩ := plList_mem hmem
  have hppad : (w.items p).kind = ItemKind.pad := hPK p hp
  have hok : ∀ o ∈ w.rtree p l, (w.items o).kind ≠ ItemKind.zone :=
    fun o ho => hPrt p hp l hl o ho
  obtain ⟨hnd, hcl⟩ := padQuery_inv w hppad hok ((p, l) :: todo) (w.rtree p l)
    st (fun o ho => ho) hinv
  unfold padStepPL
  dsimp only
  obtain ⟨tail, ht, hmemz, hsub⟩ :=
    zonesLoop_keys w p l w.zones
      ((padQuery w p l st (w.rtree p l)).viols, (padQuery w p l st (w.rtree p l)).calls)
  constructor
  · rw [ht, clearKeys_append]
    have hmapnd : (w.zones.map (fun z => (pairKey p z, l))).Nodup := by
      refine List.Nodup.map_on ?_ hZn
      intro z1 h1 z2 h2 he
      rw [Prod.mk.injEq] at he
      exact pairKey_right_inj he.1
    refine List.Nodup.append hnd (List.Nodup.sublist hsub hmapnd) ?_
    intro K hK1 hK2
    obtain ⟨z, hz, he⟩ := List.mem_map.mp (hsub.subset hK2)
    obtain ⟨v, hv, hvk, hvK⟩ := clearKeys_mem hK1
    have h1 : clearKey v = (pairKey p z, l) := hvK.trans he.symm
    have hpair : pairKey v.itemA v.itemB = pairKey p z := by
      have h2 := congrArg Prod.fst h1
      simpa [clearKey] using h2
    have hlay : v.layer = l := by
      have h2 := congrArg Prod.snd h1
      simpa [clearKey] using h2
    have hzk : (w.items z).kind = ItemKind.zone := hZK z hz
    rcases hcl v hv hvk with ⟨hA, hB, -, -⟩ | ⟨hA, hB, -, hnin⟩
    · rcases (pairKey_eq_iff _ _ _ _).mp hpair with ⟨h1, h2⟩ | ⟨h1, h2⟩
      · exact hB (by rw [h2]; exact hzk)
      · have hzp : (w.items z).kind = ItemKind.pad := by rw [← h1]; exact hA
        exact ItemKind.noConfusion (hzp.symm.trans hzk)
    · rcases (pairKey_eq_iff _ _ _ _).mp hpair with ⟨h1, h2⟩ | ⟨h1, h2⟩
      · exact hnin (by rw [h1, hlay]; exact .head _)
      · have hzp : (w.items z).kind = ItemKind.pad := by rw [← h1]; exact hA
        exact ItemKind.noConfusion (hzp.symm.trans hzk)
  · intro v hv hvk
    rw [ht] at hv
    rcases List.mem_append.mp hv with hv | hv
    · rcases hcl v hv hvk with h | ⟨h1, h2, h3, h4⟩
      · exact .inl h
      · exact .inr ⟨h1, h2, h3, fun hin => h4 (.tail _ hin)⟩
    · obtain ⟨hA, hBz, hL, -⟩ := hmemz v hv
      refine .inr ⟨by rw [hA]; exact hppad, hZK v.itemB hBz, hBz, ?_⟩
      rw [hA, hL]
      exact hnt

/-- The pad-phase fold preserves the invariant down to an empty todo
list. -/
theorem padFold_inv (w : World) (hwf : WF w) :
    ∀ (pls : List (Nat × Nat)) (st : PadSt), pls.Nodup →
      (∀ x ∈ pls, x ∈ plList w) → padInv w st pls →
      padInv w (pls.foldl (fun st pl => padStepPL w st pl.1 pl.2) st) [] := by
  intro pls
  induction pls with
  | nil => exact fun st _ _ hinv => hinv
  | cons pl pls ih =>
    intro st hnd hsub hinv
    rw [List.foldl_cons]
    exact ih _ (List.nodup_cons.mp hnd).2 (fun x hx => hsub x (.tail _ hx))
      (padStepPL_inv w hwf st pl.1 pl.2 pls (hsub pl (.head _))
        (List.nodup_cons.mp hnd).1 hinv)

/-- The initial pad-phase state satisfies the invariant. -/
theorem padInv_init (w : World) (todo : List (Nat × Nat)) :
    padInv w PadSt.init todo :=
  ⟨List.nodup_nil, fun v hv => absurd hv (List.not_mem_nil v)⟩

/-- The clearance keys of the whole pad phase are distinct. -/
theorem padPhase_keys (w : World) (hwf : WF w) :
    (clearKeys (padPhase w).viols).Nodup := by
  unfold padPhase
  dsimp only
  split
  · split
    · exact List.nodup_nil
    next pl rest heq =>
      have hmem : pl ∈ plList w := by rw [heq]; exact .head _
      exact (padStepPL_inv w hwf PadSt.init pl.1 pl.2 [] hmem
        (List.not_mem_nil _) (padInv_init w _)).1
  · exact (padFold_inv w hwf (plList w) PadSt.init hwf.2.2.2.2.2.1
      (fun x hx => hx) (padInv_init w _)).1

/-- A clearance violation of one track-vs-item call carries the tested
pair and layer. -/
theorem testTrack_clear_mem {w : World} {t l o : Nat} {v : Violation}
    (hv : v ∈ (testTrackAgainstItem w t l o).viols)
    (hk : v.kind = VKind.clearanceV) :
    v.itemA = t ∧ v.itemB = o ∧ v.layer = l := by
  obtain ⟨cp, hp, he, hc, hh⟩ := testTrack_viols_enum w t l o
  rw [he] at hv
  rcases List.mem_append.mp hv with hv | hv
  · rcases hc with rfl | ⟨pt, rfl⟩
    · simp at hv
    · rw [List.mem_singleton] at hv; subst hv; exact ⟨rfl, rfl, rfl⟩
  · rcases hh with rfl | ⟨pt, rfl⟩ | ⟨pt, rfl⟩
    · simp at hv
    · rw [List.mem_singleton] at hv; subst hv; exact VKind.noConfusion hk
    · rw [List.mem_singleton] at hv; subst hv; exact VKind.noConfusion hk

/-- The track-phase invariant only depends on the violations and the
memo. -/
theorem trackInv_fields {w : World} {a b : TrackSt} {todo : List (Nat × Nat)}
    (hv : a.viols = b.viols) (hm : a.memo = b.memo) (h : trackInv w b todo) :
    trackInv w a todo := by
  unfold trackInv at h ⊢
  rw [hv, hm]
  exact h

/-- The track visitor, run on a state whose memo has just recorded the
fresh (pair, layer) key, preserves the invariant. -/
theorem trackVisitor_inv (w : World) (t l o : Nat)
    (htA : (w.items t).kind.isTrackClass = true)
    (hoz : (w.items o).kind ≠ ItemKind.zone)
    (todo : List (Nat × Nat)) (st : TrackSt)
    (habs : ¬ keyRecorded st.memo (pairKey t o) l)
    (hinv : trackInv w st todo) :
    trackInv w (trackVisitor w { st with memo := memoSetLayer st.memo (pairKey t o) l }
        t l o).1 todo := by
  obtain ⟨hnd, hcl⟩ := hinv
  have htz : (w.items t).kind ≠ ItemKind.zone := trackClass_ne_zone htA
  have hinvS : trackInv w
      { st with memo := memoSetLayer st.memo (pairKey t o) l } todo := by
    refine ⟨hnd, ?_⟩
    intro v hv hvk
    rcases hcl v hv hvk with ⟨h1, h2, h3⟩ | hz
    · exact .inl ⟨h1, h2, keyRecorded_setLayer _ _ h3⟩
    · exact .inr hz
  have hinv2 : trackInv w
      { st with
        memo := memoSetLayer st.memo (pairKey t o) l
        viols := st.viols ++ (testTrackAgainstItem w t l o).viols
        calls := st.calls ++ (testTrackAgainstItem w t l o).calls } todo := by
    constructor
    · show (clearKeys (st.viols ++ (testTrackAgainstItem w t l o).viols)).Nodup
      rw [clearKeys_append]
      rcases testTrack_clearKeys w t l o with h | h <;> rw [h]
      · simpa using hnd
      · refine List.Nodup.append hnd (by simp) ?_
        intro K hK1 hK2
        rw [List.mem_singleton] at hK2
        subst hK2
        obtain ⟨v, hv, hvk, hvK⟩ := clearKeys_mem hK1
        have hpair : pairKey v.itemA v.itemB = pairKey t o := congrArg Prod.fst hvK
        have hlay : v.layer = l := congrArg Prod.snd hvK
        rcases hcl v hv hvk with ⟨-, -, hrec⟩ | ⟨hA, hB, -, -⟩
        · exact habs (hlay ▸ hpair ▸ hrec)
        · rcases (pairKey_eq_iff _ _ _ _).mp hpair with ⟨h1, h2⟩ | ⟨h1, h2⟩
          · exact hoz (by rw [← h2]; exact hB)
          · exact htz (by rw [← h2]; exact hB)
    · intro v hv hvk
      rcases List.mem_append.mp hv with hv | hv
      · rcases hcl v hv hvk with ⟨h1, h2, h3⟩ | hz
        · exact .inl ⟨h1, h2, keyRecorded_setLayer _ _ h3⟩
        · exact .inr hz
      · obtain ⟨hA, hB, hL⟩ := testTrack_clear_mem hv hvk
        refine .inl ⟨by rw [hA]; exact htA, by rw [hB]; exact hoz, ?_⟩
        rw [hA, hB, hL]
        exact memoFind_setLayer_self st.memo (pairKey t o) l
  unfold trackVisitor
  dsimp only
  split
  · exact hinvS
  · split
    next r hr =>
      exact trackInv_fields (trackFreePadCase_shape w _ t l o r hr).1
        (trackFreePadCase_memo w _ t l o r hr) hinvS
    next hr =>
      split
      · exact hinv2
      · have hmark : trackInv w
            { st with
              memo := memoMarkError (memoSetLayer st.memo (pairKey t o) l)
                (pairKey t o)
              viols := st.viols ++ (testTrackAgainstItem w t l o).viols
              calls := st.calls ++ (testTrackAgainstItem w t l o).calls } todo := by
          refine ⟨hinv2.1, ?_⟩
          intro v hv hvk
          rcases hinv2.2 v hv hvk with ⟨h1, h2, h3⟩ | hz
          · exact .inl ⟨h1, h2, keyRecorded_markError _ h3⟩
          · exact .inr hz
        split
        · exact hmark
        · exact hmark

/-- The track-phase query preserves the invariant. -/
theorem trackQuery_inv (w : World) (t l : Nat)
    (htA : (w.items t).kind.isTrackClass = true)
    (hok : ∀ o ∈ w.rtree t l, (w.items o).kind ≠ ItemKind.zone)
    (todo : List (Nat × Nat)) :
    ∀ (os : List Nat) (st : TrackSt), (∀ o ∈ os, o ∈ w.rtree t l) →
      trackInv w st todo → trackInv w (trackQuery w t l st os) todo := by
  intro os
  induction os with
  | nil => exact fun st _ hinv => hinv
  | cons o os ih =>
    intro st hos hinv
    have hoz := hok o (hos o (.head _))
    unfold trackQuery
    dsimp only
    split
    next hft =>
      obtain ⟨habs, hmemo⟩ := trackFilter_true hft
      rw [hmemo]
      have hv := trackVisitor_inv w t l o htA hoz todo st habs hinv
      split
      · exact ih _ (fun o2 ho2 => hos o2 (.tail _ ho2)) hv
      · exact hv
    next hff =>
      have hf2 : (trackFilter w st.memo t l o).1 = false := by simpa using hff
      rw [trackFilter_false hf2]
      exact ih _ (fun o2 ho2 => hos o2 (.tail _ ho2)) hinv

/-- One (track, layer) step of the track phase consumes its iteration-list
entry and preserves the invariant. -/
theorem trackStepTL_inv (w : World) (hwf : WF w) (st : TrackSt) (t l : Nat)
    (todo : List (Nat × Nat)) (hmem : (t, l) ∈ tlList w) (hnt : (t, l) ∉ todo)
    (hinv : trackInv w st ((t, l) :: todo)) :
    trackInv w (trackStepTL w st t l) todo := by
  obtain ⟨hTK, hPK, hGK, hZK, hTLn, hPLn, hGn, hZn, hECn, hTrt, hPrt⟩ := hwf
  obtain ⟨ht0, hl⟩ := tlList_mem hmem
  have htA : (w.items t).kind.isTrackClass = true := hTK t ht0
  have hok : ∀ o ∈ w.rtree t l, (w.items o).kind ≠ ItemKind.zone :=
    fun o ho => hTrt t ht0 l hl o ho
  obtain ⟨hnd, hcl⟩ := trackQuery_inv w t l htA hok ((t, l) :: todo) (w.rtree t l)
    st (fun o ho => ho) hinv
  unfold trackStepTL
  dsimp only
  obtain ⟨tail, hteq, hmemz, hsub⟩ :=
    zonesLoop_keys w t l w.zones
      ((trackQuery w t l st (w.rtree t l)).viols, (trackQuery w t l st (w.rtree t l)).calls)
  constructor
  · rw [hteq, clearKeys_append]
    have hmapnd : (w.zones.map (fun z => (pairKey t z, l))).Nodup := by
      refine List.Nodup.map_on ?_ hZn
      intro z1 h1 z2 h2 he
      rw [Prod.mk.injEq] at he
      exact pairKey_right_inj he.1
    refine List.Nodup.append hnd (List.Nodup.sublist hsub hmapnd) ?_
    intro K hK1 hK2
    obtain ⟨z, hz, he⟩ := List.mem_map.mp (hsub.subset hK2)
    obtain ⟨v, hv, hvk, hvK⟩ := clearKeys_mem hK1
    have h1 : clearKey v = (pairKey t z, l) := hvK.trans he.symm
    have hpair : pairKey v.itemA v.itemB = pairKey t z := by
      have h2 := congrArg Prod.fst h1
      simpa [clearKey] using h2
    have hlay : v.layer = l := by
      have h2 := congrArg Prod.snd h1
      simpa [clearKey] using h2
    have hzk : (w.items z).kind = ItemKind.zone := hZK z hz
    rcases hcl v hv hvk with ⟨hA, hB, -⟩ | ⟨hA, hB, -, hnin⟩
    · rcases (pairKey_eq_iff _ _ _ _).mp hpair with ⟨h1p, h2p⟩ | ⟨h1p, h2p⟩
      · exact hB (by rw [h2p]; exact hzk)
      · exact trackClass_ne_zone hA (by rw [h1p]; exact hzk)
    · rcases (pairKey_eq_iff _ _ _ _).mp hpair with ⟨h1p, h2p⟩ | ⟨h1p, h2p⟩
      · exact hnin (by rw [h1p, hlay]; exact .head _)
      · exact trackClass_ne_zone hA (by rw [h1p]; exact hzk)
  · intro v hv hvk
    rw [hteq] at hv
    rcases List.mem_append.mp hv with hv | hv
    · rcases hcl v hv hvk with h | ⟨h1, h2, h3, h4⟩
      · exact .inl h
      · exact .inr ⟨h1, h2, h3, fun hin => h4 (.tail _ hin)⟩
    · obtain ⟨hA, hBz, hL, -⟩ := hmemz v hv
      refine .inr ⟨by rw [hA]; exact htA, hZK v.itemB hBz, hBz, ?_⟩
      rw [hA, hL]
      exact hnt

/-- The track-phase fold preserves the invariant down to an empty todo
list. -/
theorem trackFold_inv (w : World) (hwf : WF w) :
    ∀ (tls : List (Nat × Nat)) (st : TrackSt), tls.Nodup →
      (∀ x ∈ tls, x ∈ tlList w) → trackInv w st tls →
      trackInv w (tls.foldl (fun st tl => trackStepTL w st tl.1 tl.2) st) [] := by
  intro tls
  induction tls with
  | nil => exact fun st _ _ hinv => hinv
  | cons tl tls ih =>
    intro st hnd hsub hinv
    rw [List.foldl_cons]
    exact ih _ (List.nodup_cons.mp hnd).2 (fun x hx => hsub x (.tail _ hx))
      (trackStepTL_inv w hwf st tl.1 tl.2 tls (hsub tl (.head _))
        (List.nodup_cons.mp hnd).1 hinv)

/-- The initial track-phase state satisfies the invariant. -/
theorem trackInv_init (w : World) (todo : List (Nat × Nat)) :
    trackInv w TrackSt.init todo :=
  ⟨List.nodup_nil, fun v hv => absurd hv (List.not_mem_nil v)⟩

/-- The clearance keys of the whole track phase are distinct. -/
theorem trackPhase_keys (w : World) (hwf : WF w) :
    (clearKeys (trackPhase w).viols).Nodup := by
  unfold trackPhase
  split
  · exact List.nodup_nil
  · exact (trackFold_inv w hwf (tlList w) TrackSt.init hwf.2.2.2.2.1
      (fun x hx => hx) (trackInv_init w _)).1

/-- One graphicStep consumes its graphic and preserves the invariant. -/
theorem graphicStep_inv (w : World)
    (hgz : ∀ z ∈ w.zones, (w.items z).kind = ItemKind.zone) (hZn : w.zones.Nodup)
    (acc : List Violation × List CollideCall) (g : Nat) (todo : List Nat)
    (hgk : (w.items g).kind.isTrackClass = false ∧ (w.items g).kind ≠ ItemKind.pad
      ∧ (w.items g).kind ≠ ItemKind.zone)
    (hnt : g ∉ todo)
    (hinv : graphicInv w acc.1 (g :: todo)) :
    graphicInv w (graphicStep w acc g).1 todo := by
  have hweak : graphicInv w acc.1 todo := by
    refine ⟨hinv.1, ?_⟩
    intro v hv hvk
    obtain ⟨h1, h2, h3, h4, h5, h6⟩ := hinv.2 v hv hvk
    exact ⟨h1, h2, h3, h4, h5, fun hin => h6 (.tail _ hin)⟩
  unfold graphicStep
  dsimp only
  split
  · exact hweak
  · split
    · exact hweak
    · obtain ⟨tail, hteq, hmemz, hsub⟩ :=
        graphicZones_keys w g w.zones (none, acc.1, acc.2)
      rw [hteq]
      constructor
      · rw [clearKeys_append]
        have hmapnd :
            (w.zones.map (fun z => (pairKey g z, (w.items g).primaryLayer))).Nodup := by
          refine List.Nodup.map_on ?_ hZn
          intro z1 h1 z2 h2 he
          rw [Prod.mk.injEq] at he
          exact pairKey_right_inj he.1
        refine List.Nodup.append hinv.1 (List.Nodup.sublist hsub hmapnd) ?_
        intro K hK1 hK2
        obtain ⟨z, hz, he⟩ := List.mem_map.mp (hsub.subset hK2)
        obtain ⟨v, hv, hvk, hvK⟩ := clearKeys_mem hK1
        have h1 : clearKey v = (pairKey g z, (w.items g).primaryLayer) :=
          hvK.trans he.symm
        have hpair : pairKey v.itemA v.itemB = pairKey g z := by
          have h2 := congrArg Prod.fst h1
          simpa [clearKey] using h2
        obtain ⟨hA1, hA2, hA3, hB, hBz, hnin⟩ := hinv.2 v hv hvk
        rcases (pairKey_eq_iff _ _ _ _).mp hpair with ⟨h1p, h2p⟩ | ⟨h1p, h2p⟩
        · exact hnin (by rw [h1p]; exact .head _)
        · exact hA3 (by rw [h1p]; exact hgz z hz)
      · intro v hv hvk
        rcases List.mem_append.mp hv with hv | hv
        · exact hweak.2 v hv hvk
        · obtain ⟨hA, hBz, hL⟩ := hmemz v hv
          refine ⟨by rw [hA]; exact hgk.1, by rw [hA]; exact hgk.2.1,
            by rw [hA]; exact hgk.2.2, hgz v.itemB hBz, hBz, ?_⟩
          rw [hA]
          exact hnt

/-- The graphic-phase fold preserves the invariant down to an empty todo
list. -/
theorem graphicFold_inv (w : World)
    (hgz : ∀ z ∈ w.zones, (w.items z).kind = ItemKind.zone) (hZn : w.zones.Nodup) :
    ∀ (gs : List Nat) (acc : List Violation × List CollideCall), gs.Nodup →
      (∀ x ∈ gs, (w.items x).kind.isTrackClass = false
        ∧ (w.items x).kind ≠ ItemKind.pad ∧ (w.items x).kind ≠ ItemKind.zone) →
      graphicInv w acc.1 gs →
      graphicInv w (gs.foldl (graphicStep w) acc).1 [] := by
  intro gs
  induction gs with
  | nil => exact fun acc _ _ hinv => hinv
  | cons g gs ih =>
    intro acc hnd hkinds hinv
    rw [List.foldl_cons]
    exact ih _ (List.nodup_cons.mp hnd).2 (fun x hx => hkinds x (.tail _ hx))
      (graphicStep_inv w hgz hZn acc g gs (hkinds g (.head _))
        (List.nodup_cons.mp hnd).1 hinv)

/-- The clearance keys of the whole graphic phase are distinct. -/
theorem graphicPhase_keys (w : World) (hwf : WF w) :
    (clearKeys (graphicPhase w).1).Nodup := by
  obtain ⟨hTK, hPK, hGK, hZK, hTLn, hPLn, hGn, hZn, hECn, hTrt, hPrt⟩ := hwf
  have hgk : ∀ x ∈ w.drawings ++ w.fpGraphics,
      (w.items x).kind.isTrackClass = false ∧ (w.items x).kind ≠ ItemKind.pad
        ∧ (w.items x).kind ≠ ItemKind.zone :=
    fun x hx => hGK x hx
  have hinit : graphicInv w [] (w.drawings ++ w.fpGraphics) :=
    ⟨List.nodup_nil, fun v hv => absurd hv (List.not_mem_nil v)⟩
  unfold graphicPhase
  split
  · split
    · exact List.nodup_nil
    next g rest heq =>
      have hg : g ∈ w.drawings ++ w.fpGraphics := by rw [heq]; exact .head _
      exact (graphicStep_inv w hZK hZn ([], []) g [] (hgk g hg) (List.not_mem_nil _)
        ⟨List.nodup_nil, fun v hv => absurd hv (List.not_mem_nil v)⟩).1
  · exact (graphicFold_inv w hZK hZn (w.drawings ++ w.fpGraphics) ([], []) hGn hgk
      hinit).1

/-- Both components of a double-loop zone pair come from the zone list. -/
theorem zonePairsList_mem : ∀ {zs : List Nat} {p : Nat × Nat},
    p ∈ zonePairsList zs → p.1 ∈ zs ∧ p.2 ∈ zs := by
  intro zs
  induction zs with
  | nil => intro p hp; simp [zonePairsList] at hp
  | cons z zs ih =>
    intro p hp
    unfold zonePairsList at hp
    rcases List.mem_append.mp hp with hp | hp
    · obtain ⟨z2, hz2, he⟩ := List.mem_map.mp hp
      subst he
      exact ⟨.head _, .tail _ hz2⟩
    · obtain ⟨h1, h2⟩ := ih hp
      exact ⟨.tail _ h1, .tail _ h2⟩

/-- On a duplicate-free zone list the double loop produces distinct
unordered pairs. -/
theorem zonePairsList_keys_nodup : ∀ {zs : List Nat}, zs.Nodup →
    ((zonePairsList zs).map (fun p => pairKey p.1 p.2)).Nodup := by
  intro zs
  induction zs with
  | nil => intro h; simp [zonePairsList]
  | cons z zs ih =>
    intro h
    obtain ⟨hz, hnd⟩ := List.nodup_cons.mp h
    unfold zonePairsList
    rw [List.map_append, List.map_map]
    refine List.Nodup.append ?_ (ih hnd) ?_
    · refine List.Nodup.map_on ?_ hnd
      intro a ha b hb he
      dsimp only [Function.comp] at he
      rcases (pairKey_eq_iff _ _ _ _).mp he with ⟨-, h2⟩ | ⟨h1, h2⟩
      · exact h2
      · omega
    · intro K hK1 hK2
      obtain ⟨a, ha, he⟩ := List.mem_map.mp hK1
      obtain ⟨q, hq, he2⟩ := List.mem_map.mp hK2
      obtain ⟨hq1, hq2⟩ := zonePairsList_mem hq
      dsimp only [Function.comp] at he
      have hpe : pairKey z a = pairKey q.1 q.2 := he.trans he2.symm
      rcases (pairKey_eq_iff _ _ _ _).mp hpe with ⟨h1, -⟩ | ⟨h1, -⟩
      · exact hz (by rw [h1]; exact hq1)
      · exact hz (by rw [h1]; exact hq2)

/-- Mapping over a filterMap is a sub-sequence of mapping over the source
list, when the two maps agree on successful elements. -/
theorem filterMap_map_sub {α β γ : Type} (f : α → Option β) (g : β → γ) (h : α → γ)
    (hfg : ∀ a b, f a = some b → g b = h a) :
    ∀ xs : List α, ((xs.filterMap f).map g).Sublist (xs.map h) := by
  intro xs
  induction xs with
  | nil => simp
  | cons a xs ih =>
    rcases heq : f a with _ | b
    · rw [List.filterMap_cons_none heq, List.map_cons]
      exact ih.trans (List.sublist_cons_self _ _)
    · rw [List.filterMap_cons_some heq, List.map_cons, List.map_cons, hfg a b heq]
      exact ih.cons₂ _

/-- Every submission of one layer carries that layer. -/
theorem zoneSubsLayer_layer (w : World) (l : Nat) :
    ∀ s ∈ zoneSubsLayer w l, s.layer = l := by
  intro s hs
  obtain ⟨p, hp, hf⟩ := List.mem_filterMap.mp hs
  dsimp only at hf
  repeat' split at hf
  any_goals exact Option.noConfusion hf
  rw [Option.some.injEq] at hf
  subst hf
  rfl

/-- The (pair, layer) keys of one layer of submissions form a
sub-sequence of the double-loop pair keys. -/
theorem zoneSubsLayer_sub (w : World) (l : Nat) :
    ((zoneSubsLayer w l).map (fun s => (pairKey s.za s.zb, s.layer))).Sublist
      ((zonePairsList w.zones).map (fun p => (pairKey p.1 p.2, l))) := by
  unfold zoneSubsLayer
  refine filterMap_map_sub _ _ _ ?_ _
  intro p s hf
  dsimp only at hf
  repeat' split at hf
  any_goals exact Option.noConfusion hf
  rw [Option.some.injEq] at hf
  subst hf
  rfl

/-- The (pair, layer) keys of all zone submissions are distinct. -/
theorem zoneSubs_keys_nodup (w : World) (hZn : w.zones.Nodup)
    (hEn : w.enabledCopper.Nodup) :
    ((zoneSubs w).map (fun s => (pairKey s.za s.zb, s.layer))).Nodup := by
  have hone : ∀ l,
      ((zoneSubsLayer w l).map (fun s => (pairKey s.za s.zb, s.layer))).Nodup := by
    intro l
    have hinj : Function.Injective (fun k : Nat × Nat => (k, l)) := by
      intro a b h
      simpa using h
    have h2 := List.Nodup.map hinj (zonePairsList_keys_nodup hZn)
    rw [List.map_map] at h2
    exact List.Nodup.sublist (zoneSubsLayer_sub w l) h2
  have hmain : ∀ L : List Nat, L.Nodup →
      ((L.flatMap (zoneSubsLayer w)).map
        (fun s => (pairKey s.za s.zb, s.layer))).Nodup := by
    intro L
    induction L with
    | nil => intro h; simp
    | cons l L ih =>
      intro hnd
      rw [List.flatMap_cons, List.map_append]
      refine List.Nodup.append (hone l) (ih (List.nodup_cons.mp hnd).2) ?_
      intro K hK1 hK2
      obtain ⟨s1, hs1, he1⟩ := List.mem_map.mp hK1
      obtain ⟨s2, hs2m, he2⟩ := List.mem_map.mp hK2
      obtain ⟨l2, hl2, hs2⟩ := List.mem_flatMap.mp hs2m
      have h1 : s1.layer = l := zoneSubsLayer_layer w l s1 hs1
      have h2 : s2.layer = l2 := zoneSubsLayer_layer w l2 s2 hs2
      have hll : l = l2 := by
        have he := he1.trans he2.symm
        have hsnd := congrArg Prod.snd he
        dsimp only at hsnd
        rw [h1, h2] at hsnd
        exact hsnd
      exact (List.nodup_cons.mp hnd).1 (by rw [hll]; exact hl2)
  exact hmain w.enabledCopper hEn

/-- Clearance keys of a per-submission flatMap are a sub-sequence of the
submission keys, when each submission contributes at most its own key. -/
theorem clearKeys_flatMap_sub (F : ZoneSub → List Violation)
    (g : ZoneSub → (Nat × Nat) × Nat)
    (hF : ∀ s, clearKeys (F s) = [] ∨ clearKeys (F s) = [g s]) :
    ∀ ss : List ZoneSub, (clearKeys (ss.flatMap F)).Sublist (ss.map g) := by
  intro ss
  induction ss with
  | nil => simp [clearKeys]
  | cons s ss ih =>
    rw [List.flatMap_cons, clearKeys_append, List.map_cons]
    rcases hF s with h | h <;> rw [h]
    · exact ih.trans (List.sublist_cons_self _ _)
    · exact ih.cons₂ _

/-- One collected zone-pair result contributes no clearance key or
exactly the key of its submission. -/
theorem zoneReport_clearKeys (w : World) (tc ti : Bool) (s : ZoneSub) :
    clearKeys (match checkZones w tc ti s with
      | some rd => reportZone tc ti rd
      | none => []) = []
    ∨ clearKeys (match checkZones w tc ti s with
      | some rd => reportZone tc ti rd
      | none => []) = [(pairKey s.za s.zb, s.layer)] := by
  split
  next rd hck =>
    obtain ⟨hza, hzb, hlay, -⟩ := checkZones_fields w tc ti s rd hck
    unfold reportZone
    split
    · exact .inl (by simp [clearKeys])
    · split
      · refine .inr ?_
        simp [clearKeys, clearKey, hza, hzb, hlay]
      · exact .inl rfl
  next => exact .inl rfl

/-- The clearance keys of the whole zone phase are distinct. -/
theorem zonePhase_keys (w : World) (hwf : WF w) :
    (clearKeys (zonePhase w)).Nodup := by
  obtain ⟨hTK, hPK, hGK, hZK, hTLn, hPLn, hGn, hZn, hECn, hTrt, hPrt⟩ := hwf
  unfold zonePhase
  dsimp only
  split
  · exact List.nodup_nil
  · refine List.Nodup.sublist
      (clearKeys_flatMap_sub _ (fun s => (pairKey s.za s.zb, s.layer))
        (fun s => zoneReport_clearKeys w _ _ s) (zoneSubs w))
      (zoneSubs_keys_nodup w hZn hECn)

/-- Equal clearance keys force equal unordered item pairs. -/
theorem clearKey_pair_clash {v1 v2 : Violation} (hK : clearKey v1 = clearKey v2) :
    (v1.itemA = v2.itemA ∧ v1.itemB = v2.itemB)
    ∨ (v1.itemA = v2.itemB ∧ v1.itemB = v2.itemA) := by
  have h := congrArg Prod.fst hK
  dsimp [clearKey] at h
  exact (pairKey_eq_iff _ _ _ _).mp h

/-- Every track-phase clearance violation has a track-class first item. -/
theorem trackPhase_class (w : World) (hwf : WF w) :
    ∀ v ∈ (trackPhase w).viols, v.kind = VKind.clearanceV →
      (w.items v.itemA).kind.isTrackClass = true := by
  unfold trackPhase
  split
  · intro v hv
    exact absurd hv (List.not_mem_nil v)
  · intro v hv hvk
    rcases (trackFold_inv w hwf (tlList w) TrackSt.init hwf.2.2.2.2.1
      (fun x hx => hx) (trackInv_init w _)).2 v hv hvk with ⟨h, -⟩ | ⟨h, -⟩ <;>
      exact h

/-- Every pad-phase clearance violation is a pad against a non-track-class
item. -/
theorem padPhase_class (w : World) (hwf : WF w) :
    ∀ v ∈ (padPhase w).viols, v.kind = VKind.clearanceV →
      (w.items v.itemA).kind = ItemKind.pad
      ∧ (w.items v.itemB).kind.isTrackClass = false := by
  have hzn : ItemKind.zone.isTrackClass = false := rfl
  unfold padPhase
  dsimp only
  split
  · split
    · intro v hv
      exact absurd hv (List.not_mem_nil v)
    next pl rest heq =>
      intro v hv hvk
      have hmem : pl ∈ plList w := by rw [heq]; exact .head _
      rcases (padStepPL_inv w hwf PadSt.init pl.1 pl.2 [] hmem
          (List.not_mem_nil _) (padInv_init w _)).2 v hv hvk with
        ⟨h1, -, h3, -⟩ | ⟨h1, h2, -, -⟩
      · exact ⟨h1, h3⟩
      · exact ⟨h1, by rw [h2]; exact hzn⟩
  · intro v hv hvk
    rcases (padFold_inv w hwf (plList w) PadSt.init hwf.2.2.2.2.2.1
        (fun x hx => hx) (padInv_init w _)).2 v hv hvk with
      ⟨h1, -, h3, -⟩ | ⟨h1, h2, -, -⟩
    · exact ⟨h1, h3⟩
    · exact ⟨h1, by rw [h2]; exact hzn⟩

/-- Every graphic-phase clearance violation is a plain graphic against a
zone. -/
theorem graphicPhase_class (w : World) (hwf : WF w) :
    ∀ v ∈ (graphicPhase w).1, v.kind = VKind.clearanceV →
      ((w.items v.itemA).kind.isTrackClass = false
        ∧ (w.items v.itemA).kind ≠ ItemKind.pad
        ∧ (w.items v.itemA).kind ≠ ItemKind.zone)
      ∧ (w.items v.itemB).kind = ItemKind.zone := by
  obtain ⟨hTK, hPK, hGK, hZK, hTLn, hPLn, hGn, hZn, hECn, hTrt, hPrt⟩ := hwf
  have hgk : ∀ x ∈ w.drawings ++ w.fpGraphics,
      (w.items x).kind.isTrackClass = false ∧ (w.items x).kind ≠ ItemKind.pad
        ∧ (w.items x).kind ≠ ItemKind.zone :=
    fun x hx => hGK x hx
  unfold graphicPhase
  split
  · split
    · intro v hv
      exact absurd hv (List.not_mem_nil v)
    next g rest heq =>
      intro v hv hvk
      have hg : g ∈ w.drawings ++ w.fpGraphics := by rw [heq]; exact .head _
      obtain ⟨h1, h2, h3, h4, -, -⟩ :=
        (graphicStep_inv w hZK hZn ([], []) g [] (hgk g hg) (List.not_mem_nil _)
          ⟨List.nodup_nil, fun v2 hv2 => absurd hv2 (List.not_mem_nil v2)⟩).2 v hv hvk
      exact ⟨⟨h1, h2, h3⟩, h4⟩
  · intro v hv hvk
    obtain ⟨h1, h2, h3, h4, -, -⟩ :=
      (graphicFold_inv w hZK hZn (w.drawings ++ w.fpGraphics) ([], []) hGn hgk
        ⟨List.nodup_nil, fun v2 hv2 => absurd hv2 (List.not_mem_nil v2)⟩).2 v hv hvk
    exact ⟨⟨h1, h2, h3⟩, h4⟩

/-- Every zone-phase violation is between two zones. -/
theorem zonePhase_class (w : World)
    (hZK : ∀ z ∈ w.zones, (w.items z).kind = ItemKind.zone) :
    ∀ v ∈ zonePhase w, (w.items v.itemA).kind = ItemKind.zone
      ∧ (w.items v.itemB).kind = ItemKind.zone := by
  intro v hv
  unfold zonePhase at hv
  dsimp only at hv
  split at hv
  · exact absurd hv (List.not_mem_nil v)
  obtain ⟨s, hsm, hvm⟩ := List.mem_flatMap.mp hv
  have hz : s.za ∈ w.zones ∧ s.zb ∈ w.zones := by
    obtain ⟨l, hl, hmem⟩ := List.mem_flatMap.mp hsm
    obtain ⟨p, hp, hf⟩ := List.mem_filterMap.mp hmem
    have hp2 := zonePairsList_mem hp
    dsimp only at hf
    repeat' split at hf
    any_goals exact Option.noConfusion hf
    rw [Option.some.injEq] at hf
    subst hf
    exact hp2
  split at hvm
  next rd hck =>
    obtain ⟨hza, hzb, -, -⟩ := checkZones_fields w _ _ s rd hck
    unfold reportZone at hvm
    split at hvm
    · rw [List.mem_singleton] at hvm
      subst hvm
      exact ⟨by dsimp only; rw [hza]; exact hZK _ hz.1,
        by dsimp only; rw [hzb]; exact hZK _ hz.2⟩
    · split at hvm
      · rw [List.mem_singleton] at hvm
        subst hvm
        exact ⟨by dsimp only; rw [hza]; exact hZK _ hz.1,
          by dsimp only; rw [hzb]; exact hZK _ hz.2⟩
      · exact absurd hvm (List.not_mem_nil v)
  next => exact absurd hvm (List.not_mem_nil v)

/-- The clearance keys of the four phases together are distinct: each
phase deduplicates itself and the phases touch disjoint kind signatures
of item pairs. -/
theorem phases_keys_nodup (w : World) (hwf : WF w) :
    (clearKeys ((trackPhase w).viols ++ (padPhase w).viols ++ (graphicPhase w).1
      ++ zonePhase w)).Nodup := by
  have hZK : ∀ z ∈ w.zones, (w.items z).kind = ItemKind.zone := hwf.2.2.2.1
  have hT := trackPhase_keys w hwf
  have hP := padPhase_keys w hwf
  have hG := graphicPhase_keys w hwf
  have hZ := zonePhase_keys w hwf
  have hTc := trackPhase_class w hwf
  have hPc := padPhase_class w hwf
  have hGc := graphicPhase_class w hwf
  have hZc := zonePhase_class w hZK
  rw [clearKeys_append, clearKeys_append, clearKeys_append]
  have hpadNT : ItemKind.pad.isTrackClass = false := rfl
  have hzoneNT : ItemKind.zone.isTrackClass = false := rfl
  -- pairwise disjointness of the four key lists
  have dTP : ∀ K, K ∈ clearKeys (trackPhase w).viols →
      K ∈ clearKeys (padPhase w).viols → False := by
    intro K hK1 hK2
    obtain ⟨v1, hv1, hk1, he1⟩ := clearKeys_mem hK1
    obtain ⟨v2, hv2, hk2, he2⟩ := clearKeys_mem hK2
    have h1 := hTc v1 hv1 hk1
    obtain ⟨h2a, h2b⟩ := hPc v2 hv2 hk2
    rcases clearKey_pair_clash (he1.trans he2.symm) with ⟨ha, hb⟩ | ⟨ha, hb⟩
    · rw [ha, h2a] at h1
      exact Bool.noConfusion (hpadNT.symm.trans h1)
    · rw [ha] at h1
      exact Bool.noConfusion (h2b.symm.trans h1)
  have dTG : ∀ K, K ∈ clearKeys (trackPhase w).viols →
      K ∈ clearKeys (graphicPhase w).1 → False := by
    intro K hK1 hK2
    obtain ⟨v1, hv1, hk1, he1⟩ := clearKeys_mem hK1
    obtain ⟨v2, hv2, hk2, he2⟩ := clearKeys_mem hK2
    have h1 := hTc v1 hv1 hk1
    obtain ⟨⟨h2a, -, -⟩, h2b⟩ := hGc v2 hv2 hk2
    rcases clearKey_pair_clash (he1.trans he2.symm) with ⟨ha, hb⟩ | ⟨ha, hb⟩
    · rw [ha] at h1
      exact Bool.noConfusion (h2a.symm.trans h1)
    · rw [ha, h2b] at h1
      exact Bool.noConfusion (hzoneNT.symm.trans h1)
  have dTZ : ∀ K, K ∈ clearKeys (trackPhase w).viols →
      K ∈ clearKeys (zonePhase w) → False := by
    intro K hK1 hK2
    obtain ⟨v1, hv1, hk1, he1⟩ := clearKeys_mem hK1
    obtain ⟨v2, hv2, hk2, he2⟩ := clearKeys_mem hK2
    have h1 := hTc v1 hv1 hk1
    obtain ⟨h2a, h2b⟩ := hZc v2 hv2
    rcases clearKey_pair_clash (he1.trans he2.symm) with ⟨ha, hb⟩ | ⟨ha, hb⟩
    · rw [ha, h2a] at h1
      exact Bool.noConfusion (hzoneNT.symm.trans h1)
    · rw [ha, h2b] at h1
      exact Bool.noConfusion (hzoneNT.symm.trans h1)
  have dPG : ∀ K, K ∈ clearKeys (padPhase w).viols →
      K ∈ clearKeys (graphicPhase w).1 → False := by
    intro K hK1 hK2
    obtain ⟨v1, hv1, hk1, he1⟩ := clearKeys_mem hK1
    obtain ⟨v2, hv2, hk2, he2⟩ := clearKeys_mem hK2
    obtain ⟨h1a, -⟩ := hPc v1 hv1 hk1
    obtain ⟨⟨-, h2b, -⟩, h2c⟩ := hGc v2 hv2 hk2
    rcases clearKey_pair_clash (he1.trans he2.symm) with ⟨ha, hb⟩ | ⟨ha, hb⟩
    · exact h2b (by rw [← ha]; exact h1a)
    · rw [ha, h2c] at h1a
      exact ItemKind.noConfusion h1a
  have dPZ : ∀ K, K ∈ clearKeys (padPhase w).viols →
      K ∈ clearKeys (zonePhase w) → False := by
    intro K hK1 hK2
    obtain ⟨v1, hv1, hk1, he1⟩ := clearKeys_mem hK1
    obtain ⟨v2, hv2, hk2, he2⟩ := clearKeys_mem hK2
    obtain ⟨h1a, -⟩ := hPc v1 hv1 hk1
    obtain ⟨h2a, h2b⟩ := hZc v2 hv2
    rcases clearKey_pair_clash (he1.trans he2.symm) with ⟨ha, hb⟩ | ⟨ha, hb⟩
    · rw [ha, h2a] at h1a
      exact ItemKind.noConfusion h1a
    · rw [ha, h2b] at h1a
      exact ItemKind.noConfusion h1a
  have dGZ : ∀ K, K ∈ clearKeys (graphicPhase w).1 →
      K ∈ clearKeys (zonePhase w) → False := by
    intro K hK1 hK2
    obtain ⟨v1, hv1, hk1, he1⟩ := clearKeys_mem hK1
    obtain ⟨v2, hv2, hk2, he2⟩ := clearKeys_mem hK2
    obtain ⟨⟨-, -, h1a⟩, -⟩ := hGc v1 hv1 hk1
    obtain ⟨h2a, h2b⟩ := hZc v2 hv2
    rcases clearKey_pair_clash (he1.trans he2.symm) with ⟨ha, hb⟩ | ⟨ha, hb⟩
    · exact h1a (by rw [ha]; exact h2a)
    · exact h1a (by rw [ha]; exact h2b)
  refine List.Nodup.append (List.Nodup.append (List.Nodup.append hT hP dTP) hG ?_)
    hZ ?_
  · intro K hK1 hK2
    rcases List.mem_append.mp hK1 with h | h
    · exact dTG K h hK2
    · exact dPG K h hK2
  · intro K hK1 hK2
    rcases List.mem_append.mp hK1 with h | h
    · rcases List.mem_append.mp h with h2 | h2
      · exact dTZ K h2 hK2
      · exact dPZ K h2 hK2
    · exact dGZ K h hK2

/-- The clearance keys of one whole run are distinct. -/
theorem runModel_keys_nodup (w : World) (hwf : WF w) :
    (clearKeys (runModel w).viols).Nodup := by
  have hfull := phases_keys_nodup w hwf
  have hN : ∀ V : List Violation,
      V.Sublist ((trackPhase w).viols ++ (padPhase w).viols ++ (graphicPhase w).1
        ++ zonePhase w) → (clearKeys V).Nodup := by
    intro V hV
    exact List.Nodup.sublist ((hV.filter _).map _) hfull
  unfold runModel
  dsimp only
  split
  · exact List.nodup_nil
  · split
    · exact List.nodup_nil
    · split
      · refine hN _ ?_
        refine List.Sublist.trans ?_ (List.sublist_append_left _ _)
        refine List.Sublist.trans ?_ (List.sublist_append_left _ _)
        refine List.Sublist.trans ?_ (List.sublist_append_left _ _)
        split
        · exact List.Sublist.refl _
        · exact List.nil_sublist _
      · split
        · refine hN _ ?_
          refine List.Sublist.trans ?_ (List.sublist_append_left _ _)
          refine List.Sublist.trans ?_ (List.sublist_append_left _ _)
          refine List.Sublist.append ?_ ?_ <;>
            (split
             · exact List.Sublist.refl _
             · exact List.nil_sublist _)
        · split
          · refine hN _ ?_
            refine List.Sublist.trans ?_ (List.sublist_append_left _ _)
            refine List.Sublist.append (List.Sublist.append ?_ ?_) ?_ <;>
              (split
               · exact List.Sublist.refl _
               · exact List.nil_sublist _)
          · refine hN _ ?_
            refine List.Sublist.append
              (List.Sublist.append (List.Sublist.append ?_ ?_) ?_) ?_ <;>
              (split
               · exact List.Sublist.refl _
               · exact List.nil_sublist _)

/-- A key outside the clearance-key list is counted zero times. -/
theorem clearKeys_countP_zero (vs : List Violation) (K : (Nat × Nat) × Nat)
    (h : K ∉ clearKeys vs) :
    vs.countP (fun v => v.kind == VKind.clearanceV && clearKey v == K) = 0 := by
  rw [List.countP_eq_zero]
  intro v hv
  simp only [Bool.and_eq_true, beq_iff_eq]
  rintro ⟨hk, hK⟩
  refine h ?_
  unfold clearKeys
  exact List.mem_map.mpr ⟨v, List.mem_filter.mpr ⟨hv, by simp [hk]⟩, hK⟩

/-- Distinct clearance keys bound every per-key clearance count by one. -/
theorem clearKeys_countP_le (vs : List Violation) (K : (Nat × Nat) × Nat)
    (h : (clearKeys vs).Nodup) :
    vs.countP (fun v => v.kind == VKind.clearanceV && clearKey v == K) ≤ 1 := by
  induction vs with
  | nil => simp
  | cons v vs ih =>
    rw [List.countP_cons]
    by_cases hk : v.kind = VKind.clearanceV
    · have hck : clearKeys (v :: vs) = clearKey v :: clearKeys vs := by
        unfold clearKeys
        rw [List.filter_cons, if_pos (by simp [hk]), List.map_cons]
      rw [hck] at h
      obtain ⟨hnm, hnd⟩ := List.nodup_cons.mp h
      by_cases hK : clearKey v = K
      · have h0 := clearKeys_countP_zero vs K (by rw [← hK]; exact hnm)
        rw [h0]
        simp [hk, hK]
      · have hp : (v.kind == VKind.clearanceV && clearKey v == K) = false := by
          simp [hK]
        rw [hp]
        simpa using ih hnd
    · have hck : clearKeys (v :: vs) = clearKeys vs := by
        unfold clearKeys
        rw [List.filter_cons, if_neg (by simp [hk])]
      rw [hck] at h
      have hp : (v.kind == VKind.clearanceV && clearKey v == K) = false := by
        simp [hk]
      rw [hp]
      simpa using ih h

/-! ### Claim C4 -/

/-- Claim C4: on a well-formed board, at most one CLEARANCE violation is
reported between any unordered item pair on any layer during a single
run.  Each phase deduplicates its own pairs (per-layer memo in the track
phase, pair memo in the pad phase, iteration structure in the graphic and
zone phases), and no pair kind signature is shared by two phases — in
particular the pad path disables the clearance test against track-class
items, which the track phase already covers.  The bound holds even with
the report-all-track-errors mode enabled, since the per-layer memo bit is
set before a pair is visited. -/
theorem C4_clearance_once (w : World) (hwf : WF w) (a b layer : Nat) :
    (runModel w).viols.countP
      (fun v => v.kind == VKind.clearanceV && clearKey v == (pairKey a b, layer))
      ≤ 1 :=
  clearKeys_countP_le (runModel w).viols (pairKey a b, layer)
    (runModel_keys_nodup w hwf)

/-- Claim C4 witness: the run on the pad-near-track board reports its one
clearance violation for the pair once. -/
theorem C4_witness :
    WF c4World
    ∧ (runModel c4World).viols.countP
        (fun v => v.kind == VKind.clearanceV && clearKey v == (pairKey 1 2, 0)) ≤ 1 :=
  ⟨by decide, C4_clearance_once c4World (by decide) 1 2 0⟩

end KicadDrc
